import Mathlib

/-!
The cookie consent store of `tna-frontend` (`src/nationalarchives/lib/cookies.mjs`).

A shallow embedding of the `Cookies` class and of the pieces of the JavaScript
platform it runs on, followed by theorems about its behaviour.

Modelling conventions:

* A JavaScript string is a `Str`, a list of Unicode scalar values.  Strings that
  hold an unpaired surrogate code unit are outside the model.
* `encodeURIComponent`, `decodeURIComponent`, `JSON.stringify`, `JSON.parse`,
  `String.prototype.split` and `trim`, the property order of ordinary objects
  and the `__proto__` accessor are modelled after ECMAScript.  A JSON number is
  carried as its literal text, since the store never computes with one.
* `String.prototype.toLowerCase` is a parameter `toLowerCase : Str → Str` of the
  methods that call it (`init`, hence the constructor, `acceptAllPolicies` and
  `rejectAllPolicies`): the general theorems hold for every such function.
  Where a concrete store is evaluated, on names made of ASCII characters, the
  parameter is `asciiToLowerCase`, which is what the method does on such names.
* `document.cookie` is modelled after RFC 6265 (section 5.2 for the setter,
  5.4 for the getter) over a cookie jar keyed by name, domain and path.  The
  page is taken to be served over HTTPS from the site root by a host that
  every supplied `domain` attribute matches, so the browser refuses no write
  and shows every stored cookie; size limits and the `Expires` attribute
  (which the store never emits) are not modelled.
* Observers are opaque handles.  Invoking one appends an entry to
  `World.calls`; an observer neither throws nor touches the store.
* A JavaScript exception is an `Except.error`; every operation returns the
  world it leaves behind together with its result.
-/

namespace Cookies

/-! ## Strings -/

/-- A JavaScript string, as a list of Unicode scalar values. -/
abbrev Str := List Char

/-- The exceptions that can surface from the store.  `IllFormedString` is not a
JavaScript exception: it stands for a result that would hold an unpaired
surrogate, which `Str` cannot represent. -/
inductive JSError
  | URIError
  | SyntaxError
  | TypeError
  | IllFormedString
  deriving DecidableEq, Repr

instance instDecidableEqExcept {ε α : Type} [DecidableEq ε] [DecidableEq α] :
    DecidableEq (Except ε α)
  | .ok a, .ok b => if h : a = b then isTrue (by rw [h]) else isFalse (by intro e; cases e; exact h rfl)
  | .error a, .error b =>
    if h : a = b then isTrue (by rw [h]) else isFalse (by intro e; cases e; exact h rfl)
  | .ok _, .error _ => isFalse (by intro e; cases e)
  | .error _, .ok _ => isFalse (by intro e; cases e)

/-- The apostrophe, U+0027. -/
def apostrophe : Char := Char.ofNat 39

/-- The characters `encodeURIComponent` leaves alone: ASCII letters and digits
and `- _ . ! ~ * ' ( )`. -/
def isUnreserved (c : Char) : Bool :=
  c.isAlphanum || c = '-' || c = '_' || c = '.' || c = '!' || c = '~' || c = '*' ||
    c = apostrophe || c = '(' || c = ')'

/-- The UTF-8 octets of a code point. -/
def utf8Octets (n : Nat) : List Nat :=
  if n < 0x80 then [n]
  else if n < 0x800 then [0xC0 + n / 64, 0x80 + n % 64]
  else if n < 0x10000 then [0xE0 + n / 4096, 0x80 + n / 64 % 64, 0x80 + n % 64]
  else [0xF0 + n / 262144, 0x80 + n / 4096 % 64, 0x80 + n / 64 % 64, 0x80 + n % 64]

/-- An upper-case hexadecimal digit. -/
def hexDigitUpper (n : Nat) : Char :=
  if n < 10 then Char.ofNat (48 + n) else Char.ofNat (55 + n)

/-- A lower-case hexadecimal digit. -/
def hexDigitLower (n : Nat) : Char :=
  if n < 10 then Char.ofNat (48 + n) else Char.ofNat (87 + n)

/-- One octet as `%XX`. -/
def percentOctet (b : Nat) : Str :=
  ['%', hexDigitUpper (b / 16), hexDigitUpper (b % 16)]

/-- What `encodeURIComponent` writes for one character. -/
def encodeChar (c : Char) : Str :=
  if isUnreserved c then [c] else (utf8Octets c.toNat).flatMap percentOctet

/-- The global `encodeURIComponent`, on well-formed strings (where it does not
throw). -/
def encodeURIComponent (s : Str) : Str :=
  s.flatMap encodeChar

/-- The value of a hexadecimal digit of either case. -/
def hexVal (c : Char) : Option Nat :=
  if '0' ≤ c ∧ c ≤ '9' then some (c.toNat - 48)
  else if 'a' ≤ c ∧ c ≤ 'f' then some (c.toNat - 87)
  else if 'A' ≤ c ∧ c ≤ 'F' then some (c.toNat - 55)
  else none

/-- The number of leading one bits of an octet, capped at five. -/
def leadingOnes (b : Nat) : Nat :=
  if b < 0x80 then 0
  else if b < 0xC0 then 1
  else if b < 0xE0 then 2
  else if b < 0xF0 then 3
  else if b < 0xF8 then 4
  else 5

/-- A continuation octet `10xxxxxx`. -/
def isContinuation (b : Nat) : Bool :=
  0x80 ≤ b && b < 0xC0

/-- The code point of a multi-octet UTF-8 sequence, when the sequence is valid:
continuation octets in range, shortest form, not a surrogate, at most
U+10FFFF. -/
def decodeUtf8 : List Nat → Option Char
  | [b0, b1] =>
    let cp := b0 % 32 * 64 + b1 % 64
    if isContinuation b1 ∧ 0x80 ≤ cp then some (Char.ofNat cp) else none
  | [b0, b1, b2] =>
    let cp := b0 % 16 * 4096 + b1 % 64 * 64 + b2 % 64
    if isContinuation b1 ∧ isContinuation b2 ∧ 0x800 ≤ cp ∧ ¬ (0xD800 ≤ cp ∧ cp ≤ 0xDFFF) then
      some (Char.ofNat cp)
    else none
  | [b0, b1, b2, b3] =>
    let cp := b0 % 8 * 262144 + b1 % 64 * 4096 + b2 % 64 * 64 + b3 % 64
    if isContinuation b1 ∧ isContinuation b2 ∧ isContinuation b3 ∧ 0x10000 ≤ cp ∧ cp ≤ 0x10FFFF then
      some (Char.ofNat cp)
    else none
  | _ => none

/-- The decoding loop of `decodeURIComponent`.  `pending` holds the octets of
the UTF-8 sequence read so far and `need` the number of `%XX` escapes it still
lacks. -/
def decodeFrom (pending : List Nat) (need : Nat) : Str → Except JSError Str
  | [] => if need = 0 then .ok [] else .error .URIError
  | c :: rest =>
    if c = '%' then
      match rest with
      | h :: l :: rest2 =>
        match hexVal h, hexVal l with
        | some a, some b =>
          let octet := 16 * a + b
          if need = 0 then
            match leadingOnes octet with
            | 0 => (decodeFrom [] 0 rest2).map (Char.ofNat octet :: ·)
            | 2 => decodeFrom [octet] 1 rest2
            | 3 => decodeFrom [octet] 2 rest2
            | 4 => decodeFrom [octet] 3 rest2
            | _ => .error .URIError
          else if need = 1 then
            match decodeUtf8 (pending ++ [octet]) with
            | some ch => (decodeFrom [] 0 rest2).map (ch :: ·)
            | none => .error .URIError
          else decodeFrom (pending ++ [octet]) (need - 1) rest2
        | _, _ => .error .URIError
      | _ => .error .URIError
    else if need = 0 then (decodeFrom [] 0 rest).map (c :: ·)
    else .error .URIError

/-- The global `decodeURIComponent`. -/
def decodeURIComponent (s : Str) : Except JSError Str :=
  decodeFrom [] 0 s

/-! ## Ordinary objects -/

/-- The own enumerable string-keyed properties of an ordinary object, in the
order `OrdinaryOwnPropertyKeys` reports them. -/
abbrev JSObj (α : Type) := List (Str × α)

/-- The value of a run of decimal digits. -/
def digitsVal (s : Str) : Nat :=
  s.foldl (fun n c => 10 * n + (c.toNat - 48)) 0

/-- The array index a property name denotes, if it is one: a canonical decimal
numeral below `2^32 - 1`. -/
def arrayIndex? (k : Str) : Option Nat :=
  if k ≠ [] ∧ k.all Char.isDigit = true ∧ (k.head? = some '0' → k = ['0']) ∧
      digitsVal k < 2 ^ 32 - 1 then
    some (digitsVal k)
  else none

/-- Models `Object.prototype.hasOwnProperty.call(o, k)` on an ordinary object. -/
def JSObj.has {α : Type} (o : JSObj α) (k : Str) : Bool :=
  o.any (fun p => p.1 = k)

/-- The value of the own property `k`, if there is one. -/
def JSObj.get? {α : Type} (o : JSObj α) (k : Str) : Option α :=
  match o with
  | [] => none
  | p :: ps => if p.1 = k then some p.2 else JSObj.get? ps k

/-- Own property names, `Object.keys(o)`. -/
def JSObj.keys {α : Type} (o : JSObj α) : List Str :=
  o.map Prod.fst

/-- Places a new array-index property among the index properties, which come
first and in ascending order. -/
def JSObj.insertIndex {α : Type} (i : Nat) (k : Str) (v : α) : JSObj α → JSObj α
  | [] => [(k, v)]
  | p :: ps =>
    match arrayIndex? p.1 with
    | some j => if j < i then p :: JSObj.insertIndex i k v ps else (k, v) :: p :: ps
    | none => (k, v) :: p :: ps

/-- Models `CreateDataProperty(o, k, v)`: an existing property keeps its place and
takes the new value; a new one is added, array indices before other names.
Object literals, computed keys, spread, `Object.fromEntries` and `JSON.parse`
all define properties this way. -/
def JSObj.define {α : Type} (k : Str) (v : α) (o : JSObj α) : JSObj α :=
  if o.has k then o.map (fun p => if p.1 = k then (p.1, v) else p)
  else
    match arrayIndex? k with
    | some i => JSObj.insertIndex i k v o
    | none => o ++ [(k, v)]

/-- The name of the `__proto__` accessor of `Object.prototype`. -/
def protoName : Str := "__proto__".toList

/-- The assignment `o[k] = v` on an ordinary object that inherits from
`Object.prototype`.  For `k = "__proto__"` the inherited setter runs instead:
it may replace the prototype of `o` but creates no own property. -/
def JSObj.assign {α : Type} (k : Str) (v : α) (o : JSObj α) : JSObj α :=
  if k = protoName then o else o.define k v

/-- Defines the given entries one after another, as object spread
(`CopyDataProperties`) and `Object.fromEntries` do. -/
def JSObj.defineAll {α : Type} (o : JSObj α) (entries : List (Str × α)) : JSObj α :=
  entries.foldl (fun acc p => acc.define p.1 p.2) o

/-- Models `Object.fromEntries(entries)`. -/
def JSObj.fromEntries {α : Type} (entries : List (Str × α)) : JSObj α :=
  JSObj.defineAll [] entries

/-! ## JSON values -/

/-- The values `JSON.parse` can return. -/
inductive JSON
  | null
  | bool (b : Bool)
  | num (literal : Str)
  | str (s : Str)
  | arr (elements : List JSON)
  | obj (properties : List (Str × JSON))

mutual
/-- Decides equality of JSON values. -/
def JSON.decEq : (a b : JSON) → Decidable (a = b)
  | .null, .null => isTrue rfl
  | .bool a, .bool b =>
    if h : a = b then isTrue (by rw [h]) else isFalse (by intro e; cases e; exact h rfl)
  | .num a, .num b =>
    if h : a = b then isTrue (by rw [h]) else isFalse (by intro e; cases e; exact h rfl)
  | .str a, .str b =>
    if h : a = b then isTrue (by rw [h]) else isFalse (by intro e; cases e; exact h rfl)
  | .arr a, .arr b =>
    match JSON.decEqElements a b with
    | isTrue h => isTrue (by rw [h])
    | isFalse h => isFalse (by intro e; cases e; exact h rfl)
  | .obj a, .obj b =>
    match JSON.decEqProperties a b with
    | isTrue h => isTrue (by rw [h])
    | isFalse h => isFalse (by intro e; cases e; exact h rfl)
  | .null, .bool _ | .null, .num _ | .null, .str _ | .null, .arr _ | .null, .obj _
  | .bool _, .null | .bool _, .num _ | .bool _, .str _ | .bool _, .arr _ | .bool _, .obj _
  | .num _, .null | .num _, .bool _ | .num _, .str _ | .num _, .arr _ | .num _, .obj _
  | .str _, .null | .str _, .bool _ | .str _, .num _ | .str _, .arr _ | .str _, .obj _
  | .arr _, .null | .arr _, .bool _ | .arr _, .num _ | .arr _, .str _ | .arr _, .obj _
  | .obj _, .null | .obj _, .bool _ | .obj _, .num _ | .obj _, .str _ | .obj _, .arr _ =>
    isFalse (by intro e; cases e)
/-- Decides equality of lists of JSON values. -/
def JSON.decEqElements : (a b : List JSON) → Decidable (a = b)
  | [], [] => isTrue rfl
  | [], _ :: _ | _ :: _, [] => isFalse (by intro e; cases e)
  | x :: xs, y :: ys =>
    match JSON.decEq x y, JSON.decEqElements xs ys with
    | isTrue h, isTrue h2 => isTrue (by rw [h, h2])
    | isFalse h, _ => isFalse (by intro e; cases e; exact h rfl)
    | _, isFalse h => isFalse (by intro e; cases e; exact h rfl)
/-- Decides equality of property lists. -/
def JSON.decEqProperties : (a b : List (Str × JSON)) → Decidable (a = b)
  | [], [] => isTrue rfl
  | [], _ :: _ | _ :: _, [] => isFalse (by intro e; cases e)
  | (k, x) :: xs, (l, y) :: ys =>
    if hk : k = l then
      match JSON.decEq x y, JSON.decEqProperties xs ys with
      | isTrue h, isTrue h2 => isTrue (by rw [h, h2, hk])
      | isFalse h, _ => isFalse (by intro e; cases e; exact h rfl)
      | _, isFalse h => isFalse (by intro e; cases e; exact h rfl)
    else isFalse (by intro e; cases e; exact hk rfl)
end

instance : DecidableEq JSON := JSON.decEq

/-- The decimal numeral of a natural number, as `String(n)` writes it. -/
def natToStr (n : Nat) : Str := Nat.toDigits 10 n

/-- The length of a string in UTF-16 code units. -/
def utf16Length (s : Str) : Nat :=
  (s.map (fun c => if c.toNat < 0x10000 then 1 else 2)).sum

/-- The name of the `length` property. -/
def lengthName : Str := "length".toList

/-- The own enumerable properties that object spread copies out of a value
(`CopyDataProperties`): the properties of an object, the indexed elements of
an array, the indexed code units of a string, and nothing for `null`, a
boolean or a number. -/
def JSON.ownEntries : JSON → Except JSError (JSObj JSON)
  | .obj ps => .ok ps
  | .arr xs => .ok (xs.enum.map (fun p => (natToStr p.1, p.2)))
  | .str s =>
    if s.all (fun c => c.toNat < 0x10000) then
      .ok (s.enum.map (fun p => (natToStr p.1, JSON.str [p.2])))
    else .error .IllFormedString
  | _ => .ok []

/-- Models `Object.keys(v)`; `null` has no object form. -/
def JSON.ownKeys : JSON → Except JSError (List Str)
  | .null => .error .TypeError
  | .obj ps => .ok (JSObj.keys ps)
  | .arr xs => .ok ((List.range xs.length).map natToStr)
  | .str s => .ok ((List.range (utf16Length s)).map natToStr)
  | _ => .ok []

/-- Models `Object.prototype.hasOwnProperty.call(v, k)`; `null` has no object form. -/
def JSON.hasOwn (v : JSON) (k : Str) : Except JSError Bool :=
  match v with
  | .null => .error .TypeError
  | .obj ps => .ok (JSObj.has ps k)
  | .arr xs =>
    .ok (k = lengthName || match arrayIndex? k with | some i => i < xs.length | none => false)
  | .str s =>
    .ok (k = lengthName || match arrayIndex? k with | some i => i < utf16Length s | none => false)
  | _ => .ok false

/-- The test `v[k] === true` for an own property `k` of `v`. -/
def JSON.isTrueAt (v : JSON) (k : Str) : Bool :=
  match v with
  | .obj ps => JSObj.get? ps k = some (JSON.bool true)
  | .arr xs =>
    match arrayIndex? k with
    | some i => xs.get? i = some (JSON.bool true)
    | none => false
  | _ => false

/-- Models `QuoteJSONString` on one character. -/
def quoteChar (c : Char) : Str :=
  if c = '"' then ['\\', '"']
  else if c = '\\' then ['\\', '\\']
  else if c.toNat = 8 then ['\\', 'b']
  else if c.toNat = 9 then ['\\', 't']
  else if c.toNat = 10 then ['\\', 'n']
  else if c.toNat = 12 then ['\\', 'f']
  else if c.toNat = 13 then ['\\', 'r']
  else if c.toNat < 0x20 then
    ['\\', 'u', '0', '0', hexDigitLower (c.toNat / 16), hexDigitLower (c.toNat % 16)]
  else [c]

/-- Models `QuoteJSONString`: the JSON string literal of a string. -/
def quoteJSONString (s : Str) : Str :=
  '"' :: (s.flatMap quoteChar ++ ['"'])

mutual
/-- Models `JSON.stringify(v)` without indentation. -/
def JSON.stringify : JSON → Str
  | .null => "null".toList
  | .bool true => "true".toList
  | .bool false => "false".toList
  | .num literal => literal
  | .str s => quoteJSONString s
  | .arr xs => '[' :: (JSON.stringifyElements xs ++ [']'])
  | .obj ps => '{' :: (JSON.stringifyProperties ps ++ ['}'])
/-- The elements of an array, separated by commas. -/
def JSON.stringifyElements : List JSON → Str
  | [] => []
  | x :: rest =>
    match rest with
    | [] => JSON.stringify x
    | _ :: _ => JSON.stringify x ++ ',' :: JSON.stringifyElements rest
/-- The members of an object, separated by commas. -/
def JSON.stringifyProperties : List (Str × JSON) → Str
  | [] => []
  | (k, x) :: rest =>
    match rest with
    | [] => quoteJSONString k ++ ':' :: JSON.stringify x
    | _ :: _ => quoteJSONString k ++ ':' :: JSON.stringify x ++ ',' :: JSON.stringifyProperties rest
end

/-- JSON white space. -/
def isJSONSpace (c : Char) : Bool :=
  c = ' ' || c.toNat = 9 || c.toNat = 10 || c.toNat = 13

/-- Drops leading JSON white space. -/
def skipSpace : Str → Str
  | [] => []
  | c :: rest => if isJSONSpace c then skipSpace rest else c :: rest

/-- The character a one-letter JSON escape stands for. -/
def simpleEscape (c : Char) : Option Char :=
  if c = '"' then some '"'
  else if c = '\\' then some '\\'
  else if c = '/' then some '/'
  else if c = 'b' then some (Char.ofNat 8)
  else if c = 'f' then some (Char.ofNat 12)
  else if c = 'n' then some (Char.ofNat 10)
  else if c = 'r' then some (Char.ofNat 13)
  else if c = 't' then some (Char.ofNat 9)
  else none

/-- Where the reader of a JSON string literal stands. -/
inductive StringState
  /-- between two characters of the string -/
  | plain
  /-- after a backslash -/
  | escape
  /-- inside a `\u` escape, after the hexadecimal digits `digits`; `high` is the
  high surrogate that the `\u` escape just before this one denoted, if any -/
  | unicode (digits : List Nat) (high : Option Nat)
  /-- after the `\u` escape of the high surrogate `high`, before the backslash
  of the escape that has to follow -/
  | pairBackslash (high : Nat)
  /-- after that backslash, before its `u` -/
  | pairU (high : Nat)

/-- The number a list of hexadecimal digits denotes. -/
def hexDigitsVal (digits : List Nat) : Nat :=
  digits.foldl (fun n d => 16 * n + d) 0

/-- The character a pair of `\u` escapes denotes when the first is a high
surrogate `n` and the second a low surrogate `m`. -/
def surrogatePair (n m : Nat) : Char :=
  Char.ofNat (0x10000 + (n - 0xD800) * 0x400 + (m - 0xDC00))

/-- Reads on in a JSON string literal: the rest of the string it denotes and
the input after the closing quote.  A `\u` escape of a high surrogate joins the
`\u` escape of a low surrogate that follows it; a `\u` escape of a surrogate
without its partner denotes a string outside the model, which is reported as
soon as it is seen. -/
def parseStringFrom : StringState → Str → Except JSError (Str × Str)
  | _, [] => .error .SyntaxError
  | .plain, c :: rest =>
    if c = '"' then .ok ([], rest)
    else if c = '\\' then parseStringFrom .escape rest
    else if c.toNat < 0x20 then .error .SyntaxError
    else (parseStringFrom .plain rest).map (fun r => (c :: r.1, r.2))
  | .escape, e :: rest =>
    if e = 'u' then parseStringFrom (.unicode [] none) rest
    else
      match simpleEscape e with
      | some ch => (parseStringFrom .plain rest).map (fun r => (ch :: r.1, r.2))
      | none => .error .SyntaxError
  | .unicode digits high, h :: rest =>
    match hexVal h with
    | none => .error .SyntaxError
    | some d =>
      if digits.length < 3 then parseStringFrom (.unicode (digits ++ [d]) high) rest
      else
        match high with
        | some n =>
          if 0xDC00 ≤ hexDigitsVal (digits ++ [d]) ∧ hexDigitsVal (digits ++ [d]) ≤ 0xDFFF then
            (parseStringFrom .plain rest).map (fun r =>
              (surrogatePair n (hexDigitsVal (digits ++ [d])) :: r.1, r.2))
          else .error .IllFormedString
        | none =>
          if 0xD800 ≤ hexDigitsVal (digits ++ [d]) ∧ hexDigitsVal (digits ++ [d]) ≤ 0xDBFF then
            parseStringFrom (.pairBackslash (hexDigitsVal (digits ++ [d]))) rest
          else if 0xDC00 ≤ hexDigitsVal (digits ++ [d]) ∧
              hexDigitsVal (digits ++ [d]) ≤ 0xDFFF then
            .error .IllFormedString
          else
            (parseStringFrom .plain rest).map (fun r =>
              (Char.ofNat (hexDigitsVal (digits ++ [d])) :: r.1, r.2))
  | .pairBackslash high, c :: rest =>
    if c = '\\' then parseStringFrom (.pairU high) rest else .error .IllFormedString
  | .pairU high, c :: rest =>
    if c = 'u' then parseStringFrom (.unicode [] (some high)) rest else .error .IllFormedString

/-- Reads a JSON string literal after its opening quote: the string it denotes
and the input after the closing quote. -/
def parseStringBody (s : Str) : Except JSError (Str × Str) :=
  parseStringFrom .plain s

/-- Splits off the longest run of decimal digits. -/
def takeDigits : Str → Str × Str
  | [] => ([], [])
  | c :: rest =>
    if c.isDigit then ((takeDigits rest).1.cons c, (takeDigits rest).2) else ([], c :: rest)

/-- Reads the integer part of a JSON number: `0`, or a non-zero digit and more
digits. -/
def parseIntPart : Str → Option (Str × Str)
  | [] => none
  | c :: rest =>
    if c = '0' then some (['0'], rest)
    else if c.isDigit then some (c :: (takeDigits rest).1, (takeDigits rest).2)
    else none

/-- Reads an optional fraction `.digits`. -/
def parseFraction : Str → Option (Str × Str)
  | '.' :: rest =>
    if (takeDigits rest).1 = [] then none else some ('.' :: (takeDigits rest).1, (takeDigits rest).2)
  | s => some ([], s)

/-- Reads an optional exponent `e`, sign, digits. -/
def parseExponent : Str → Option (Str × Str)
  | [] => some ([], [])
  | e :: rest =>
    if e = 'e' ∨ e = 'E' then
      match rest with
      | [] => none
      | sgn :: rest2 =>
        if sgn = '+' ∨ sgn = '-' then
          if (takeDigits rest2).1 = [] then none
          else some (e :: sgn :: (takeDigits rest2).1, (takeDigits rest2).2)
        else if (takeDigits rest).1 = [] then none
        else some (e :: (takeDigits rest).1, (takeDigits rest).2)
    else some ([], e :: rest)

/-- Reads a JSON number: its literal and the input after it. -/
def parseNumber (s : Str) : Option (Str × Str) :=
  let signed : Str × Str :=
    match s with
    | '-' :: rest => (['-'], rest)
    | _ => ([], s)
  match parseIntPart signed.2 with
  | none => none
  | some (int, r1) =>
    match parseFraction r1 with
    | none => none
    | some (frac, r2) =>
      match parseExponent r2 with
      | none => none
      | some (exp, r3) => some (signed.1 ++ int ++ frac ++ exp, r3)

/-- Removes `lit` from the front of the input, if it is there. -/
def dropLiteral : Str → Str → Option Str
  | [], s => some s
  | _ :: _, [] => none
  | a :: as, c :: cs => if a = c then dropLiteral as cs else none

mutual
/-- Reads one JSON value from input that starts at its first character; returns
the value and the input after it.  `fuel` bounds the nesting depth plus the
length of the longest member list. -/
def parseValue : Nat → Str → Except JSError (JSON × Str)
  | 0, _ => .error .SyntaxError
  | fuel + 1, s =>
    match s with
    | [] => .error .SyntaxError
    | c :: rest =>
      if c = '{' then
        match skipSpace rest with
        | [] => .error .SyntaxError
        | d :: rest2 =>
          if d = '}' then .ok (.obj [], rest2)
          else
            match parseMembers fuel (d :: rest2) with
            | .ok (ps, r) => .ok (.obj (JSObj.fromEntries ps), r)
            | .error e => .error e
      else if c = '[' then
        match skipSpace rest with
        | [] => .error .SyntaxError
        | d :: rest2 =>
          if d = ']' then .ok (.arr [], rest2)
          else
            match parseElements fuel (d :: rest2) with
            | .ok (xs, r) => .ok (.arr xs, r)
            | .error e => .error e
      else if c = '"' then
        match parseStringBody rest with
        | .ok (str, r) => .ok (.str str, r)
        | .error e => .error e
      else
        match dropLiteral "true".toList s, dropLiteral "false".toList s,
          dropLiteral "null".toList s with
        | some r, _, _ => .ok (.bool true, r)
        | _, some r, _ => .ok (.bool false, r)
        | _, _, some r => .ok (.null, r)
        | none, none, none =>
          match parseNumber s with
          | some (literal, r) => .ok (.num literal, r)
          | none => .error .SyntaxError
/-- Reads the members of an object up to and including its closing brace, from
input that starts at the first character of a member. -/
def parseMembers : Nat → Str → Except JSError (List (Str × JSON) × Str)
  | 0, _ => .error .SyntaxError
  | fuel + 1, s =>
    match s with
    | [] => .error .SyntaxError
    | q :: rest =>
      if q = '"' then
        match parseStringBody rest with
        | .error e => .error e
        | .ok (k, r1) =>
          match skipSpace r1 with
          | [] => .error .SyntaxError
          | colon :: r2 =>
            if colon = ':' then
              match parseValue fuel (skipSpace r2) with
              | .error e => .error e
              | .ok (v, r3) =>
                match skipSpace r3 with
                | [] => .error .SyntaxError
                | sep :: r4 =>
                  if sep = '}' then .ok ([(k, v)], r4)
                  else if sep = ',' then
                    match parseMembers fuel (skipSpace r4) with
                    | .ok (ps, r5) => .ok ((k, v) :: ps, r5)
                    | .error e => .error e
                  else .error .SyntaxError
            else .error .SyntaxError
      else .error .SyntaxError
/-- Reads the elements of an array up to and including its closing bracket,
from input that starts at the first character of an element. -/
def parseElements : Nat → Str → Except JSError (List JSON × Str)
  | 0, _ => .error .SyntaxError
  | fuel + 1, s =>
    match parseValue fuel s with
    | .error e => .error e
    | .ok (v, r1) =>
      match skipSpace r1 with
      | [] => .error .SyntaxError
      | sep :: r2 =>
        if sep = ']' then .ok ([v], r2)
        else if sep = ',' then
          match parseElements fuel (skipSpace r2) with
          | .ok (xs, r3) => .ok (v :: xs, r3)
          | .error e => .error e
        else .error .SyntaxError
end

/-- Models `JSON.parse(text)`: one value, with white space allowed around it.  The
fuel handed to `parseValue` is more than the text can use up, since every
nested call and every further member follows at least one consumed
character. -/
def JSON.parse (text : Str) : Except JSError JSON :=
  match parseValue (text.length + 1) (skipSpace text) with
  | .error e => .error e
  | .ok (v, rest) => if skipSpace rest = [] then .ok v else .error .SyntaxError

/-! ## String methods -/

/-- Models `s.split(sep)` for a one-character separator: the pieces between the
separators, the empty string giving one empty piece. -/
def splitOn (sep : Char) : Str → List Str
  | [] => [[]]
  | c :: rest =>
    if c = sep then [] :: splitOn sep rest
    else
      match splitOn sep rest with
      | [] => [[c]]
      | piece :: pieces => (c :: piece) :: pieces

/-- White space and line terminators, which `trim` removes. -/
def isJSSpace (c : Char) : Bool :=
  let n := c.toNat
  (9 ≤ n && n ≤ 13) || n = 0x20 || n = 0xA0 || n = 0x1680 || (0x2000 ≤ n && n ≤ 0x200A) ||
    n = 0x2028 || n = 0x2029 || n = 0x202F || n = 0x205F || n = 0x3000 || n = 0xFEFF

/-- Removes the characters satisfying `p` from both ends. -/
def trimBoth (p : Char → Bool) (s : Str) : Str :=
  ((s.dropWhile p).reverse.dropWhile p).reverse

/-- Models `s.trim()`. -/
def trim (s : Str) : Str :=
  trimBoth isJSSpace s

/-- What `s.toLowerCase()` returns for a string `s` of ASCII characters: the
letters `A`–`Z` become `a`–`z`, every other ASCII character stays.  It stands
in for `String.prototype.toLowerCase` where a store is evaluated on ASCII
names; it says nothing about other strings. -/
def asciiToLowerCase (s : Str) : Str :=
  s.map Char.toLower

/-- The decimal numeral of an integer, as a template literal writes it. -/
def intToStr (n : Int) : Str :=
  match n with
  | .ofNat m => natToStr m
  | .negSucc m => '-' :: natToStr (m + 1)

/-- Joins the pieces with `sep` between them. -/
def joinWith (sep : Str) : List Str → Str
  | [] => []
  | piece :: rest =>
    match rest with
    | [] => piece
    | _ :: _ => piece ++ sep ++ joinWith sep rest

/-! ## The browser: `document.cookie` -/

/-- A cookie in the jar.  An empty `domain` is the host-only cookie of the
page's host. -/
structure StoredCookie where
  name : Str
  value : Str
  domain : Str
  path : Str
  deriving DecidableEq, Repr

/-- The cookie jar, in order of creation. -/
abbrev Jar := List StoredCookie

/-- The default path of a cookie, that of a page at the site root. -/
def defaultPath : Str := ['/']

/-- What the attributes of a cookie string amount to. -/
structure CookieAttributes where
  maxAge : Option Int := none
  domain : Str := []
  path : Str := defaultPath
  deriving DecidableEq, Repr

/-- The white space RFC 6265 strips: space and horizontal tab. -/
def isWSP (c : Char) : Bool :=
  c = ' ' || c.toNat = 9

/-- Splits at the first `sep`: the part before it and, if there is a `sep`,
the part after it. -/
def splitFirst (sep : Char) : Str → Str × Option Str
  | [] => ([], none)
  | c :: rest =>
    if c = sep then ([], some rest)
    else ((splitFirst sep rest).1.cons c, (splitFirst sep rest).2)

/-- The name, in lower case, and the value of one `cookie-av`. -/
def parseAttribute (chunk : Str) : Str × Str :=
  ((trimBoth isWSP (splitFirst '=' chunk).1).map Char.toLower,
    trimBoth isWSP ((splitFirst '=' chunk).2.getD []))

/-- The delta of a `Max-Age` value: an optional minus sign and digits. -/
def parseMaxAge : Str → Option Int
  | [] => none
  | c :: rest =>
    if c = '-' then
      if rest ≠ [] ∧ rest.all Char.isDigit = true then some (-(digitsVal rest : Int)) else none
    else if c.isDigit = true ∧ rest.all Char.isDigit = true then some (digitsVal (c :: rest) : Int)
    else none

/-- Takes one attribute into account; a later attribute of the same name
overrides an earlier one, and unknown attributes are ignored. -/
def applyAttribute (av : Str × Str) (acc : CookieAttributes) : CookieAttributes :=
  if av.1 = "max-age".toList then
    match parseMaxAge av.2 with
    | some n => { acc with maxAge := some n }
    | none => acc
  else if av.1 = "domain".toList then
    match av.2 with
    | [] => acc
    | c :: rest => { acc with domain := ((if c = '.' then rest else c :: rest).map Char.toLower) }
  else if av.1 = "path".toList then
    match av.2 with
    | [] => { acc with path := defaultPath }
    | c :: rest => { acc with path := (if c = '/' then c :: rest else defaultPath) }
  else acc

/-- The attributes of a list of `cookie-av` chunks. -/
def parseAttributes (chunks : List Str) : CookieAttributes :=
  chunks.foldl (fun acc chunk => applyAttribute (parseAttribute chunk) acc) {}

/-- Parses a cookie string as RFC 6265 section 5.2 does: the cookie to store
and its `Max-Age`, or nothing when the string has no `=` before the first `;`
or an empty name. -/
def parseSetCookie (s : Str) : Option (StoredCookie × Option Int) :=
  match splitOn ';' s with
  | [] => none
  | pair :: chunks =>
    match splitFirst '=' pair with
    | (_, none) => none
    | (name, some value) =>
      if trimBoth isWSP name = [] then none
      else
        some ({ name := trimBoth isWSP name, value := trimBoth isWSP value,
                domain := (parseAttributes chunks).domain,
                path := (parseAttributes chunks).path },
          (parseAttributes chunks).maxAge)

/-- Two cookies are the same entry when name, domain and path agree. -/
def StoredCookie.sameEntry (a b : StoredCookie) : Bool :=
  a.name = b.name && a.domain = b.domain && a.path = b.path

/-- Stores a cookie: a `Max-Age` of zero or less removes the entry, otherwise
the cookie replaces the entry in place or is added as the newest. -/
def Jar.store (c : StoredCookie) (maxAge : Option Int) (jar : Jar) : Jar :=
  if (match maxAge with | some n => decide (n ≤ 0) | none => false) then
    jar.filter (fun d => !d.sameEntry c)
  else if jar.any (fun d => d.sameEntry c) then jar.map (fun d => if d.sameEntry c then c else d)
  else jar ++ [c]

/-- The assignment `document.cookie = s`. -/
def Jar.assign (s : Str) (jar : Jar) : Jar :=
  match parseSetCookie s with
  | none => jar
  | some (c, maxAge) => jar.store c maxAge

/-- Inserts a cookie behind the cookies whose path is at least as long. -/
def insertByPath (c : StoredCookie) : Jar → Jar
  | [] => [c]
  | d :: rest =>
    if d.path.length < c.path.length then c :: d :: rest else d :: insertByPath c rest

/-- The order in which cookies are reported: longer paths first, older cookies
first among paths of one length. -/
def sortByPath (jar : Jar) : Jar :=
  jar.foldl (fun acc c => insertByPath c acc) []

/-- The `name=value` pair `document.cookie` shows for a cookie. -/
def StoredCookie.pair (c : StoredCookie) : Str :=
  c.name ++ '=' :: c.value

/-- The value read from `document.cookie`. -/
def Jar.read (jar : Jar) : Str :=
  joinWith [';', ' '] ((sortByPath jar).map StoredCookie.pair)

/-! ## The `Cookies` class -/

/-- An observer, by identity. -/
abbrev Callback := Nat

/-- The fields of a `Cookies` object; the defaults are the field initialisers of
the class. -/
structure Instance where
  extraPolicies : List Str := []
  domain : Str := []
  secure : Bool := true
  events : JSObj (List Callback) := []
  policiesKey : Str := []
  deriving DecidableEq, Repr

/-- The `options` argument of the constructor; `none` is an omitted option. -/
structure Options where
  domain : Option Str := none
  secure : Option Bool := none
  policiesKey : Option Str := none

/-- The `options` argument of `set`; `none` is an omitted (`undefined`)
option. -/
structure SetOptions where
  maxAge : Option Int := none
  path : Option Str := none
  sameSite : Option Str := none
  domain : Option Str := none
  secure : Option Bool := none

/-- The argument an observer is called with. -/
inductive Payload
  /-- the default `{}` of `trigger` -/
  | empty
  /-- a policy name, for `acceptPolicy` and `rejectPolicy` -/
  | policy (name : Str)
  /-- a policy record, for `changePolicy` -/
  | record (properties : JSObj JSON)
  /-- the object `set` reports -/
  | setCookie (key value : Str) (maxAge : Int) (path sameSite domain : Str) (secure : Bool)
      (cookie : Str)
  /-- the object `delete` reports; `domain` is `none` for `undefined` -/
  | deleteCookie (key : Str) (maxAge : Int) (path : Str) (domain : Option Str)
  /-- the object `deleteAll` reports; `domain` is `none` for `null` -/
  | deleteAllCookies (path : Str) (domain : Option Str)
  deriving DecidableEq

/-- One call `callback.call(self, data)` made by `trigger`. -/
structure Invocation where
  callback : Callback
  self : Nat
  data : Payload
  deriving DecidableEq

/-- The state the class lives in: the cookie jar, every string assigned to
`document.cookie` so far, the `Cookies` objects created so far (an object is
referred to by its position), the static `Cookies._instance`, and every observer
call made so far. -/
structure World where
  jar : Jar := []
  written : List Str := []
  heap : List Instance := []
  _instance : Option Nat := none
  calls : List Invocation := []
  deriving DecidableEq

/-- The world an operation leaves behind and what it returned or threw. -/
structure Outcome (α : Type) where
  world : World
  result : Except JSError α

/-- The object a reference points to. -/
def World.fields (w : World) (self : Nat) : Instance :=
  w.heap.getD self {}

/-- The name of the always-accepted policy. -/
def essential : Str := "essential".toList

/-- The default `policiesKey`. -/
def defaultPoliciesKey : Str := "cookies_policy".toList

/-- The method `trigger(event, data = {})`. -/
def trigger (self : Nat) (event : Str) (data : Payload := .empty) (w : World) : World :=
  if (w.fields self).events.has event then
    { w with calls := w.calls ++
        (((w.fields self).events.get? event).getD []).map (fun eventToTrigger =>
          { callback := eventToTrigger, self := self, data := data }) }
  else w

/-- The method `on(event, callback)`. -/
def «on» (self : Nat) (event : Str) (callback : Callback) (w : World) : World :=
  let events1 :=
    if !(w.fields self).events.has event then (w.fields self).events.assign event []
    else (w.fields self).events
  let events2 := events1.assign event (((events1.get? event).getD []) ++ [callback])
  { w with heap := w.heap.set self { w.fields self with events := events2 } }

/-- The getter `all`. -/
def all (w : World) : JSObj (Option Str) :=
  ((splitOn ';' w.jar.read).filter (fun x => x ≠ [])).foldl
    (fun deserialised cookie =>
      match splitOn '=' (trim cookie) with
      | [] => deserialised
      | name :: rest => if name ≠ [] then deserialised.assign name rest.head? else deserialised)
    []

/-- The method `exists(key)`. -/
def «exists» (key : Str) (w : World) : Bool :=
  (all w).has key

/-- The method `get(key)`; `none` is `null`.  An entry without `=` has the value
`undefined`, which `decodeURIComponent` reads as the string `undefined`. -/
def get (key : Str) (w : World) : Except JSError (Option Str) :=
  if «exists» key w then
    (decodeURIComponent ((((all w).get? key).getD none).getD "undefined".toList)).map some
  else .ok none

/-- The method `set(key, value, options = {})`. -/
def set (self : Nat) (key value : Str) (options : SetOptions := {}) (w : World) : World :=
  let maxAge := options.maxAge.getD (60 * 60 * 24 * 365)
  let path := options.path.getD "/".toList
  let sameSite := options.sameSite.getD "Lax".toList
  let domain := options.domain.getD (w.fields self).domain
  let secure := options.secure.getD (w.fields self).secure
  if key = [] then w
  else
    let cookie := encodeURIComponent key ++ "=".toList ++ encodeURIComponent value ++ ";".toList ++
      (if domain ≠ [] then " domain=".toList ++ domain ++ ";".toList else []) ++
      " samesite=".toList ++ sameSite ++ "; path=".toList ++ path ++ "; max-age=".toList ++
      intToStr maxAge ++ (if secure then "; secure".toList else [])
    trigger self "setCookie".toList
      (.setCookie key value maxAge path sameSite domain secure cookie)
      { w with jar := w.jar.assign cookie, written := w.written ++ [cookie] }

/-- The method `delete(key, path = "/", domain = null)`. -/
def delete (self : Nat) (key : Str) (path : Str := "/".toList) (domain : Option Str := none)
    (w : World) : World :=
  let domainOption := domain.filter (fun d => d ≠ [])
  trigger self "deleteCookie".toList (.deleteCookie key (-1) path domainOption)
    (set self key [] { maxAge := some (-1), path := some path, domain := domainOption } w)

/-- The method `deleteAll(path = "/", domain = null)`. -/
def deleteAll (self : Nat) (path : Str := "/".toList) (domain : Option Str := none)
    (w : World) : World :=
  trigger self "deleteAllCookies".toList (.deleteAllCookies path domain)
    ((JSObj.keys (all w)).foldl (fun acc cookie => delete self cookie path domain acc) w)

/-- The getter `policies`. -/
def policies (self : Nat) (w : World) : Except JSError JSON :=
  match get (w.fields self).policiesKey w with
  | .error e => .error e
  | .ok none => JSON.parse "\x7b\x7d".toList
  | .ok (some text) => if text = [] then JSON.parse "\x7b\x7d".toList else JSON.parse text

/-- The method `savePolicies(policies)`. -/
def savePolicies (self : Nat) (policies : JSObj JSON) (w : World) : World :=
  set self (w.fields self).policiesKey (JSON.stringify (.obj policies)) {} w

/-- The method `init()`; `toLowerCase` is `String.prototype.toLowerCase`. -/
def init (toLowerCase : Str → Str) (self : Nat) (w : World) : Outcome Unit :=
  match policies self w with
  | .error e => { world := w, result := .error e }
  | .ok stored =>
    match stored.ownEntries with
    | .error e => { world := w, result := .error e }
    | .ok storedEntries =>
      { world := savePolicies self
          ((((JSObj.defineAll []
                (JSObj.fromEntries
                  ((w.fields self).extraPolicies.map (fun k => (toLowerCase k, JSON.bool false))))
              ).define "usage".toList (.bool false)
            ).define "settings".toList (.bool false)
            |>.defineAll storedEntries
            ).define essential (.bool true))
          w,
        result := .ok () }

/-- The constructor `new Cookies(extraPolicies = [], options = {})`; the result
is the reference the `new` expression evaluates to.  `toLowerCase` is
`String.prototype.toLowerCase`, which `init` calls. -/
def constructor (toLowerCase : Str → Str) (extraPolicies : List Str := [])
    (options : Options := {}) (w : World) : Outcome Nat :=
  let domain := options.domain.getD []
  let secure := options.secure.getD true
  let policiesKey := options.policiesKey.getD defaultPoliciesKey
  let this := w.heap.length
  let initialised := init toLowerCase this
    { w with
      _instance := some this,
      heap := w.heap ++ [{ extraPolicies := extraPolicies, domain := domain, secure := secure,
                           events := [], policiesKey := policiesKey }] }
  let fresh : Outcome Nat :=
    { world := initialised.world, result := initialised.result.map (fun _ => this) }
  match w._instance with
  | some existing =>
    if (w.fields existing).policiesKey = policiesKey then { world := w, result := .ok existing }
    else fresh
  | none => fresh

/-- The method `destroy()`. -/
def destroy (self : Nat) (w : World) : World :=
  trigger self "destroy".toList .empty { w with _instance := none }

/-- The method `setPolicy(policy, accepted)`. -/
def setPolicy (self : Nat) (policy : Str) (accepted : JSON) (w : World) : Outcome Unit :=
  if policy = essential then { world := w, result := .ok () }
  else
    match policies self w with
    | .error e => { world := w, result := .error e }
    | .ok stored =>
      match stored.ownEntries with
      | .error e => { world := w, result := .error e }
      | .ok storedEntries =>
        { world := trigger self "changePolicy".toList (.record [(policy, accepted)])
            (savePolicies self
              (((JSObj.defineAll [] storedEntries).define policy accepted).define essential
                (.bool true))
              w),
          result := .ok () }

/-- The method `acceptPolicy(policy)`. -/
def acceptPolicy (self : Nat) (policy : Str) (w : World) : Outcome Unit :=
  match setPolicy self policy (.bool true) w with
  | { world := w1, result := .error e } => { world := w1, result := .error e }
  | { world := w1, result := .ok _ } =>
    { world := trigger self "changePolicy".toList (.record [(policy, .bool true)])
        (trigger self "acceptPolicy".toList (.policy policy) w1),
      result := .ok () }

/-- The method `rejectPolicy(policy)`. -/
def rejectPolicy (self : Nat) (policy : Str) (w : World) : Outcome Unit :=
  match setPolicy self policy (.bool false) w with
  | { world := w1, result := .error e } => { world := w1, result := .error e }
  | { world := w1, result := .ok _ } =>
    { world := trigger self "changePolicy".toList (.record [(policy, .bool false)])
        (trigger self "rejectPolicy".toList (.policy policy) w1),
      result := .ok () }

/-- The method `acceptAllPolicies()`; `toLowerCase` is
`String.prototype.toLowerCase`. -/
def acceptAllPolicies (toLowerCase : Str → Str) (self : Nat) (w : World) : Outcome Unit :=
  match policies self w with
  | .error e => { world := w, result := .error e }
  | .ok stored =>
    match stored.ownKeys with
    | .error e => { world := w, result := .error e }
    | .ok keys =>
      let allPolicies : JSObj JSON :=
        JSObj.fromEntries (keys.map (fun k => (toLowerCase k, JSON.bool true)))
      { world := trigger self "changePolicy".toList (.record allPolicies)
          (trigger self "acceptAllPolicies".toList .empty (savePolicies self allPolicies w)),
        result := .ok () }

/-- The method `rejectAllPolicies()`; `toLowerCase` is
`String.prototype.toLowerCase`. -/
def rejectAllPolicies (toLowerCase : Str → Str) (self : Nat) (w : World) : Outcome Unit :=
  match policies self w with
  | .error e => { world := w, result := .error e }
  | .ok stored =>
    match stored.ownKeys with
    | .error e => { world := w, result := .error e }
    | .ok keys =>
      let allPolicies : JSObj JSON :=
        (JSObj.defineAll []
          (JSObj.fromEntries (keys.map (fun k => (toLowerCase k, JSON.bool false))))).define
          essential (.bool true)
      { world := trigger self "changePolicy".toList (.record allPolicies)
          (trigger self "rejectAllPolicies".toList .empty (savePolicies self allPolicies w)),
        result := .ok () }

/-- The method `isPolicyAccepted(policy)`; `none` is `null`. -/
def isPolicyAccepted (self : Nat) (policy : Str) (w : World) : Except JSError (Option Bool) :=
  match policies self w with
  | .error e => .error e
  | .ok stored =>
    match stored.hasOwn policy with
    | .error e => .error e
    | .ok true => .ok (some (stored.isTrueAt policy))
    | .ok false => .ok none

/-! ## Vocabulary of the statements -/

/-- A character that can stand in a cookie name or value without being taken for
a separator or trimmed away: not `;`, not `=`, not white space. -/
def isCookieSafeChar (c : Char) : Bool :=
  !(c = ';') && !(c = '=') && !isJSSpace c

/-- A string of cookie-safe characters; every output of `encodeURIComponent` is
one. -/
def cookieSafe (s : Str) : Bool :=
  s.all isCookieSafeChar

/-- A cookie in the form `set` writes: a non-empty name, and no separator or
white space in name or value. -/
def StoredCookie.wellFormed (c : StoredCookie) : Prop :=
  c.name ≠ [] ∧ cookieSafe c.name = true ∧ cookieSafe c.value = true

instance (c : StoredCookie) : Decidable c.wellFormed :=
  inferInstanceAs (Decidable (c.name ≠ [] ∧ cookieSafe c.name = true ∧ cookieSafe c.value = true))

/-- The step of the loop in `all`. -/
def allStep (deserialised : JSObj (Option Str)) (cookie : Str) : JSObj (Option Str) :=
  match splitOn '=' (trim cookie) with
  | [] => deserialised
  | name :: rest => if name ≠ [] then deserialised.assign name rest.head? else deserialised

/-- The domain the browser files a cookie under when `set` writes it with the
given `domain` option. -/
def domainAttribute (domain : Str) : Str :=
  if domain = [] then []
  else (parseAttributes (splitOn ';' (" domain=".toList ++ domain))).domain

/-- The record stored under `key`, as the getter `policies` of a store with that
`policiesKey` reads it. -/
def storedRecord (key : Str) (w : World) : Except JSError JSON :=
  match get key w with
  | .error e => .error e
  | .ok none => JSON.parse "\x7b\x7d".toList
  | .ok (some text) => if text = [] then JSON.parse "\x7b\x7d".toList else JSON.parse text

/-- The string `set` assigns to `document.cookie`, in terms of the values its
options resolve to. -/
def cookieString (key value domain sameSite path : Str) (maxAge : Int) (secure : Bool) : Str :=
  encodeURIComponent key ++ "=".toList ++ encodeURIComponent value ++ ";".toList ++
    (if domain ≠ [] then " domain=".toList ++ domain ++ ";".toList else []) ++
    " samesite=".toList ++ sameSite ++ "; path=".toList ++ path ++ "; max-age=".toList ++
    intToStr maxAge ++ (if secure then "; secure".toList else [])

/-- The literal of a boolean. -/
def boolLiteral (b : Bool) : Str :=
  JSON.stringify (.bool b)

/-- The object literal of `init`: the record it saves for the given extra
policies and the entries of the stored record. -/
def seedRecord (toLowerCase : Str → Str) (extraPolicies : List Str)
    (storedEntries : JSObj JSON) : JSObj JSON :=
  ((((JSObj.defineAll []
        (JSObj.fromEntries (extraPolicies.map (fun k => (toLowerCase k, JSON.bool false))))
      ).define "usage".toList (.bool false)
    ).define "settings".toList (.bool false)
    |>.defineAll storedEntries
    ).define essential (.bool true))

/-- The record `acceptAllPolicies` saves for the given property names. -/
def acceptedRecord (toLowerCase : Str → Str) (keys : List Str) : JSObj JSON :=
  JSObj.fromEntries (keys.map (fun k => (toLowerCase k, JSON.bool true)))

/-- The record `rejectAllPolicies` saves for the given property names. -/
def rejectedRecord (toLowerCase : Str → Str) (keys : List Str) : JSObj JSON :=
  (JSObj.defineAll []
    (JSObj.fromEntries (keys.map (fun k => (toLowerCase k, JSON.bool false))))).define
    essential (.bool true)

/-- Every value of the object is a boolean. -/
def allBool (o : JSObj JSON) : Prop :=
  ∀ p ∈ o, ∃ b : Bool, p.2 = JSON.bool b

/-- The cookie `savePolicies` leaves under the policies key of a store with the
given `key` and `domain` when it saves the text `text`. -/
def policyCookie (key domain text : Str) : StoredCookie :=
  { name := encodeURIComponent key, value := encodeURIComponent text,
    domain := domainAttribute domain, path := defaultPath }

/-- A policy record: the property list of an object whose values are all
booleans. -/
def boolRecord (r : List (Str × Bool)) : JSObj JSON :=
  r.map (fun p => (p.1, JSON.bool p.2))

/-- The storage holds only what a store with the given `policiesKey` and
`domain` writes: every cookie has a name and a value in the form `set` gives
them (non-empty name, cookie-safe characters), every cookie under the policies
key sits at the default path and the store's domain, and the policies slot is
absent or holds a record of booleans. -/
def StoreWritten (key domain : Str) (w : World) : Prop :=
  (∀ c ∈ w.jar, c.wellFormed) ∧
  (∀ c ∈ w.jar, c.name = key → c.domain = domainAttribute domain ∧ c.path = defaultPath) ∧
  ∃ r : List (Str × Bool), storedRecord key w = .ok (.obj (boolRecord r))

/-- Registers the callbacks one after another: `on(event, callback)` for each
pair. -/
def registerAll (self : Nat) (registrations : List (Str × Callback)) (w : World) : World :=
  registrations.foldl (fun acc r => «on» self r.1 r.2 acc) w

/-- The order two property names take in an ordinary object: the names differ,
an array index comes before every greater index and before every other name,
and a name that is no array index comes only before names of that kind. -/
def keyBefore (a b : Str) : Prop :=
  a ≠ b ∧
    match arrayIndex? a with
    | some i => ∀ j, arrayIndex? b = some j → i < j
    | none => arrayIndex? b = none

/-- The property list is in the order an ordinary object keeps: no name twice,
array indices first and ascending.  Property lists built by `JSObj.define` from
the empty object are of this kind. -/
def JSObj.ordered {α : Type} (o : JSObj α) : Prop :=
  (JSObj.keys o).Pairwise keyBefore

end Cookies

namespace Cookies

/-! ## Characters -/

theorem char_eq_iff (c d : Char) : c = d ↔ c.toNat = d.toNat := by
  constructor
  · intro h; rw [h]
  · intro h
    rw [← Char.ofNat_toNat c, ← Char.ofNat_toNat d, h]

theorem char_le_iff (c d : Char) : c ≤ d ↔ c.toNat ≤ d.toNat := Iff.rfl

theorem isDigit_iff (c : Char) : c.isDigit = true ↔ 48 ≤ c.toNat ∧ c.toNat ≤ 57 := by
  simp only [Char.isDigit, Bool.and_eq_true, decide_eq_true_eq, ge_iff_le]
  exact Iff.rfl

theorem isAlphanum_iff (c : Char) : c.isAlphanum = true ↔
    (65 ≤ c.toNat ∧ c.toNat ≤ 90) ∨ (97 ≤ c.toNat ∧ c.toNat ≤ 122) ∨
      (48 ≤ c.toNat ∧ c.toNat ≤ 57) := by
  simp only [Char.isAlphanum, Char.isAlpha, Char.isUpper, Char.isLower, Char.isDigit,
    Bool.or_eq_true, Bool.and_eq_true, decide_eq_true_eq, ge_iff_le, or_assoc]
  exact Iff.rfl

theorem char_valid (c : Char) :
    c.toNat < 0xD800 ∨ (0xDFFF < c.toNat ∧ c.toNat < 0x110000) :=
  c.valid

theorem toNat_ofNat_of_valid (n : Nat) (h : n < 0xD800 ∨ (0xDFFF < n ∧ n < 0x110000)) :
    (Char.ofNat n).toNat = n := by
  unfold Char.ofNat
  rw [dif_pos h]
  rfl

/-- An unreserved character is an ASCII character other than the separators and
white space of a cookie string. -/
theorem isUnreserved_toNat (c : Char) (h : isUnreserved c = true) :
    (65 ≤ c.toNat ∧ c.toNat ≤ 90) ∨ (97 ≤ c.toNat ∧ c.toNat ≤ 122) ∨
      (48 ≤ c.toNat ∧ c.toNat ≤ 57) ∨ c.toNat = 45 ∨ c.toNat = 95 ∨ c.toNat = 46 ∨
      c.toNat = 33 ∨ c.toNat = 126 ∨ c.toNat = 42 ∨ c.toNat = 39 ∨ c.toNat = 40 ∨
      c.toNat = 41 := by
  simp only [isUnreserved, Bool.or_eq_true, decide_eq_true_eq, isAlphanum_iff, char_eq_iff] at h
  have e1 : ('-' : Char).toNat = 45 := rfl
  have e2 : ('_' : Char).toNat = 95 := rfl
  have e3 : ('.' : Char).toNat = 46 := rfl
  have e4 : ('!' : Char).toNat = 33 := rfl
  have e5 : ('~' : Char).toNat = 126 := rfl
  have e6 : ('*' : Char).toNat = 42 := rfl
  have e7 : apostrophe.toNat = 39 := rfl
  have e8 : ('(' : Char).toNat = 40 := rfl
  have e9 : (')' : Char).toNat = 41 := rfl
  rw [e1, e2, e3, e4, e5, e6, e7, e8, e9] at h
  omega

theorem isCookieSafeChar_iff (c : Char) :
    isCookieSafeChar c = true ↔ c.toNat ≠ 59 ∧ c.toNat ≠ 61 ∧ isJSSpace c = false := by
  simp only [isCookieSafeChar, Bool.and_eq_true, Bool.not_eq_true', decide_eq_false_iff_not,
    char_eq_iff]
  have e1 : (';' : Char).toNat = 59 := rfl
  have e2 : ('=' : Char).toNat = 61 := rfl
  rw [e1, e2, and_assoc]

theorem isJSSpace_false_of_ascii (c : Char) (h1 : 32 < c.toNat) (h2 : c.toNat < 127) :
    isJSSpace c = false := by
  simp only [isJSSpace, Bool.or_eq_false_iff, Bool.and_eq_false_imp, decide_eq_true_eq,
    decide_eq_false_iff_not]
  omega

theorem isUnreserved_safe (c : Char) (h : isUnreserved c = true) : isCookieSafeChar c = true := by
  have := isUnreserved_toNat c h
  rw [isCookieSafeChar_iff]
  refine ⟨by omega, by omega, isJSSpace_false_of_ascii c (by omega) (by omega)⟩

theorem hexDigitUpper_safe : ∀ n, n < 16 → isCookieSafeChar (hexDigitUpper n) = true := by
  decide

theorem hexVal_hexDigitUpper : ∀ n, n < 16 → hexVal (hexDigitUpper n) = some n := by
  decide

theorem percentOctet_safe (b : Nat) (h : b < 256) : cookieSafe (percentOctet b) = true := by
  simp only [cookieSafe, percentOctet, List.all_cons, List.all_nil, Bool.and_true,
    Bool.and_eq_true]
  exact ⟨by decide, hexDigitUpper_safe _ (by omega), hexDigitUpper_safe _ (by omega)⟩

theorem utf8Octets_lt (c : Char) : ∀ b ∈ utf8Octets c.toNat, b < 256 := by
  have hv := char_valid c
  intro b hb
  unfold utf8Octets at hb
  split_ifs at hb <;> simp only [List.mem_cons, List.mem_singleton, List.not_mem_nil, or_false] at hb <;> omega

theorem cookieSafe_append (a b : Str) :
    cookieSafe (a ++ b) = (cookieSafe a && cookieSafe b) := by
  simp [cookieSafe]

theorem cookieSafe_flatMap_percent (l : List Nat) (h : ∀ b ∈ l, b < 256) :
    cookieSafe (l.flatMap percentOctet) = true := by
  induction l with
  | nil => rfl
  | cons b l ih =>
    rw [List.flatMap_cons, cookieSafe_append, percentOctet_safe b (h b (List.mem_cons_self _ _)),
      ih (fun x hx => h x (List.mem_cons_of_mem _ hx))]
    rfl

theorem encodeChar_safe (c : Char) : cookieSafe (encodeChar c) = true := by
  unfold encodeChar
  split_ifs with h
  · simp [cookieSafe, isUnreserved_safe c h]
  · exact cookieSafe_flatMap_percent _ (utf8Octets_lt c)

/-- The output of `encodeURIComponent` holds no `;`, no `=` and no white space. -/
theorem encodeURIComponent_safe (s : Str) : cookieSafe (encodeURIComponent s) = true := by
  induction s with
  | nil => rfl
  | cons c s ih =>
    show cookieSafe ((c :: s).flatMap encodeChar) = true
    rw [List.flatMap_cons, cookieSafe_append, encodeChar_safe]
    exact ih

end Cookies

namespace Cookies

theorem decodeFrom_percentOctet (b : Nat) (hb : b < 256) (pending : List Nat) (need : Nat)
    (t : Str) :
    decodeFrom pending need (percentOctet b ++ t) =
      if need = 0 then
        match leadingOnes b with
        | 0 => (decodeFrom [] 0 t).map (Char.ofNat b :: ·)
        | 2 => decodeFrom [b] 1 t
        | 3 => decodeFrom [b] 2 t
        | 4 => decodeFrom [b] 3 t
        | _ => .error .URIError
      else if need = 1 then
        match decodeUtf8 (pending ++ [b]) with
        | some ch => (decodeFrom [] 0 t).map (ch :: ·)
        | none => .error .URIError
      else decodeFrom (pending ++ [b]) (need - 1) t := by
  have h1 := hexVal_hexDigitUpper (b / 16) (by omega)
  have h2 := hexVal_hexDigitUpper (b % 16) (by omega)
  have h3 : 16 * (b / 16) + b % 16 = b := by omega
  simp only [percentOctet, List.cons_append, List.nil_append]
  conv_lhs => unfold decodeFrom
  simp only [if_true, h1, h2, h3]
  try rfl

theorem decodeFrom_unreserved (c : Char) (h : isUnreserved c = true) (t : Str) :
    decodeFrom [] 0 (c :: t) = (decodeFrom [] 0 t).map (c :: ·) := by
  have hc : c ≠ '%' := by
    intro e
    rw [e] at h
    exact absurd h (by decide)
  conv_lhs => unfold decodeFrom
  simp only [hc, if_false, if_true]

theorem decodeFrom_encodeChar (c : Char) (t : Str) :
    decodeFrom [] 0 (encodeChar c ++ t) = (decodeFrom [] 0 t).map (c :: ·) := by
  unfold encodeChar
  split_ifs with h
  · exact decodeFrom_unreserved c h t
  · have hv := char_valid c
    have hc := Char.ofNat_toNat c
    unfold utf8Octets
    split_ifs with h1 h2 h3
    · simp only [List.flatMap_cons, List.flatMap_nil, List.append_nil]
      rw [decodeFrom_percentOctet _ (by omega)]
      have : leadingOnes c.toNat = 0 := by simp [leadingOnes, h1]
      simp only [if_true, this, hc]
    · simp only [List.flatMap_cons, List.flatMap_nil, List.append_nil, List.append_assoc]
      rw [decodeFrom_percentOctet _ (by omega)]
      have : leadingOnes (0xC0 + c.toNat / 64) = 2 := by
        simp only [leadingOnes]; split_ifs <;> omega
      simp only [if_true, this]
      rw [decodeFrom_percentOctet _ (by omega)]
      have e : (0xC0 + c.toNat / 64) % 32 * 64 + (0x80 + c.toNat % 64) % 64 = c.toNat := by
        omega
      have k : isContinuation (0x80 + c.toNat % 64) = true := by
        simp [isContinuation]; omega
      simp only [decodeUtf8, List.nil_append, List.cons_append, e, k, hc]
      simp only [show (1 : Nat) ≠ 0 by decide, if_false, if_true, true_and]
      rw [if_pos (by omega)]
    · simp only [List.flatMap_cons, List.flatMap_nil, List.append_nil, List.append_assoc]
      rw [decodeFrom_percentOctet _ (by omega)]
      have : leadingOnes (0xE0 + c.toNat / 4096) = 3 := by
        simp only [leadingOnes]; split_ifs <;> omega
      simp only [if_true, this]
      rw [decodeFrom_percentOctet _ (by omega)]
      simp only [show (2 : Nat) ≠ 0 by decide, show (2 : Nat) ≠ 1 by decide, if_false,
        show 2 - 1 = 1 by rfl]
      rw [decodeFrom_percentOctet _ (by omega)]
      have e : (0xE0 + c.toNat / 4096) % 16 * 4096 + (0x80 + c.toNat / 64 % 64) % 64 * 64 +
          (0x80 + c.toNat % 64) % 64 = c.toNat := by omega
      have k1 : isContinuation (0x80 + c.toNat / 64 % 64) = true := by
        simp [isContinuation]; omega
      have k2 : isContinuation (0x80 + c.toNat % 64) = true := by
        simp [isContinuation]; omega
      simp only [decodeUtf8, List.nil_append, List.cons_append, e, k1, k2, hc]
      simp only [show (1 : Nat) ≠ 0 by decide, if_false, if_true, true_and]
      rw [if_pos (by omega)]
    · simp only [List.flatMap_cons, List.flatMap_nil, List.append_nil, List.append_assoc]
      rw [decodeFrom_percentOctet _ (by omega)]
      have : leadingOnes (0xF0 + c.toNat / 262144) = 4 := by
        simp only [leadingOnes]; split_ifs <;> omega
      simp only [if_true, this]
      rw [decodeFrom_percentOctet _ (by omega)]
      simp only [show (3 : Nat) ≠ 0 by decide, show (3 : Nat) ≠ 1 by decide, if_false,
        show 3 - 1 = 2 by rfl]
      rw [decodeFrom_percentOctet _ (by omega)]
      simp only [show (2 : Nat) ≠ 0 by decide, show (2 : Nat) ≠ 1 by decide, if_false,
        show 2 - 1 = 1 by rfl]
      rw [decodeFrom_percentOctet _ (by omega)]
      have e : (0xF0 + c.toNat / 262144) % 8 * 262144 + (0x80 + c.toNat / 4096 % 64) % 64 * 4096 +
          (0x80 + c.toNat / 64 % 64) % 64 * 64 + (0x80 + c.toNat % 64) % 64 = c.toNat := by
        omega
      have k1 : isContinuation (0x80 + c.toNat / 4096 % 64) = true := by
        simp [isContinuation]; omega
      have k2 : isContinuation (0x80 + c.toNat / 64 % 64) = true := by
        simp [isContinuation]; omega
      have k3 : isContinuation (0x80 + c.toNat % 64) = true := by
        simp [isContinuation]; omega
      simp only [decodeUtf8, List.nil_append, List.cons_append, e, k1, k2, k3, hc]
      simp only [show (1 : Nat) ≠ 0 by decide, if_false, if_true, true_and]
      rw [if_pos (by omega)]

/-- Decoding undoes encoding. -/
theorem decodeURIComponent_encodeURIComponent (s : Str) :
    decodeURIComponent (encodeURIComponent s) = .ok s := by
  unfold decodeURIComponent encodeURIComponent
  induction s with
  | nil => rfl
  | cons c s ih =>
    rw [List.flatMap_cons, decodeFrom_encodeChar, ih]
    rfl

theorem length_le_encodeURIComponent (s : Str) : s.length ≤ (encodeURIComponent s).length := by
  unfold encodeURIComponent
  induction s with
  | nil => simp
  | cons c s ih =>
    rw [List.flatMap_cons, List.length_append, List.length_cons]
    have : 1 ≤ (encodeChar c).length := by
      unfold encodeChar
      split_ifs
      · simp
      · unfold utf8Octets
        split_ifs <;> simp [percentOctet]
    omega

/-- A string that encoding leaves unchanged consists of unreserved characters. -/
theorem unreserved_of_encode_eq (s : Str) (h : encodeURIComponent s = s) :
    ∀ c ∈ s, isUnreserved c = true := by
  induction s with
  | nil => intro c hc; cases hc
  | cons a s ih =>
    have hlen := length_le_encodeURIComponent s
    have hs : encodeURIComponent (a :: s) = encodeChar a ++ encodeURIComponent s := by
      simp [encodeURIComponent]
    rw [hs] at h
    by_cases ha : isUnreserved a = true
    · have h2 : encodeURIComponent s = s := by
        simpa [encodeChar, ha] using h
      intro c hc
      rcases List.mem_cons.1 hc with rfl | hc
      · exact ha
      · exact ih h2 c hc
    · exfalso
      have hl := congrArg List.length h
      have : 3 ≤ (encodeChar a).length := by
        unfold encodeChar
        rw [if_neg ha]
        unfold utf8Octets
        split_ifs <;> simp [percentOctet]
      rw [List.length_append, List.length_cons] at hl
      omega

theorem cookieSafe_of_encode_eq (s : Str) (h : encodeURIComponent s = s) :
    cookieSafe s = true := by
  rw [← h]
  exact encodeURIComponent_safe s

end Cookies

namespace Cookies

/-! ## Ordinary objects -/

section Objects
variable {α : Type}

theorem JSObj.has_nil (k : Str) : JSObj.has ([] : JSObj α) k = false := rfl

theorem JSObj.has_cons (p : Str × α) (o : JSObj α) (k : Str) :
    JSObj.has (p :: o) k = (decide (p.1 = k) || JSObj.has o k) := rfl

theorem JSObj.get?_nil (k : Str) : JSObj.get? ([] : JSObj α) k = none := rfl

theorem JSObj.get?_cons (p : Str × α) (o : JSObj α) (k : Str) :
    JSObj.get? (p :: o) k = if p.1 = k then some p.2 else JSObj.get? o k := rfl

theorem JSObj.keys_cons (p : Str × α) (o : JSObj α) :
    JSObj.keys (p :: o) = p.1 :: JSObj.keys o := rfl

theorem JSObj.has_iff_mem_keys (o : JSObj α) (k : Str) :
    JSObj.has o k = true ↔ k ∈ JSObj.keys o := by
  induction o with
  | nil => simp [JSObj.has, JSObj.keys]
  | cons p o ih =>
    rw [JSObj.has_cons, Bool.or_eq_true, ih, JSObj.keys_cons, List.mem_cons, decide_eq_true_eq]
    constructor
    · rintro (e | e)
      · exact Or.inl e.symm
      · exact Or.inr e
    · rintro (e | e)
      · exact Or.inl e.symm
      · exact Or.inr e

theorem JSObj.get?_eq_none_iff (o : JSObj α) (k : Str) :
    JSObj.get? o k = none ↔ JSObj.has o k = false := by
  induction o with
  | nil => simp [JSObj.has, JSObj.get?]
  | cons p o ih =>
    rw [JSObj.get?_cons, JSObj.has_cons]
    by_cases h : p.1 = k <;> simp [h, ih]

theorem JSObj.get?_isSome (o : JSObj α) (k : Str) :
    (JSObj.get? o k).isSome = JSObj.has o k := by
  cases h : JSObj.has o k
  · rw [(JSObj.get?_eq_none_iff o k).2 h]; rfl
  · cases h2 : JSObj.get? o k
    · rw [(JSObj.get?_eq_none_iff o k).1 h2] at h; cases h
    · rfl

theorem JSObj.get?_append (o o2 : JSObj α) (k : Str) :
    JSObj.get? (o ++ o2) k =
      match JSObj.get? o k with
      | some v => some v
      | none => JSObj.get? o2 k := by
  induction o with
  | nil => rfl
  | cons p o ih =>
    rw [List.cons_append, JSObj.get?_cons, JSObj.get?_cons]
    by_cases h : p.1 = k
    · simp [h]
    · simp only [h, if_false]; exact ih

theorem JSObj.get?_replace (o : JSObj α) (k k2 : Str) (v : α) :
    JSObj.get? (o.map (fun p => if p.1 = k then (p.1, v) else p)) k2 =
      if k2 = k then (JSObj.get? o k2).map (fun _ => v) else JSObj.get? o k2 := by
  induction o with
  | nil => simp [JSObj.get?]
  | cons p o ih =>
    rw [List.map_cons, JSObj.get?_cons, JSObj.get?_cons, ih]
    by_cases h1 : p.1 = k
    · by_cases h2 : k2 = k
      · subst h2; simp [h1]
      · have h3 : ¬ k = k2 := fun e => h2 e.symm
        simp [h1, h2, h3]
    · by_cases h2 : k2 = k
      · subst h2; simp [h1]
      · simp [h1, h2]

theorem JSObj.get?_cons_new (k : Str) (v : α) (o : JSObj α) (k2 : Str) :
    JSObj.get? ((k, v) :: o) k2 = if k2 = k then some v else JSObj.get? o k2 := by
  rw [JSObj.get?_cons]
  by_cases h : k2 = k
  · rw [if_pos h, if_pos h.symm]
  · rw [if_neg h, if_neg (fun e => h e.symm)]

theorem JSObj.insertIndex_cons (i : Nat) (k : Str) (v : α) (p : Str × α) (o : JSObj α) :
    JSObj.insertIndex i k v (p :: o) =
      match arrayIndex? p.1 with
      | some j => if j < i then p :: JSObj.insertIndex i k v o else (k, v) :: p :: o
      | none => (k, v) :: p :: o := rfl

theorem JSObj.get?_insertIndex (i : Nat) (k : Str) (v : α) (o : JSObj α) (k2 : Str)
    (hk : JSObj.has o k = false) :
    JSObj.get? (JSObj.insertIndex i k v o) k2 = if k2 = k then some v else JSObj.get? o k2 := by
  induction o with
  | nil => exact JSObj.get?_cons_new k v [] k2
  | cons p o ih =>
    rw [JSObj.has_cons, Bool.or_eq_false_iff, decide_eq_false_iff_not] at hk
    rw [JSObj.insertIndex_cons]
    cases arrayIndex? p.1 with
    | none => exact JSObj.get?_cons_new k v (p :: o) k2
    | some j =>
      by_cases hj : j < i
      · simp only [hj, if_true]
        rw [JSObj.get?_cons, ih hk.2, JSObj.get?_cons]
        by_cases h : p.1 = k2
        · have h3 : ¬ k2 = k := fun e => hk.1 (e ▸ h)
          rw [if_pos h, if_neg h3, if_pos h]
        · rw [if_neg h, if_neg h]
      · simp only [hj, if_false]
        exact JSObj.get?_cons_new k v (p :: o) k2

theorem JSObj.get?_append_new (k : Str) (v : α) (o : JSObj α) (k2 : Str)
    (hk : JSObj.has o k = false) :
    JSObj.get? (o ++ [(k, v)]) k2 = if k2 = k then some v else JSObj.get? o k2 := by
  rw [JSObj.get?_append, JSObj.get?_cons_new, JSObj.get?_nil]
  by_cases h : k2 = k
  · subst h
    rw [(JSObj.get?_eq_none_iff o k2).2 hk, if_pos rfl]
  · simp only [h, if_false]
    cases JSObj.get? o k2 <;> rfl

/-- Reading a property back after `CreateDataProperty`. -/
theorem JSObj.get?_define (k : Str) (v : α) (o : JSObj α) (k2 : Str) :
    JSObj.get? (JSObj.define k v o) k2 = if k2 = k then some v else JSObj.get? o k2 := by
  unfold JSObj.define
  by_cases h1 : JSObj.has o k = true
  · rw [if_pos h1, JSObj.get?_replace]
    by_cases h2 : k2 = k
    · subst h2
      rw [if_pos rfl, if_pos rfl]
      have := JSObj.get?_isSome o k2
      rw [h1] at this
      cases hg : JSObj.get? o k2
      · rw [hg] at this; cases this
      · rfl
    · rw [if_neg h2, if_neg h2]
  · rw [if_neg h1]
    have h1 : JSObj.has o k = false := by simpa using h1
    cases arrayIndex? k with
    | none => exact JSObj.get?_append_new k v o k2 h1
    | some i => exact JSObj.get?_insertIndex i k v o k2 h1

theorem JSObj.has_define (k : Str) (v : α) (o : JSObj α) (k2 : Str) :
    JSObj.has (JSObj.define k v o) k2 = (decide (k2 = k) || JSObj.has o k2) := by
  rw [← JSObj.get?_isSome, JSObj.get?_define, ← JSObj.get?_isSome]
  by_cases h : k2 = k <;> simp [h]

theorem JSObj.defineAll_cons (o : JSObj α) (p : Str × α) (l : List (Str × α)) :
    JSObj.defineAll o (p :: l) = JSObj.defineAll (JSObj.define p.1 p.2 o) l := rfl

theorem JSObj.defineAll_append (o : JSObj α) (l l2 : List (Str × α)) :
    JSObj.defineAll o (l ++ l2) = JSObj.defineAll (JSObj.defineAll o l) l2 := by
  simp [JSObj.defineAll, List.foldl_append]

/-- After defining a list of entries, a name has the value of its last entry in
the list, or its old value when the list does not mention it. -/
theorem JSObj.get?_defineAll (l : List (Str × α)) (o : JSObj α) (k : Str) :
    JSObj.get? (JSObj.defineAll o l) k =
      match JSObj.get? l.reverse k with
      | some v => some v
      | none => JSObj.get? o k := by
  induction l generalizing o with
  | nil => rfl
  | cons p l ih =>
    rw [JSObj.defineAll_cons, ih, List.reverse_cons, JSObj.get?_append, JSObj.get?_define]
    cases JSObj.get? l.reverse k with
    | some v => rfl
    | none =>
      simp only [JSObj.get?_cons, JSObj.get?_nil]
      by_cases h : k = p.1
      · simp [h]
      · have : ¬ p.1 = k := fun e => h e.symm
        simp [h, this]

theorem JSObj.has_defineAll (l : List (Str × α)) (o : JSObj α) (k : Str) :
    JSObj.has (JSObj.defineAll o l) k = (JSObj.has l k || JSObj.has o k) := by
  induction l generalizing o with
  | nil => rfl
  | cons p l ih =>
    rw [JSObj.defineAll_cons, ih, JSObj.has_define, JSObj.has_cons]
    by_cases h : k = p.1
    · subst h; simp
    · have : ¬ p.1 = k := fun e => h e.symm
      simp [h, this, Bool.or_comm]

theorem JSObj.keys_insertIndex_perm (i : Nat) (k : Str) (v : α) (o : JSObj α) :
    (JSObj.keys (JSObj.insertIndex i k v o)).Perm (k :: JSObj.keys o) := by
  induction o with
  | nil => exact List.Perm.refl _
  | cons p o ih =>
    unfold JSObj.insertIndex
    split
    · split_ifs
      · exact (List.Perm.cons p.1 ih).trans (List.Perm.swap k p.1 _)
      · exact List.Perm.refl _
    · exact List.Perm.refl _

theorem JSObj.keys_replace (o : JSObj α) (k : Str) (v : α) :
    JSObj.keys (o.map (fun p => if p.1 = k then (p.1, v) else p)) = JSObj.keys o := by
  induction o with
  | nil => rfl
  | cons p o ih =>
    rw [List.map_cons, JSObj.keys_cons, JSObj.keys_cons, ih]
    congr 1
    split_ifs <;> rfl

/-- The operation `CreateDataProperty` never duplicates a name. -/
theorem JSObj.nodup_keys_define (k : Str) (v : α) (o : JSObj α)
    (h : (JSObj.keys o).Nodup) : (JSObj.keys (JSObj.define k v o)).Nodup := by
  unfold JSObj.define
  split_ifs with h1
  · rw [JSObj.keys_replace]; exact h
  · have hk : k ∉ JSObj.keys o := by
      rw [← JSObj.has_iff_mem_keys]; simpa using h1
    cases arrayIndex? k with
    | none =>
      have e : JSObj.keys (o ++ [(k, v)]) = JSObj.keys o ++ [k] := by
        show List.map Prod.fst (o ++ [(k, v)]) = List.map Prod.fst o ++ [k]
        rw [List.map_append]; rfl
      show (JSObj.keys (o ++ [(k, v)])).Nodup
      rw [e]
      refine List.Nodup.append h (List.nodup_singleton k) ?_
      intro x hx hx2
      rw [List.mem_singleton] at hx2
      subst hx2
      exact hk hx
    | some i =>
      exact (JSObj.keys_insertIndex_perm i k v o).nodup_iff.2 (List.nodup_cons.2 ⟨hk, h⟩)

theorem JSObj.nodup_keys_defineAll (l : List (Str × α)) (o : JSObj α)
    (h : (JSObj.keys o).Nodup) : (JSObj.keys (JSObj.defineAll o l)).Nodup := by
  induction l generalizing o with
  | nil => exact h
  | cons p l ih => exact ih _ (JSObj.nodup_keys_define _ _ _ h)

theorem JSObj.nodup_keys_fromEntries (l : List (Str × α)) :
    (JSObj.keys (JSObj.fromEntries l)).Nodup :=
  JSObj.nodup_keys_defineAll l [] List.nodup_nil

theorem JSObj.get?_eq_some_iff_mem (o : JSObj α) (h : (JSObj.keys o).Nodup) (k : Str) (v : α) :
    JSObj.get? o k = some v ↔ (k, v) ∈ o := by
  induction o with
  | nil => simp [JSObj.get?]
  | cons p o ih =>
    have hn := List.nodup_cons.1 h
    rw [JSObj.get?_cons, List.mem_cons]
    by_cases hp : p.1 = k
    · simp only [hp, if_true, Option.some.injEq]
      constructor
      · intro e; left; rw [← e, ← hp]
      · rintro (e | e)
        · rw [← e]
        · exfalso
          apply hn.1
          rw [hp]
          exact List.mem_map_of_mem Prod.fst e
    · simp only [hp, if_false, ih hn.2]
      constructor
      · intro e; exact Or.inr e
      · rintro (e | e)
        · exfalso; apply hp; rw [← e]
        · exact e

/-- For a property list without repeated names, defining its entries afresh
gives an object with the same values. -/
theorem JSObj.get?_fromEntries_of_nodup (l : List (Str × α)) (h : (JSObj.keys l).Nodup)
    (k : Str) : JSObj.get? (JSObj.fromEntries l) k = JSObj.get? l k := by
  unfold JSObj.fromEntries
  rw [JSObj.get?_defineAll, JSObj.get?_nil]
  have hr : (JSObj.keys l.reverse).Nodup := by
    simp only [JSObj.keys, List.map_reverse, List.nodup_reverse]; exact h
  cases h1 : JSObj.get? l.reverse k with
  | some v =>
    have := (JSObj.get?_eq_some_iff_mem l.reverse hr k v).1 h1
    exact ((JSObj.get?_eq_some_iff_mem l h k v).2 (List.mem_reverse.1 this)).symm
  | none =>
    cases h2 : JSObj.get? l k with
    | none => rfl
    | some v =>
      have := (JSObj.get?_eq_some_iff_mem l h k v).1 h2
      rw [(JSObj.get?_eq_some_iff_mem l.reverse hr k v).2 (List.mem_reverse.2 this)] at h1
      cases h1

theorem JSObj.has_fromEntries (l : List (Str × α)) (k : Str) :
    JSObj.has (JSObj.fromEntries l) k = JSObj.has l k := by
  unfold JSObj.fromEntries
  rw [JSObj.has_defineAll, JSObj.has_nil, Bool.or_false]

end Objects

end Cookies

namespace Cookies

/-! ## JSON -/

theorem hexVal_hexDigitLower : ∀ n, n < 16 → hexVal (hexDigitLower n) = some n := by
  decide

theorem parseStringBody_plain (c : Char) (rest : Str) (h1 : c ≠ '"') (h2 : c ≠ '\\')
    (h3 : ¬ c.toNat < 0x20) :
    parseStringBody (c :: rest) = (parseStringBody rest).map (fun r => (c :: r.1, r.2)) := by
  unfold parseStringBody
  conv_lhs => unfold parseStringFrom
  simp only [h1, h2, h3, if_false]

theorem parseStringBody_escape (e ch : Char) (rest : Str) (h1 : e ≠ 'u')
    (h2 : simpleEscape e = some ch) :
    parseStringBody ('\\' :: e :: rest) =
      (parseStringBody rest).map (fun r => (ch :: r.1, r.2)) := by
  unfold parseStringBody
  conv_lhs => unfold parseStringFrom
  simp only [show ('\\' : Char) ≠ '"' by decide, if_false, if_true]
  conv_lhs => unfold parseStringFrom
  simp only [h1, h2, if_false]

theorem parseStringFrom_unicode_step (digits : List Nat) (high : Option Nat) (h : Char)
    (d : Nat) (rest : Str) (hd : hexVal h = some d) (hl : digits.length < 3) :
    parseStringFrom (.unicode digits high) (h :: rest) =
      parseStringFrom (.unicode (digits ++ [d]) high) rest := by
  conv_lhs => unfold parseStringFrom
  simp only [hd, hl, if_true]

theorem parseStringBody_control (n : Nat) (hn : n < 0x20) (rest : Str) :
    parseStringBody ('\\' :: 'u' :: '0' :: '0' :: hexDigitLower (n / 16) ::
        hexDigitLower (n % 16) :: rest) =
      (parseStringBody rest).map (fun r => (Char.ofNat n :: r.1, r.2)) := by
  have e1 := hexVal_hexDigitLower (n / 16) (by omega)
  have e2 := hexVal_hexDigitLower (n % 16) (by omega)
  have e0 : hexVal '0' = some 0 := by decide
  have e3 : hexDigitsVal [0, 0, n / 16, n % 16] = n := by
    simp only [hexDigitsVal, List.foldl_cons, List.foldl_nil]
    omega
  unfold parseStringBody
  conv_lhs => unfold parseStringFrom
  simp only [show ('\\' : Char) ≠ '"' by decide, if_false, if_true]
  conv_lhs => unfold parseStringFrom
  simp only [if_true]
  rw [parseStringFrom_unicode_step [] none '0' 0 _ e0 (by decide),
    parseStringFrom_unicode_step _ none '0' 0 _ e0 (by decide),
    parseStringFrom_unicode_step _ none _ _ _ e1 (by decide)]
  conv_lhs => unfold parseStringFrom
  simp only [e2, List.nil_append, List.cons_append, List.length_cons, List.length_nil]
  rw [if_neg (by decide)]
  simp only [e3]
  rw [if_neg (by omega), if_neg (by omega)]

theorem parseStringBody_quoteChar (c : Char) (rest : Str) :
    parseStringBody (quoteChar c ++ rest) =
      (parseStringBody rest).map (fun r => (c :: r.1, r.2)) := by
  have hc := Char.ofNat_toNat c
  unfold quoteChar
  by_cases h1 : c = '"'
  · rw [if_pos h1, h1]
    exact parseStringBody_escape '"' '"' rest (by decide) (by decide)
  rw [if_neg h1]
  by_cases h2 : c = '\\'
  · rw [if_pos h2, h2]
    exact parseStringBody_escape '\\' '\\' rest (by decide) (by decide)
  rw [if_neg h2]
  by_cases h3 : c.toNat = 8
  · rw [if_pos h3]
    have : c = Char.ofNat 8 := by rw [← hc, h3]
    rw [this]
    exact parseStringBody_escape 'b' (Char.ofNat 8) rest (by decide) (by decide)
  rw [if_neg h3]
  by_cases h4 : c.toNat = 9
  · rw [if_pos h4]
    have : c = Char.ofNat 9 := by rw [← hc, h4]
    rw [this]
    exact parseStringBody_escape 't' (Char.ofNat 9) rest (by decide) (by decide)
  rw [if_neg h4]
  by_cases h5 : c.toNat = 10
  · rw [if_pos h5]
    have : c = Char.ofNat 10 := by rw [← hc, h5]
    rw [this]
    exact parseStringBody_escape 'n' (Char.ofNat 10) rest (by decide) (by decide)
  rw [if_neg h5]
  by_cases h6 : c.toNat = 12
  · rw [if_pos h6]
    have : c = Char.ofNat 12 := by rw [← hc, h6]
    rw [this]
    exact parseStringBody_escape 'f' (Char.ofNat 12) rest (by decide) (by decide)
  rw [if_neg h6]
  by_cases h7 : c.toNat = 13
  · rw [if_pos h7]
    have : c = Char.ofNat 13 := by rw [← hc, h7]
    rw [this]
    exact parseStringBody_escape 'r' (Char.ofNat 13) rest (by decide) (by decide)
  rw [if_neg h7]
  by_cases h8 : c.toNat < 0x20
  · rw [if_pos h8]
    have := parseStringBody_control c.toNat h8 rest
    rw [hc] at this
    exact this
  · rw [if_neg h8]
    exact parseStringBody_plain c rest h1 h2 h8

/-- Reading a quoted string back. -/
theorem parseStringBody_quote (s : Str) (rest : Str) :
    parseStringBody (s.flatMap quoteChar ++ '"' :: rest) = .ok (s, rest) := by
  induction s with
  | nil =>
    show parseStringFrom .plain ('"' :: rest) = _
    unfold parseStringFrom
    simp
  | cons c s ih =>
    rw [List.flatMap_cons, List.append_assoc, parseStringBody_quoteChar, ih]
    rfl

theorem skipSpace_cons_of_not_space (c : Char) (rest : Str) (h : isJSONSpace c = false) :
    skipSpace (c :: rest) = c :: rest := by
  rw [skipSpace, h]; rfl

theorem parseValue_bool (fuel : Nat) (b : Bool) (rest : Str) :
    parseValue (fuel + 1) (boolLiteral b ++ rest) = .ok (.bool b, rest) := by
  cases b
  · show parseValue (fuel + 1) ('f' :: 'a' :: 'l' :: 's' :: 'e' :: rest) = _
    rw [parseValue]
    simp [dropLiteral]
  · show parseValue (fuel + 1) ('t' :: 'r' :: 'u' :: 'e' :: rest) = _
    rw [parseValue]
    simp [dropLiteral]

theorem skipSpace_boolLiteral (b : Bool) (rest : Str) :
    skipSpace (boolLiteral b ++ rest) = boolLiteral b ++ rest := by
  cases b
  · exact skipSpace_cons_of_not_space 'f' _ (by decide)
  · exact skipSpace_cons_of_not_space 't' _ (by decide)

theorem stringifyProperties_boolRecord_cons (p : Str × Bool) (r : List (Str × Bool)) :
    JSON.stringifyProperties (boolRecord (p :: r)) =
      '"' :: (p.1.flatMap quoteChar ++ '"' :: ':' :: (boolLiteral p.2 ++
        match r with
        | [] => []
        | q :: r2 => ',' :: JSON.stringifyProperties (boolRecord (q :: r2)))) := by
  cases r with
  | nil =>
    simp [boolRecord, JSON.stringifyProperties, quoteJSONString, boolLiteral]
  | cons q r2 =>
    simp [boolRecord, JSON.stringifyProperties, quoteJSONString, boolLiteral]

/-- Reading the members of a stringified record of booleans back. -/
theorem parseMembers_boolRecord (r : List (Str × Bool)) (p : Str × Bool) (fuel : Nat)
    (hf : r.length + 2 ≤ fuel) (rest : Str) :
    parseMembers fuel (JSON.stringifyProperties (boolRecord (p :: r)) ++ '}' :: rest) =
      .ok (boolRecord (p :: r), rest) := by
  induction r generalizing p fuel with
  | nil =>
    obtain ⟨f, rfl⟩ : ∃ f, fuel = f + 2 := ⟨fuel - 2, by simp at hf; omega⟩
    rw [stringifyProperties_boolRecord_cons]
    simp only [List.append_nil, List.cons_append, List.append_assoc]
    rw [parseMembers]
    simp only [if_true, parseStringBody_quote]
    rw [skipSpace_cons_of_not_space ':' _ (by decide)]
    simp only [if_true, skipSpace_boolLiteral, parseValue_bool]
    rw [skipSpace_cons_of_not_space '}' _ (by decide)]
    simp [boolRecord]
  | cons q r ih =>
    obtain ⟨f, rfl⟩ : ∃ f, fuel = f + 1 := ⟨fuel - 1, by simp at hf; omega⟩
    obtain ⟨g, rfl⟩ : ∃ g, f = g + 1 := ⟨f - 1, by simp at hf; omega⟩
    rw [stringifyProperties_boolRecord_cons]
    simp only [List.cons_append, List.append_assoc]
    rw [parseMembers]
    simp only [if_true, parseStringBody_quote]
    rw [skipSpace_cons_of_not_space ':' _ (by decide)]
    simp only [if_true, skipSpace_boolLiteral, parseValue_bool]
    rw [skipSpace_cons_of_not_space ',' _ (by decide)]
    simp only [show (',' : Char) ≠ '}' by decide, if_false, if_true]
    have hq : skipSpace (JSON.stringifyProperties (boolRecord (q :: r)) ++ '}' :: rest) =
        JSON.stringifyProperties (boolRecord (q :: r)) ++ '}' :: rest := by
      rw [stringifyProperties_boolRecord_cons]
      exact skipSpace_cons_of_not_space '"' _ (by decide)
    rw [hq, ih q (g + 1) (by simp at hf ⊢; omega)]
    simp [boolRecord]

theorem length_stringifyProperties_boolRecord (r : List (Str × Bool)) :
    r.length ≤ (JSON.stringifyProperties (boolRecord r)).length := by
  induction r with
  | nil => simp
  | cons p r ih =>
    rw [stringifyProperties_boolRecord_cons]
    cases r with
    | nil => simp
    | cons q r2 =>
      simp only [List.length_cons, List.length_append] at ih ⊢
      omega

/-- Reading back: `JSON.parse` reads a stringified record of booleans back, defining its
members in order. -/
theorem parse_stringify_boolRecord (r : List (Str × Bool)) :
    JSON.parse (JSON.stringify (.obj (boolRecord r))) =
      .ok (.obj (JSObj.fromEntries (boolRecord r))) := by
  cases r with
  | nil => decide
  | cons p r =>
    have hl := length_stringifyProperties_boolRecord (p :: r)
    unfold JSON.parse
    rw [JSON.stringify]
    rw [skipSpace_cons_of_not_space '{' _ (by decide)]
    rw [parseValue]
    simp only [if_true]
    have hq : skipSpace (JSON.stringifyProperties (boolRecord (p :: r)) ++ ['}']) =
        JSON.stringifyProperties (boolRecord (p :: r)) ++ ['}'] := by
      rw [stringifyProperties_boolRecord_cons]
      exact skipSpace_cons_of_not_space '"' _ (by decide)
    rw [hq]
    have hne : ∃ d rest2, JSON.stringifyProperties (boolRecord (p :: r)) ++ ['}'] = d :: rest2 ∧
        d ≠ '}' := by
      rw [stringifyProperties_boolRecord_cons]
      exact ⟨'"', _, rfl, by decide⟩
    obtain ⟨d, rest2, hd, hd2⟩ := hne
    have hm := parseMembers_boolRecord r p
      (('{' :: (JSON.stringifyProperties (boolRecord (p :: r)) ++ ['}'])).length)
      (by simp only [List.length_cons, List.length_append] at hl ⊢; omega) []
    rw [hd] at hm ⊢
    simp only [hd2, if_false, hm]
    rfl

end Cookies

namespace Cookies

/-! ## Splitting and trimming -/

theorem splitOn_ne_nil (sep : Char) (s : Str) : splitOn sep s ≠ [] := by
  induction s with
  | nil => simp [splitOn]
  | cons c s ih =>
    unfold splitOn
    split_ifs
    · simp
    · cases h : splitOn sep s with
      | nil => exact absurd h ih
      | cons p ps => simp

theorem splitOn_cons_ne (sep c : Char) (s : Str) (h : c ≠ sep) :
    splitOn sep (c :: s) = ((splitOn sep s).head!.cons c) :: (splitOn sep s).tail := by
  conv_lhs => unfold splitOn
  rw [if_neg h]
  cases hs : splitOn sep s with
  | nil => exact absurd hs (splitOn_ne_nil sep s)
  | cons p ps => rfl

theorem splitOn_cons_sep (sep : Char) (s : Str) :
    splitOn sep (sep :: s) = [] :: splitOn sep s := by
  conv_lhs => unfold splitOn
  rw [if_pos rfl]

/-- Splitting at a separator that follows a piece without separators. -/
theorem splitOn_append_sep (sep : Char) (a b : Str) (h : sep ∉ a) :
    splitOn sep (a ++ sep :: b) = a :: splitOn sep b := by
  induction a with
  | nil => exact splitOn_cons_sep sep b
  | cons c a ih =>
    have hc : c ≠ sep := fun e => h (e ▸ List.mem_cons_self _ _)
    have ha : sep ∉ a := fun e => h (List.mem_cons_of_mem _ e)
    rw [List.cons_append, splitOn_cons_ne sep c _ hc, ih ha]
    rfl

theorem splitOn_of_not_mem (sep : Char) (a : Str) (h : sep ∉ a) : splitOn sep a = [a] := by
  induction a with
  | nil => rfl
  | cons c a ih =>
    have hc : c ≠ sep := fun e => h (e ▸ List.mem_cons_self _ _)
    have ha : sep ∉ a := fun e => h (List.mem_cons_of_mem _ e)
    rw [splitOn_cons_ne sep c _ hc, ih ha]
    rfl

/-- Splitting distributes over a separator wherever it stands. -/
theorem splitOn_append_sep_any (sep : Char) (a b : Str) :
    splitOn sep (a ++ sep :: b) = splitOn sep a ++ splitOn sep b := by
  induction a with
  | nil => exact splitOn_cons_sep sep b
  | cons c a ih =>
    by_cases hc : c = sep
    · subst hc
      rw [List.cons_append, splitOn_cons_sep, splitOn_cons_sep, ih]
      rfl
    · rw [List.cons_append, splitOn_cons_ne sep c _ hc, splitOn_cons_ne sep c _ hc, ih]
      cases hs : splitOn sep a with
      | nil => exact absurd hs (splitOn_ne_nil sep a)
      | cons p ps => rfl

theorem splitFirst_append_sep (sep : Char) (a b : Str) (h : sep ∉ a) :
    splitFirst sep (a ++ sep :: b) = (a, some b) := by
  induction a with
  | nil => simp [splitFirst]
  | cons c a ih =>
    have hc : c ≠ sep := fun e => h (e ▸ List.mem_cons_self _ _)
    have ha : sep ∉ a := fun e => h (List.mem_cons_of_mem _ e)
    rw [List.cons_append, splitFirst, if_neg hc, ih ha]

theorem dropWhile_eq_self (p : Char → Bool) (s : Str) (h : ∀ c ∈ s, p c = false) :
    s.dropWhile p = s := by
  cases s with
  | nil => rfl
  | cons c s => rw [List.dropWhile_cons, h c (List.mem_cons_self _ _)]; rfl

/-- Trimming leaves a string alone that holds none of the trimmed characters. -/
theorem trimBoth_eq_self (p : Char → Bool) (s : Str) (h : ∀ c ∈ s, p c = false) :
    trimBoth p s = s := by
  unfold trimBoth
  rw [dropWhile_eq_self p s h, dropWhile_eq_self p s.reverse (fun c hc => h c (List.mem_reverse.1 hc)),
    List.reverse_reverse]

theorem cookieSafe_iff (s : Str) : cookieSafe s = true ↔ ∀ c ∈ s, isCookieSafeChar c = true := by
  simp [cookieSafe]

theorem cookieSafe_not_semicolon (s : Str) (h : cookieSafe s = true) : ';' ∉ s := by
  intro hm
  have := (cookieSafe_iff s).1 h _ hm
  exact absurd this (by decide)

theorem cookieSafe_not_equals (s : Str) (h : cookieSafe s = true) : '=' ∉ s := by
  intro hm
  have := (cookieSafe_iff s).1 h _ hm
  exact absurd this (by decide)

theorem cookieSafe_not_space (s : Str) (h : cookieSafe s = true) :
    ∀ c ∈ s, isJSSpace c = false := by
  intro c hc
  exact ((isCookieSafeChar_iff c).1 ((cookieSafe_iff s).1 h c hc)).2.2

theorem isWSP_false_of_not_space (c : Char) (h : isJSSpace c = false) : isWSP c = false := by
  simp only [isJSSpace, Bool.or_eq_false_iff, Bool.and_eq_false_imp, decide_eq_true_eq,
    decide_eq_false_iff_not] at h
  simp only [isWSP, Bool.or_eq_false_iff, decide_eq_false_iff_not, char_eq_iff]
  have e : (' ' : Char).toNat = 32 := rfl
  rw [e]
  omega

theorem cookieSafe_not_wsp (s : Str) (h : cookieSafe s = true) : ∀ c ∈ s, isWSP c = false :=
  fun c hc => isWSP_false_of_not_space c (cookieSafe_not_space s h c hc)

end Cookies

namespace Cookies

/-! ## The cookie string of `set` -/

theorem applyAttribute_samesite (acc : CookieAttributes) :
    applyAttribute (parseAttribute " samesite=Lax".toList) acc = acc := by
  have : parseAttribute " samesite=Lax".toList = ("samesite".toList, "Lax".toList) := by decide
  rw [this]
  unfold applyAttribute
  rw [if_neg (by decide), if_neg (by decide), if_neg (by decide)]

theorem applyAttribute_secure (acc : CookieAttributes) :
    applyAttribute (parseAttribute " secure".toList) acc = acc := by
  have : parseAttribute " secure".toList = ("secure".toList, []) := by decide
  rw [this]
  unfold applyAttribute
  rw [if_neg (by decide), if_neg (by decide), if_neg (by decide)]

theorem applyAttribute_path (acc : CookieAttributes) :
    applyAttribute (parseAttribute " path=/".toList) acc = { acc with path := defaultPath } := by
  have : parseAttribute " path=/".toList = ("path".toList, ['/']) := by decide
  rw [this]
  unfold applyAttribute
  rw [if_neg (by decide), if_neg (by decide), if_pos rfl]
  rfl

theorem applyAttribute_maxAge (acc : CookieAttributes) (text : Str) (n : Int)
    (hn : parseMaxAge text = some n) (hs : cookieSafe text = true) :
    applyAttribute (parseAttribute (" max-age=".toList ++ text)) acc =
      { acc with maxAge := some n } := by
  have h1 : splitFirst '=' (" max-age=".toList ++ text) = (" max-age".toList, some text) :=
    splitFirst_append_sep '=' " max-age".toList text (by decide)
  have h2 : parseAttribute (" max-age=".toList ++ text) = ("max-age".toList, text) := by
    unfold parseAttribute
    rw [h1]
    simp only [Option.getD_some, trimBoth_eq_self isWSP text (cookieSafe_not_wsp text hs)]
    congr 1
  rw [h2]
  unfold applyAttribute
  rw [if_pos rfl]
  simp only [hn]

/-- The attribute chunks after the optional `domain` attribute, for the default
`sameSite` and `path`. -/
theorem splitOn_tail (text : Str) (secure : Bool) (hs : cookieSafe text = true) :
    splitOn ';' (" samesite=Lax; path=/; max-age=".toList ++ text ++
        (if secure then "; secure".toList else [])) =
      [" samesite=Lax".toList, " path=/".toList, " max-age=".toList ++ text] ++
        (if secure then [" secure".toList] else []) := by
  have ht : ';' ∉ " max-age=".toList ++ text := by
    intro h
    rcases List.mem_append.1 h with h | h
    · exact absurd h (by decide)
    · exact cookieSafe_not_semicolon text hs h
  have e : " samesite=Lax; path=/; max-age=".toList ++ text ++
      (if secure then "; secure".toList else []) =
      " samesite=Lax".toList ++ ';' :: (" path=/".toList ++ ';' :: ((" max-age=".toList ++ text) ++
        (if secure then ';' :: " secure".toList else []))) := by
    cases secure <;> simp
  rw [e, splitOn_append_sep _ _ _ (by decide), splitOn_append_sep _ _ _ (by decide)]
  cases secure
  · simp only [Bool.false_eq_true, if_false, List.append_nil]
    rw [splitOn_of_not_mem _ _ ht]
  · simp only [if_true]
    rw [splitOn_append_sep _ _ _ ht, splitOn_of_not_mem _ _ (by decide)]
    rfl

theorem foldl_tail (acc : CookieAttributes) (text : Str) (n : Int) (secure : Bool)
    (hn : parseMaxAge text = some n) (hs : cookieSafe text = true) :
    ([" samesite=Lax".toList, " path=/".toList, " max-age=".toList ++ text] ++
        (if secure then [" secure".toList] else [])).foldl
      (fun acc chunk => applyAttribute (parseAttribute chunk) acc) acc =
      { acc with path := defaultPath, maxAge := some n } := by
  cases secure
  · simp only [Bool.false_eq_true, if_false, List.append_nil, List.foldl_cons, List.foldl_nil,
      applyAttribute_samesite, applyAttribute_path, applyAttribute_maxAge _ text n hn hs]
  · simp only [if_true, List.cons_append, List.nil_append, List.foldl_cons, List.foldl_nil,
      applyAttribute_samesite, applyAttribute_path, applyAttribute_maxAge _ text n hn hs,
      applyAttribute_secure]

/-- The attributes the browser reads off the part of the cookie string after the
name and value, for the default `sameSite` and `path`. -/
theorem parseAttributes_set (domain text : Str) (n : Int) (secure : Bool)
    (hn : parseMaxAge text = some n) (hs : cookieSafe text = true) :
    parseAttributes (splitOn ';'
        ((if domain ≠ [] then " domain=".toList ++ domain ++ ";".toList else []) ++
          (" samesite=Lax; path=/; max-age=".toList ++ text ++
            (if secure then "; secure".toList else [])))) =
      { maxAge := some n, domain := domainAttribute domain, path := defaultPath } := by
  unfold parseAttributes domainAttribute
  by_cases hd : domain = []
  · simp only [hd, ne_eq, not_true_eq_false, if_false, if_true, List.nil_append]
    rw [splitOn_tail text secure hs, foldl_tail _ text n secure hn hs]
  · simp only [hd, ne_eq, not_false_eq_true, if_true, if_false]
    have e : " domain=".toList ++ domain ++ ";".toList ++
        (" samesite=Lax; path=/; max-age=".toList ++ text ++
          (if secure then "; secure".toList else [])) =
        (" domain=".toList ++ domain) ++ ';' ::
          (" samesite=Lax; path=/; max-age=".toList ++ text ++
            (if secure then "; secure".toList else [])) := by
      simp
    rw [e, splitOn_append_sep_any, List.foldl_append, splitOn_tail text secure hs,
      foldl_tail _ text n secure hn hs]
    rfl

theorem cookieString_default (key value domain : Str) (n : Int) (secure : Bool) :
    cookieString key value domain "Lax".toList "/".toList n secure =
      (encodeURIComponent key ++ '=' :: encodeURIComponent value) ++ ';' ::
        ((if domain ≠ [] then " domain=".toList ++ domain ++ ";".toList else []) ++
          (" samesite=Lax; path=/; max-age=".toList ++ intToStr n ++
            (if secure then "; secure".toList else []))) := by
  unfold cookieString
  simp

theorem encodeURIComponent_ne_nil (key : Str) (h : key ≠ []) : encodeURIComponent key ≠ [] := by
  intro e
  have := length_le_encodeURIComponent key
  rw [e] at this
  cases key with
  | nil => exact h rfl
  | cons c s => simp at this

/-- What the browser makes of the string `set` writes with the default
`sameSite` and `path`. -/
theorem parseSetCookie_cookieString (key value domain : Str) (n : Int) (secure : Bool)
    (hkey : key ≠ []) (hn : parseMaxAge (intToStr n) = some n)
    (hs : cookieSafe (intToStr n) = true) :
    parseSetCookie (cookieString key value domain "Lax".toList "/".toList n secure) =
      some ({ name := encodeURIComponent key, value := encodeURIComponent value,
              domain := domainAttribute domain, path := defaultPath }, some n) := by
  have hk := encodeURIComponent_safe key
  have hv := encodeURIComponent_safe value
  have hsemi : ';' ∉ encodeURIComponent key ++ '=' :: encodeURIComponent value := by
    intro h
    rcases List.mem_append.1 h with h | h
    · exact cookieSafe_not_semicolon _ hk h
    · rcases List.mem_cons.1 h with h | h
      · exact absurd h (by decide)
      · exact cookieSafe_not_semicolon _ hv h
  rw [cookieString_default]
  unfold parseSetCookie
  rw [splitOn_append_sep _ _ _ hsemi]
  simp only [splitFirst_append_sep '=' _ _ (cookieSafe_not_equals _ hk),
    trimBoth_eq_self isWSP _ (cookieSafe_not_wsp _ hk),
    trimBoth_eq_self isWSP _ (cookieSafe_not_wsp _ hv),
    encodeURIComponent_ne_nil key hkey, if_false, parseAttributes_set domain _ n secure hn hs]

theorem maxAge_default_ok :
    parseMaxAge (intToStr (60 * 60 * 24 * 365)) = some (60 * 60 * 24 * 365) ∧
      cookieSafe (intToStr (60 * 60 * 24 * 365)) = true := by
  decide

theorem maxAge_delete_ok :
    parseMaxAge (intToStr (-1)) = some (-1) ∧ cookieSafe (intToStr (-1)) = true := by
  decide

end Cookies

namespace Cookies

/-! ## Reading `document.cookie` -/

theorem mem_insertByPath (c x : StoredCookie) (l : Jar) :
    x ∈ insertByPath c l ↔ x = c ∨ x ∈ l := by
  induction l with
  | nil => simp [insertByPath]
  | cons d l ih =>
    unfold insertByPath
    split_ifs
    · simp
    · rw [List.mem_cons, ih, List.mem_cons]
      constructor
      · rintro (h | h | h)
        · exact Or.inr (Or.inl h)
        · exact Or.inl h
        · exact Or.inr (Or.inr h)
      · rintro (h | h | h)
        · exact Or.inr (Or.inl h)
        · exact Or.inl h
        · exact Or.inr (Or.inr h)

theorem mem_foldl_insertByPath (jar acc : Jar) (x : StoredCookie) :
    x ∈ jar.foldl (fun acc c => insertByPath c acc) acc ↔ x ∈ jar ∨ x ∈ acc := by
  induction jar generalizing acc with
  | nil => simp
  | cons d jar ih =>
    rw [List.foldl_cons, ih, mem_insertByPath, List.mem_cons]
    constructor
    · rintro (h | h | h)
      · exact Or.inl (Or.inr h)
      · exact Or.inl (Or.inl h)
      · exact Or.inr h
    · rintro ((h | h) | h)
      · exact Or.inr (Or.inl h)
      · exact Or.inl h
      · exact Or.inr (Or.inr h)

/-- The reported cookies are the stored ones. -/
theorem mem_sortByPath (jar : Jar) (x : StoredCookie) : x ∈ sortByPath jar ↔ x ∈ jar := by
  unfold sortByPath
  rw [mem_foldl_insertByPath]
  simp

theorem joinWith_cons_cons (sep a b : Str) (rest : List Str) :
    joinWith sep (a :: b :: rest) = a ++ sep ++ joinWith sep (b :: rest) := rfl

/-- Splitting what `document.cookie` shows gives the pairs back, all but the
first behind a space. -/
theorem splitOn_joinWith (e : Str) (es : List Str) (h : ∀ x ∈ e :: es, ';' ∉ x) :
    splitOn ';' (joinWith [';', ' '] (e :: es)) = e :: es.map (fun x => ' ' :: x) := by
  induction es generalizing e with
  | nil =>
    show splitOn ';' e = [e]
    exact splitOn_of_not_mem _ _ (h e (List.mem_cons_self _ _))
  | cons e2 es ih =>
    rw [joinWith_cons_cons]
    have : e ++ [';', ' '] ++ joinWith [';', ' '] (e2 :: es) =
        e ++ ';' :: (' ' :: joinWith [';', ' '] (e2 :: es)) := by simp
    rw [this, splitOn_append_sep _ _ _ (h e (List.mem_cons_self _ _)),
      splitOn_cons_ne _ _ _ (by decide), ih e2 (fun x hx => h x (List.mem_cons_of_mem _ hx))]
    rfl

theorem pair_not_space (c : StoredCookie) (h : c.wellFormed) :
    ∀ x ∈ c.pair, isJSSpace x = false := by
  intro x hx
  unfold StoredCookie.pair at hx
  rcases List.mem_append.1 hx with hx | hx
  · exact cookieSafe_not_space _ h.2.1 x hx
  · rcases List.mem_cons.1 hx with hx | hx
    · rw [hx]; decide
    · exact cookieSafe_not_space _ h.2.2 x hx

theorem pair_not_semicolon (c : StoredCookie) (h : c.wellFormed) : ';' ∉ c.pair := by
  intro hx
  unfold StoredCookie.pair at hx
  rcases List.mem_append.1 hx with hx | hx
  · exact cookieSafe_not_semicolon _ h.2.1 hx
  · rcases List.mem_cons.1 hx with hx | hx
    · exact absurd hx (by decide)
    · exact cookieSafe_not_semicolon _ h.2.2 hx

theorem trim_pair (c : StoredCookie) (h : c.wellFormed) : trim c.pair = c.pair :=
  trimBoth_eq_self _ _ (pair_not_space c h)

theorem trim_space_pair (c : StoredCookie) (h : c.wellFormed) : trim (' ' :: c.pair) = c.pair := by
  unfold trim trimBoth
  rw [List.dropWhile_cons, show isJSSpace ' ' = true by decide]
  simp only [if_true]
  exact trimBoth_eq_self _ _ (pair_not_space c h)

theorem splitOn_pair (c : StoredCookie) (h : c.wellFormed) :
    splitOn '=' c.pair = [c.name, c.value] := by
  unfold StoredCookie.pair
  rw [splitOn_append_sep _ _ _ (cookieSafe_not_equals _ h.2.1),
    splitOn_of_not_mem _ _ (cookieSafe_not_equals _ h.2.2)]

theorem allStep_pair (o : JSObj (Option Str)) (c : StoredCookie) (h : c.wellFormed) :
    allStep o c.pair = o.assign c.name (some c.value) := by
  unfold allStep
  rw [trim_pair c h, splitOn_pair c h]
  simp only [h.1, ne_eq, not_false_eq_true, if_true, List.head?_cons]

theorem allStep_space_pair (o : JSObj (Option Str)) (c : StoredCookie) (h : c.wellFormed) :
    allStep o (' ' :: c.pair) = o.assign c.name (some c.value) := by
  unfold allStep
  rw [trim_space_pair c h, splitOn_pair c h]
  simp only [h.1, ne_eq, not_false_eq_true, if_true, List.head?_cons]

theorem pair_ne_nil (c : StoredCookie) : c.pair ≠ [] := by
  unfold StoredCookie.pair
  simp

theorem foldl_allStep_space (l : Jar) (o : JSObj (Option Str)) (h : ∀ c ∈ l, c.wellFormed) :
    ((l.map (fun c => ' ' :: c.pair)).filter (fun x => x ≠ [])).foldl allStep o =
      l.foldl (fun (o : JSObj (Option Str)) (c : StoredCookie) => JSObj.assign c.name (some c.value) o) o := by
  induction l generalizing o with
  | nil => rfl
  | cons c l ih =>
    rw [List.map_cons, List.filter_cons_of_pos (by simp), List.foldl_cons, List.foldl_cons,
      allStep_space_pair o c (h c (List.mem_cons_self _ _)),
      ih _ (fun d hd => h d (List.mem_cons_of_mem _ hd))]

/-- What `all` returns when every stored cookie is in the form `set` writes:
the reported cookies assigned one after another. -/
theorem all_eq (w : World) (h : ∀ c ∈ w.jar, c.wellFormed) :
    all w = (sortByPath w.jar).foldl (fun (o : JSObj (Option Str)) (c : StoredCookie) => JSObj.assign c.name (some c.value) o) [] := by
  have hs : ∀ c ∈ sortByPath w.jar, c.wellFormed := fun c hc => h c ((mem_sortByPath _ _).1 hc)
  have e : all w = ((splitOn ';' w.jar.read).filter (fun x => x ≠ [])).foldl allStep [] := rfl
  rw [e]
  unfold Jar.read
  generalize sortByPath w.jar = l at hs
  cases l with
  | nil => rfl
  | cons c l =>
    rw [List.map_cons, splitOn_joinWith, List.filter_cons_of_pos (by simp [pair_ne_nil c]),
      List.foldl_cons, List.foldl_cons, allStep_pair [] c (hs c (List.mem_cons_self _ _)),
      List.map_map]
    · exact foldl_allStep_space l _ (fun d hd => hs d (List.mem_cons_of_mem _ hd))
    · intro x hx
      rcases List.mem_cons.1 hx with hx | hx
      · rw [hx]; exact pair_not_semicolon c (hs c (List.mem_cons_self _ _))
      · obtain ⟨d, hd, rfl⟩ := List.mem_map.1 hx
        exact pair_not_semicolon d (hs d (List.mem_cons_of_mem _ hd))

theorem JSObj.get?_assign {α : Type} (k : Str) (v : α) (o : JSObj α) (k2 : Str)
    (h : k2 ≠ protoName) :
    JSObj.get? (JSObj.assign k v o) k2 = if k2 = k then some v else JSObj.get? o k2 := by
  unfold JSObj.assign
  by_cases hk : k = protoName
  · rw [if_pos hk, if_neg (fun e => h (e.trans hk))]
  · rw [if_neg hk, JSObj.get?_define]

/-- Looking a name up after the loop of `all`, when the cookies of that name
all hold one value. -/
theorem get?_foldl_assign (l : Jar) (o : JSObj (Option Str)) (key v : Str)
    (hp : key ≠ protoName) (hv : ∀ c ∈ l, c.name = key → c.value = v) :
    JSObj.get? (l.foldl (fun (o : JSObj (Option Str)) (c : StoredCookie) => JSObj.assign c.name (some c.value) o) o) key =
      if (∃ c ∈ l, c.name = key) then some (some v) else JSObj.get? o key := by
  induction l generalizing o with
  | nil => simp
  | cons c l ih =>
    rw [List.foldl_cons, ih _ (fun d hd => hv d (List.mem_cons_of_mem _ hd))]
    by_cases h1 : ∃ d ∈ l, d.name = key
    · have h2 : ∃ d ∈ c :: l, d.name = key := by
        obtain ⟨d, hd, hn⟩ := h1
        exact ⟨d, List.mem_cons_of_mem _ hd, hn⟩
      rw [if_pos h1, if_pos h2]
    · rw [if_neg h1, JSObj.get?_assign _ _ _ _ hp]
      by_cases h3 : key = c.name
      · have h2 : ∃ d ∈ c :: l, d.name = key := ⟨c, List.mem_cons_self _ _, h3.symm⟩
        rw [if_pos h3, if_pos h2, hv c (List.mem_cons_self _ _) h3.symm]
      · have h2 : ¬ ∃ d ∈ c :: l, d.name = key := by
          rintro ⟨d, hd, hn⟩
          rcases List.mem_cons.1 hd with hd | hd
          · exact h3 (hd ▸ hn.symm)
          · exact h1 ⟨d, hd, hn⟩
        rw [if_neg h3, if_neg h2]

/-- Looking a name up in `all`, when every stored cookie is in the form `set`
writes and the cookies of that name all hold one value. -/
theorem get?_all (w : World) (key v : Str) (h : ∀ c ∈ w.jar, c.wellFormed)
    (hp : key ≠ protoName) (hv : ∀ c ∈ w.jar, c.name = key → c.value = v) :
    JSObj.get? (all w) key = if (∃ c ∈ w.jar, c.name = key) then some (some v) else none := by
  rw [all_eq w h, get?_foldl_assign _ _ key v hp
    (fun c hc => hv c ((mem_sortByPath _ _).1 hc))]
  have : (∃ c ∈ sortByPath w.jar, c.name = key) ↔ (∃ c ∈ w.jar, c.name = key) := by
    constructor
    · rintro ⟨c, hc, hn⟩; exact ⟨c, (mem_sortByPath _ _).1 hc, hn⟩
    · rintro ⟨c, hc, hn⟩; exact ⟨c, (mem_sortByPath _ _).2 hc, hn⟩
  simp only [this]
  rfl

/-- The result of `get(key)` when the cookies named `key` all hold the value `v`. -/
theorem get_of_present (w : World) (key v : Str) (h : ∀ c ∈ w.jar, c.wellFormed)
    (hp : key ≠ protoName) (hv : ∀ c ∈ w.jar, c.name = key → c.value = v)
    (hex : ∃ c ∈ w.jar, c.name = key) :
    get key w = (decodeURIComponent v).map some := by
  have hg := get?_all w key v h hp hv
  rw [if_pos hex] at hg
  have hh : «exists» key w = true := by
    unfold «exists»
    rw [← JSObj.get?_isSome, hg]
    rfl
  unfold get
  rw [if_pos hh, hg]
  rfl

/-- The result of `get(key)` when no cookie is named `key`. -/
theorem get_of_absent (w : World) (key : Str) (h : ∀ c ∈ w.jar, c.wellFormed)
    (hp : key ≠ protoName) (hex : ¬ ∃ c ∈ w.jar, c.name = key) :
    get key w = .ok none := by
  have hg := get?_all w key [] h hp (fun c hc hn => absurd ⟨c, hc, hn⟩ hex)
  rw [if_neg hex] at hg
  have hh : «exists» key w = false := by
    unfold «exists»
    rw [← JSObj.get?_isSome, hg]
    rfl
  unfold get
  rw [hh]
  rfl

end Cookies

namespace Cookies

/-! ## The store: what an operation leaves behind -/

theorem trigger_jar (self : Nat) (event : Str) (data : Payload) (w : World) :
    (trigger self event data w).jar = w.jar := by
  unfold trigger; split_ifs <;> rfl

theorem trigger_heap (self : Nat) (event : Str) (data : Payload) (w : World) :
    (trigger self event data w).heap = w.heap := by
  unfold trigger; split_ifs <;> rfl

theorem trigger_instance (self : Nat) (event : Str) (data : Payload) (w : World) :
    (trigger self event data w)._instance = w._instance := by
  unfold trigger; split_ifs <;> rfl

theorem trigger_written (self : Nat) (event : Str) (data : Payload) (w : World) :
    (trigger self event data w).written = w.written := by
  unfold trigger; split_ifs <;> rfl

theorem trigger_fields (self : Nat) (event : Str) (data : Payload) (w : World) (r : Nat) :
    (trigger self event data w).fields r = w.fields r := by
  unfold World.fields; rw [trigger_heap]

/-- The calls `trigger` makes: the callbacks registered for the event, in order,
each with the payload. -/
theorem trigger_calls (self : Nat) (event : Str) (data : Payload) (w : World) :
    (trigger self event data w).calls = w.calls ++
      ((((w.fields self).events.get? event).getD []).map (fun cb =>
        ({ callback := cb, self := self, data := data } : Invocation))) := by
  unfold trigger
  by_cases h : (w.fields self).events.has event = true
  · rw [if_pos h]
  · rw [if_neg h]
    have h2 : (w.fields self).events.has event = false := by simpa using h
    rw [(JSObj.get?_eq_none_iff _ _).2 h2]
    simp

theorem all_congr (w w2 : World) (h : w.jar = w2.jar) : all w = all w2 := by
  unfold all; rw [h]

theorem get_congr (key : Str) (w w2 : World) (h : w.jar = w2.jar) : get key w = get key w2 := by
  unfold get «exists»; rw [all_congr w w2 h]

theorem storedRecord_congr (key : Str) (w w2 : World) (h : w.jar = w2.jar) :
    storedRecord key w = storedRecord key w2 := by
  unfold storedRecord; rw [get_congr key w w2 h]

theorem policies_eq_storedRecord (self : Nat) (w : World) :
    policies self w = storedRecord (w.fields self).policiesKey w := rfl

theorem policies_congr (self : Nat) (w w2 : World) (hj : w.jar = w2.jar)
    (hh : w.heap = w2.heap) : policies self w = policies self w2 := by
  rw [policies_eq_storedRecord, policies_eq_storedRecord, storedRecord_congr _ w w2 hj]
  unfold World.fields; rw [hh]

theorem isPolicyAccepted_congr (self : Nat) (policy : Str) (w w2 : World) (hj : w.jar = w2.jar)
    (hh : w.heap = w2.heap) : isPolicyAccepted self policy w = isPolicyAccepted self policy w2 := by
  unfold isPolicyAccepted; rw [policies_congr self w w2 hj hh]

/-! ### `set` with its default options -/

theorem set_eq (self : Nat) (key value : Str) (w : World) (hkey : key ≠ []) :
    set self key value {} w =
      trigger self "setCookie".toList
        (.setCookie key value (60 * 60 * 24 * 365) "/".toList "Lax".toList
          (w.fields self).domain (w.fields self).secure
          (cookieString key value (w.fields self).domain "Lax".toList "/".toList
            (60 * 60 * 24 * 365) (w.fields self).secure))
        { w with
          jar := w.jar.assign (cookieString key value (w.fields self).domain "Lax".toList
            "/".toList (60 * 60 * 24 * 365) (w.fields self).secure),
          written := w.written ++ [cookieString key value (w.fields self).domain "Lax".toList
            "/".toList (60 * 60 * 24 * 365) (w.fields self).secure] } := by
  unfold set
  simp only [hkey, if_false]
  rfl

theorem set_jar (self : Nat) (key value : Str) (w : World) (hkey : key ≠ []) :
    (set self key value {} w).jar =
      w.jar.store (policyCookie key (w.fields self).domain value) (some (60 * 60 * 24 * 365)) := by
  rw [set_eq self key value w hkey, trigger_jar]
  show w.jar.assign _ = _
  unfold Jar.assign
  rw [parseSetCookie_cookieString key value _ _ _ hkey maxAge_default_ok.1 maxAge_default_ok.2]
  rfl

theorem set_heap (self : Nat) (key value : Str) (options : SetOptions) (w : World) :
    (set self key value options w).heap = w.heap := by
  unfold set
  split_ifs
  · rfl
  · rw [trigger_heap]

theorem set_instance (self : Nat) (key value : Str) (options : SetOptions) (w : World) :
    (set self key value options w)._instance = w._instance := by
  unfold set
  split_ifs
  · rfl
  · rw [trigger_instance]

theorem set_written (self : Nat) (key value : Str) (w : World) (hkey : key ≠ []) :
    (set self key value {} w).written = w.written ++
      [cookieString key value (w.fields self).domain "Lax".toList "/".toList
        (60 * 60 * 24 * 365) (w.fields self).secure] := by
  rw [set_eq self key value w hkey, trigger_written]

theorem set_calls (self : Nat) (key value : Str) (w : World) (hkey : key ≠ []) :
    (set self key value {} w).calls = w.calls ++
      ((((w.fields self).events.get? "setCookie".toList).getD []).map (fun cb =>
        ({ callback := cb, self := self,
           data := .setCookie key value (60 * 60 * 24 * 365) "/".toList "Lax".toList
            (w.fields self).domain (w.fields self).secure
            (cookieString key value (w.fields self).domain "Lax".toList "/".toList
              (60 * 60 * 24 * 365) (w.fields self).secure) } : Invocation))) := by
  rw [set_eq self key value w hkey, trigger_calls]
  rfl

/-! ### Storing a cookie -/

theorem mem_store_pos (c x : StoredCookie) (n : Int) (jar : Jar) (hn : 0 < n)
    (hx : x ∈ jar.store c (some n)) : x = c ∨ (x ∈ jar ∧ x.sameEntry c = false) := by
  unfold Jar.store at hx
  have h0 : decide (n ≤ 0) = false := by simpa using hn
  simp only [h0, Bool.false_eq_true, if_false] at hx
  by_cases ha : jar.any (fun d => d.sameEntry c) = true
  · rw [if_pos ha] at hx
    obtain ⟨d, hd, he⟩ := List.mem_map.1 hx
    by_cases hs : d.sameEntry c = true
    · rw [if_pos hs] at he; exact Or.inl he.symm
    · rw [if_neg hs] at he
      subst he
      exact Or.inr ⟨hd, by simpa using hs⟩
  · rw [if_neg ha] at hx
    rcases List.mem_append.1 hx with hx | hx
    · right
      refine ⟨hx, ?_⟩
      by_contra hs
      exact ha (List.any_eq_true.2 ⟨x, hx, by simpa using hs⟩)
    · exact Or.inl (List.mem_singleton.1 hx)

theorem self_mem_store_pos (c : StoredCookie) (n : Int) (jar : Jar) (hn : 0 < n) :
    c ∈ jar.store c (some n) := by
  unfold Jar.store
  have h0 : decide (n ≤ 0) = false := by simpa using hn
  simp only [h0, Bool.false_eq_true, if_false]
  by_cases ha : jar.any (fun d => d.sameEntry c) = true
  · rw [if_pos ha]
    obtain ⟨d, hd, hs⟩ := List.any_eq_true.1 ha
    exact List.mem_map.2 ⟨d, hd, by rw [if_pos hs]⟩
  · rw [if_neg ha]
    exact List.mem_append.2 (Or.inr (List.mem_singleton.2 rfl))

theorem policyCookie_wellFormed (key domain text : Str) (hkey : key ≠ []) :
    (policyCookie key domain text).wellFormed :=
  ⟨encodeURIComponent_ne_nil key hkey, encodeURIComponent_safe key, encodeURIComponent_safe text⟩

end Cookies

namespace Cookies

/-! ### Saving a record and reading it back -/

theorem savePolicies_eq (self : Nat) (record : JSObj JSON) (w : World) :
    savePolicies self record w =
      set self (w.fields self).policiesKey (JSON.stringify (.obj record)) {} w := rfl

theorem savePolicies_heap (self : Nat) (record : JSObj JSON) (w : World) :
    (savePolicies self record w).heap = w.heap := set_heap _ _ _ _ _

theorem savePolicies_instance (self : Nat) (record : JSObj JSON) (w : World) :
    (savePolicies self record w)._instance = w._instance := set_instance _ _ _ _ _

theorem savePolicies_fields (self : Nat) (record : JSObj JSON) (w : World) (r : Nat) :
    (savePolicies self record w).fields r = w.fields r := by
  unfold World.fields; rw [savePolicies_heap]

/-- The jar after `savePolicies`, for a store whose key encoding leaves
unchanged and whose slot holds only its own cookies: every cookie is still in
the form `set` writes, the slot still holds only cookies of the store, and each
of them holds the text just saved. -/
theorem savePolicies_jar (self : Nat) (record : JSObj JSON) (w : World)
    (hkey : (w.fields self).policiesKey ≠ [])
    (henc : encodeURIComponent (w.fields self).policiesKey = (w.fields self).policiesKey)
    (hwf : ∀ c ∈ w.jar, c.wellFormed)
    (hslot : ∀ c ∈ w.jar, c.name = (w.fields self).policiesKey →
      c.domain = domainAttribute (w.fields self).domain ∧ c.path = defaultPath) :
    (∀ c ∈ (savePolicies self record w).jar, c.wellFormed) ∧
    (∀ c ∈ (savePolicies self record w).jar, c.name = (w.fields self).policiesKey →
      c.domain = domainAttribute (w.fields self).domain ∧ c.path = defaultPath) ∧
    (∀ c ∈ (savePolicies self record w).jar, c.name = (w.fields self).policiesKey →
      c.value = encodeURIComponent (JSON.stringify (.obj record))) ∧
    (∃ c ∈ (savePolicies self record w).jar, c.name = (w.fields self).policiesKey) := by
  rw [savePolicies_eq, set_jar _ _ _ _ hkey]
  have hpos : (0 : Int) < 60 * 60 * 24 * 365 := by decide
  have hname : (policyCookie (w.fields self).policiesKey (w.fields self).domain
      (JSON.stringify (.obj record))).name = (w.fields self).policiesKey := henc
  refine ⟨?_, ?_, ?_, ?_⟩
  · intro c hc
    rcases mem_store_pos _ _ _ _ hpos hc with h | h
    · rw [h]; exact policyCookie_wellFormed _ _ _ hkey
    · exact hwf c h.1
  · intro c hc hn
    rcases mem_store_pos _ _ _ _ hpos hc with h | h
    · rw [h]; exact ⟨rfl, rfl⟩
    · exact hslot c h.1 hn
  · intro c hc hn
    rcases mem_store_pos _ _ _ _ hpos hc with h | h
    · rw [h]; rfl
    · exfalso
      have hs := hslot c h.1 hn
      have : c.sameEntry (policyCookie (w.fields self).policiesKey (w.fields self).domain
          (JSON.stringify (.obj record))) = true := by
        unfold StoredCookie.sameEntry
        rw [hname, hn, hs.1, hs.2]
        simp [policyCookie]
      rw [this] at h
      exact absurd h.2 (by decide)
  · exact ⟨_, self_mem_store_pos _ _ _ hpos, hname⟩

theorem stringify_obj_ne_nil (record : JSObj JSON) : JSON.stringify (.obj record) ≠ [] := by
  rw [JSON.stringify]; simp

/-- The call `get(policiesKey)` after `savePolicies` returns the text just saved. -/
theorem get_savePolicies (self : Nat) (record : JSObj JSON) (w : World)
    (hkey : (w.fields self).policiesKey ≠ [])
    (hproto : (w.fields self).policiesKey ≠ protoName)
    (henc : encodeURIComponent (w.fields self).policiesKey = (w.fields self).policiesKey)
    (hwf : ∀ c ∈ w.jar, c.wellFormed)
    (hslot : ∀ c ∈ w.jar, c.name = (w.fields self).policiesKey →
      c.domain = domainAttribute (w.fields self).domain ∧ c.path = defaultPath) :
    get (w.fields self).policiesKey (savePolicies self record w) =
      .ok (some (JSON.stringify (.obj record))) := by
  obtain ⟨h1, _, h3, h4⟩ := savePolicies_jar self record w hkey henc hwf hslot
  rw [get_of_present _ _ _ h1 hproto h3 h4, decodeURIComponent_encodeURIComponent]
  rfl

/-- The getter `policies` after `savePolicies` parses the text just saved. -/
theorem policies_savePolicies (self : Nat) (record : JSObj JSON) (w : World)
    (hkey : (w.fields self).policiesKey ≠ [])
    (hproto : (w.fields self).policiesKey ≠ protoName)
    (henc : encodeURIComponent (w.fields self).policiesKey = (w.fields self).policiesKey)
    (hwf : ∀ c ∈ w.jar, c.wellFormed)
    (hslot : ∀ c ∈ w.jar, c.name = (w.fields self).policiesKey →
      c.domain = domainAttribute (w.fields self).domain ∧ c.path = defaultPath) :
    policies self (savePolicies self record w) = JSON.parse (JSON.stringify (.obj record)) := by
  rw [policies_eq_storedRecord, savePolicies_fields]
  unfold storedRecord
  rw [get_savePolicies self record w hkey hproto henc hwf hslot]
  simp only [stringify_obj_ne_nil, if_false]

/-! ### Records of booleans -/

theorem allBool_boolRecord (r : List (Str × Bool)) : allBool (boolRecord r) := by
  intro p hp
  obtain ⟨q, _, rfl⟩ := List.mem_map.1 hp
  exact ⟨q.2, rfl⟩

theorem exists_boolRecord (o : JSObj JSON) (h : allBool o) : ∃ r, o = boolRecord r := by
  induction o with
  | nil => exact ⟨[], rfl⟩
  | cons p o ih =>
    obtain ⟨r, hr⟩ := ih (fun q hq => h q (List.mem_cons_of_mem _ hq))
    obtain ⟨b, hb⟩ := h p (List.mem_cons_self _ _)
    refine ⟨(p.1, b) :: r, ?_⟩
    rw [hr]
    show p :: boolRecord r = (p.1, JSON.bool b) :: boolRecord r
    rw [← hb]

theorem allBool_nil : allBool [] := fun _ h => absurd h (List.not_mem_nil _)

theorem mem_insertIndex {α : Type} (i : Nat) (k : Str) (v : α) (o : JSObj α) (p : Str × α)
    (h : p ∈ JSObj.insertIndex i k v o) : p = (k, v) ∨ p ∈ o := by
  induction o with
  | nil => exact Or.inl (List.mem_singleton.1 h)
  | cons q o ih =>
    rw [JSObj.insertIndex_cons] at h
    cases hq : arrayIndex? q.1 with
    | none =>
      rw [hq] at h
      rcases List.mem_cons.1 h with h | h
      · exact Or.inl h
      · exact Or.inr h
    | some j =>
      rw [hq] at h
      by_cases hj : j < i
      · simp only [hj, if_true] at h
        rcases List.mem_cons.1 h with h | h
        · exact Or.inr (h ▸ List.mem_cons_self _ _)
        · rcases ih h with h | h
          · exact Or.inl h
          · exact Or.inr (List.mem_cons_of_mem _ h)
      · simp only [hj, if_false] at h
        rcases List.mem_cons.1 h with h | h
        · exact Or.inl h
        · exact Or.inr h

/-- An entry of an object after `CreateDataProperty` carries the new value or
was there before. -/
theorem mem_define {α : Type} (k : Str) (v : α) (o : JSObj α) (p : Str × α)
    (h : p ∈ JSObj.define k v o) : p.2 = v ∨ p ∈ o := by
  unfold JSObj.define at h
  by_cases h1 : JSObj.has o k = true
  · rw [if_pos h1] at h
    obtain ⟨q, hq, he⟩ := List.mem_map.1 h
    by_cases h2 : q.1 = k
    · rw [if_pos h2] at he; left; rw [← he]
    · rw [if_neg h2] at he; right; rw [← he]; exact hq
  · rw [if_neg h1] at h
    cases hi : arrayIndex? k with
    | none =>
      rw [hi] at h
      rcases List.mem_append.1 h with h | h
      · exact Or.inr h
      · left; rw [List.mem_singleton.1 h]
    | some i =>
      rw [hi] at h
      rcases mem_insertIndex i k v o p h with h | h
      · left; rw [h]
      · exact Or.inr h

theorem allBool_define (k : Str) (b : Bool) (o : JSObj JSON) (h : allBool o) :
    allBool (JSObj.define k (JSON.bool b) o) := by
  intro p hp
  rcases mem_define _ _ _ _ hp with hp | hp
  · exact ⟨b, hp⟩
  · exact h p hp

theorem allBool_defineAll (l : List (Str × JSON)) (o : JSObj JSON) (hl : allBool l)
    (h : allBool o) : allBool (JSObj.defineAll o l) := by
  induction l generalizing o with
  | nil => exact h
  | cons p l ih =>
    rw [JSObj.defineAll_cons]
    obtain ⟨b, hb⟩ := hl p (List.mem_cons_self _ _)
    rw [hb]
    exact ih _ (fun q hq => hl q (List.mem_cons_of_mem _ hq)) (allBool_define _ _ _ h)

theorem allBool_fromEntries (l : List (Str × JSON)) (hl : allBool l) :
    allBool (JSObj.fromEntries l) :=
  allBool_defineAll l [] hl allBool_nil

/-- Saving a record of booleans and reading `policies` gives the record back,
value for value. -/
theorem policies_savePolicies_bool (self : Nat) (record : JSObj JSON) (w : World)
    (hb : allBool record)
    (hkey : (w.fields self).policiesKey ≠ [])
    (hproto : (w.fields self).policiesKey ≠ protoName)
    (henc : encodeURIComponent (w.fields self).policiesKey = (w.fields self).policiesKey)
    (hwf : ∀ c ∈ w.jar, c.wellFormed)
    (hslot : ∀ c ∈ w.jar, c.name = (w.fields self).policiesKey →
      c.domain = domainAttribute (w.fields self).domain ∧ c.path = defaultPath) :
    policies self (savePolicies self record w) = .ok (.obj (JSObj.fromEntries record)) := by
  rw [policies_savePolicies self record w hkey hproto henc hwf hslot]
  obtain ⟨r, rfl⟩ := exists_boolRecord record hb
  exact parse_stringify_boolRecord r

end Cookies

namespace Cookies

/-! ### What `JSON.parse` returns -/

theorem parseValue_obj_nodup (fuel : Nat) (s : Str) (r : JSObj JSON) (rest : Str)
    (h : parseValue fuel s = .ok (.obj r, rest)) : (JSObj.keys r).Nodup := by
  cases fuel with
  | zero => unfold parseValue at h; cases h
  | succ n =>
    unfold parseValue at h
    cases s with
    | nil => cases h
    | cons c s =>
      simp only at h
      by_cases h1 : c = '{'
      · rw [if_pos h1] at h
        cases hs : skipSpace s with
        | nil => rw [hs] at h; cases h
        | cons d rest2 =>
          rw [hs] at h
          simp only at h
          by_cases h2 : d = '}'
          · rw [if_pos h2] at h
            cases h
            exact List.nodup_nil
          · rw [if_neg h2] at h
            cases hm : parseMembers n (d :: rest2) with
            | error e => rw [hm] at h; cases h
            | ok v =>
              rw [hm] at h
              cases h
              exact JSObj.nodup_keys_fromEntries _
      · rw [if_neg h1] at h
        by_cases h3 : c = '['
        · rw [if_pos h3] at h
          cases hs : skipSpace s with
          | nil => rw [hs] at h; cases h
          | cons d rest2 =>
            rw [hs] at h
            simp only at h
            by_cases h2 : d = ']'
            · rw [if_pos h2] at h; cases h
            · rw [if_neg h2] at h
              cases hm : parseElements n (d :: rest2) with
              | error e => rw [hm] at h; cases h
              | ok v => rw [hm] at h; cases h
        · rw [if_neg h3] at h
          by_cases h4 : c = '"'
          · rw [if_pos h4] at h
            cases hm : parseStringBody s with
            | error e => rw [hm] at h; cases h
            | ok v => rw [hm] at h; cases h
          · rw [if_neg h4] at h
            split at h
            · cases h
            · cases h
            · cases h
            · split at h
              · cases h
              · cases h

/-- An object that `JSON.parse` returns has no repeated property name. -/
theorem parse_obj_nodup (text : Str) (r : JSObj JSON) (h : JSON.parse text = .ok (.obj r)) :
    (JSObj.keys r).Nodup := by
  unfold JSON.parse at h
  cases hv : parseValue (text.length + 1) (skipSpace text) with
  | error e => rw [hv] at h; cases h
  | ok v =>
    rw [hv] at h
    obtain ⟨x, rest⟩ := v
    simp only at h
    by_cases hr : skipSpace rest = []
    · rw [if_pos hr] at h
      cases h
      exact parseValue_obj_nodup _ _ _ _ hv
    · rw [if_neg hr] at h; cases h

theorem storedRecord_obj_nodup (key : Str) (w : World) (r : JSObj JSON)
    (h : storedRecord key w = .ok (.obj r)) : (JSObj.keys r).Nodup := by
  unfold storedRecord at h
  split at h
  · cases h
  · exact parse_obj_nodup _ _ h
  · split_ifs at h <;> exact parse_obj_nodup _ _ h

/-! ### Looking a policy up -/

theorem isPolicyAccepted_of_policies (self : Nat) (policy : Str) (w : World) (r : JSObj JSON)
    (h : policies self w = .ok (.obj r)) :
    isPolicyAccepted self policy w =
      .ok (if r.has policy = true then
        some (decide (r.get? policy = some (JSON.bool true))) else none) := by
  unfold isPolicyAccepted
  rw [h]
  simp only [JSON.hasOwn, JSON.isTrueAt]
  cases r.has policy <;> rfl

theorem JSObj.get?_reverse_of_nodup {α : Type} (l : JSObj α) (h : (JSObj.keys l).Nodup)
    (k : Str) : JSObj.get? l.reverse k = JSObj.get? l k := by
  have hr : (JSObj.keys l.reverse).Nodup := by
    simp only [JSObj.keys, List.map_reverse, List.nodup_reverse]; exact h
  cases h2 : JSObj.get? l k with
  | none =>
    cases h1 : JSObj.get? l.reverse k with
    | none => rfl
    | some v =>
      have := (JSObj.get?_eq_some_iff_mem l.reverse hr k v).1 h1
      rw [(JSObj.get?_eq_some_iff_mem l h k v).2 (List.mem_reverse.1 this)] at h2
      cases h2
  | some v =>
    have := (JSObj.get?_eq_some_iff_mem l h k v).1 h2
    exact (JSObj.get?_eq_some_iff_mem l.reverse hr k v).2 (List.mem_reverse.2 this)

/-- Spreading a property list without repeated names over an object: the
names of the list take its values, the others keep theirs. -/
theorem JSObj.get?_defineAll_of_nodup {α : Type} (l : JSObj α) (o : JSObj α)
    (h : (JSObj.keys l).Nodup) (k : Str) :
    JSObj.get? (JSObj.defineAll o l) k =
      if JSObj.has l k = true then JSObj.get? l k else JSObj.get? o k := by
  rw [JSObj.get?_defineAll, JSObj.get?_reverse_of_nodup l h]
  cases hg : JSObj.get? l k with
  | none => rw [(JSObj.get?_eq_none_iff l k).1 hg]; rfl
  | some v =>
    have : JSObj.has l k = true := by
      rw [← JSObj.get?_isSome, hg]; rfl
    rw [this]; rfl

theorem JSObj.mem_of_get? {α : Type} (o : JSObj α) (k : Str) (v : α)
    (h : JSObj.get? o k = some v) : (k, v) ∈ o := by
  induction o with
  | nil => cases h
  | cons p o ih =>
    rw [JSObj.get?_cons] at h
    by_cases hp : p.1 = k
    · rw [if_pos hp] at h
      cases h
      rw [← hp]
      exact List.mem_cons_self _ _
    · rw [if_neg hp] at h
      exact List.mem_cons_of_mem _ (ih h)

/-- Looking a name up in an object all of whose values are `v`. -/
theorem JSObj.get?_of_const {α : Type} (o : JSObj α) (v : α) (h : ∀ p ∈ o, p.2 = v) (k : Str)
    (hk : JSObj.has o k = true) : JSObj.get? o k = some v := by
  cases hg : JSObj.get? o k with
  | none => rw [(JSObj.get?_eq_none_iff o k).1 hg] at hk; cases hk
  | some x => rw [← h _ (JSObj.mem_of_get? o k x hg)]

theorem const_define {α : Type} (k : Str) (v : α) (o : JSObj α) (h : ∀ p ∈ o, p.2 = v) :
    ∀ p ∈ JSObj.define k v o, p.2 = v := by
  intro p hp
  rcases mem_define _ _ _ _ hp with hp | hp
  · exact hp
  · exact h p hp

theorem const_defineAll {α : Type} (l : List (Str × α)) (v : α) (o : JSObj α)
    (hl : ∀ p ∈ l, p.2 = v) (h : ∀ p ∈ o, p.2 = v) :
    ∀ p ∈ JSObj.defineAll o l, p.2 = v := by
  induction l generalizing o with
  | nil => exact h
  | cons q l ih =>
    rw [JSObj.defineAll_cons]
    have hq := hl q (List.mem_cons_self _ _)
    refine ih _ (fun x hx => hl x (List.mem_cons_of_mem _ hx)) ?_
    rw [hq]
    exact const_define _ _ _ h

theorem const_fromEntries {α : Type} (l : List (Str × α)) (v : α) (hl : ∀ p ∈ l, p.2 = v) :
    ∀ p ∈ JSObj.fromEntries l, p.2 = v :=
  const_defineAll l v [] hl (fun _ h => absurd h (List.not_mem_nil _))

theorem has_map_const {α : Type} (names : List Str) (f : Str → Str) (v : α) (k : Str) :
    JSObj.has (names.map (fun n => (f n, v))) k = true ↔ k ∈ names.map f := by
  rw [JSObj.has_iff_mem_keys]
  simp [JSObj.keys, List.map_map, Function.comp]

end Cookies

namespace Cookies

/-! ## The claims -/

/-- What `setPolicy` does for a policy other than `essential` when the stored
record reads as an object. -/
theorem setPolicy_of_policies (self : Nat) (policy : Str) (accepted : JSON) (w : World)
    (r : JSObj JSON) (hp : policy ≠ essential) (hr : policies self w = .ok (.obj r)) :
    setPolicy self policy accepted w =
      { world := trigger self "changePolicy".toList (.record [(policy, accepted)])
          (savePolicies self
            (((JSObj.defineAll [] r).define policy accepted).define essential (.bool true)) w),
        result := .ok () } := by
  unfold setPolicy
  rw [if_neg hp, hr]
  rfl

/-- C1 (as amended): for a store whose `policiesKey` is non-empty, is not
`__proto__`, is left unchanged by `encodeURIComponent`, and whose storage holds
only what the store writes, every policy name `p` other than `essential` and
every boolean `b`: `setPolicy(p, b)` returns normally, after it
`isPolicyAccepted(p)` returns `b` and `isPolicyAccepted("essential")` returns
`true`. -/
theorem C1_setPolicy_then_isPolicyAccepted (w : World) (self : Nat) (p : Str) (b : Bool)
    (hkey : (w.fields self).policiesKey ≠ [])
    (hproto : (w.fields self).policiesKey ≠ protoName)
    (henc : encodeURIComponent (w.fields self).policiesKey = (w.fields self).policiesKey)
    (hw : StoreWritten (w.fields self).policiesKey (w.fields self).domain w)
    (hp : p ≠ essential) :
    (setPolicy self p (.bool b) w).result = .ok () ∧
      isPolicyAccepted self p (setPolicy self p (.bool b) w).world = .ok (some b) ∧
      isPolicyAccepted self essential (setPolicy self p (.bool b) w).world = .ok (some true) := by
  obtain ⟨hwf, hslot, r, hr⟩ := hw
  have hpol : policies self w = .ok (.obj (boolRecord r)) := hr
  rw [setPolicy_of_policies self p (.bool b) w _ hp hpol]
  have hb : allBool (((JSObj.defineAll [] (boolRecord r)).define p (.bool b)).define essential
      (.bool true)) :=
    allBool_define _ _ _ (allBool_define _ _ _
      (allBool_defineAll _ _ (allBool_boolRecord r) allBool_nil))
  have hnd : (JSObj.keys (((JSObj.defineAll [] (boolRecord r)).define p (.bool b)).define
      essential (.bool true))).Nodup :=
    JSObj.nodup_keys_define _ _ _ (JSObj.nodup_keys_define _ _ _
      (JSObj.nodup_keys_defineAll _ _ List.nodup_nil))
  have hread := policies_savePolicies_bool self _ w hb hkey hproto henc hwf hslot
  have hacc : ∀ q, isPolicyAccepted self q
      (trigger self "changePolicy".toList (.record [(p, .bool b)])
        (savePolicies self (((JSObj.defineAll [] (boolRecord r)).define p (.bool b)).define
          essential (.bool true)) w)) =
      isPolicyAccepted self q
        (savePolicies self (((JSObj.defineAll [] (boolRecord r)).define p (.bool b)).define
          essential (.bool true)) w) :=
    fun q => isPolicyAccepted_congr self q _ _ (trigger_jar _ _ _ _) (trigger_heap _ _ _ _)
  refine ⟨rfl, ?_, ?_⟩
  · show isPolicyAccepted self p (trigger _ _ _ _) = _
    rw [hacc, isPolicyAccepted_of_policies self p _ _ hread, JSObj.has_fromEntries,
      JSObj.get?_fromEntries_of_nodup _ hnd, JSObj.has_define, JSObj.has_define,
      JSObj.get?_define, JSObj.get?_define, if_neg hp, if_pos rfl]
    cases b <;> simp
  · show isPolicyAccepted self essential (trigger _ _ _ _) = _
    rw [hacc, isPolicyAccepted_of_policies self essential _ _ hread, JSObj.has_fromEntries,
      JSObj.get?_fromEntries_of_nodup _ hnd, JSObj.has_define, JSObj.get?_define, if_pos rfl]
    simp

/-- The store on empty storage with the default options, used as a concrete
world. -/
theorem freshStore_storeWritten :
    StoreWritten defaultPoliciesKey [] (constructor asciiToLowerCase [] {} {}).world := by
  refine ⟨by decide, by decide, [("usage".toList, false), ("settings".toList, false),
    ("essential".toList, true)], by decide⟩

/-- Witness of C1 on the store constructed over empty storage. -/
theorem C1_witness :
    (setPolicy 0 "usage".toList (.bool true) (constructor asciiToLowerCase [] {} {}).world).result = .ok () ∧
      isPolicyAccepted 0 "usage".toList
        (setPolicy 0 "usage".toList (.bool true) (constructor asciiToLowerCase [] {} {}).world).world =
        .ok (some true) ∧
      isPolicyAccepted 0 essential
        (setPolicy 0 "usage".toList (.bool true) (constructor asciiToLowerCase [] {} {}).world).world =
        .ok (some true) :=
  C1_setPolicy_then_isPolicyAccepted (constructor asciiToLowerCase [] {} {}).world 0 "usage".toList true
    (by decide) (by decide) (by decide) freshStore_storeWritten (by decide)

/-- C1 as stated fails for the empty `policiesKey`, which `encodeURIComponent`
leaves unchanged: `set` ignores an empty name, so nothing is ever stored, and
after `setPolicy("usage", true)` both `isPolicyAccepted("usage")` and
`isPolicyAccepted("essential")` return `null`. -/
theorem C1_counterexample :
    encodeURIComponent [] = [] ∧
      (constructor asciiToLowerCase [] { policiesKey := some [] } {}).result = .ok 0 ∧
      (constructor asciiToLowerCase [] { policiesKey := some [] } {}).world.written = [] ∧
      isPolicyAccepted 0 "usage".toList
        (setPolicy 0 "usage".toList (.bool true)
          (constructor asciiToLowerCase [] { policiesKey := some [] } {}).world).world = .ok none ∧
      isPolicyAccepted 0 essential
        (setPolicy 0 "usage".toList (.bool true)
          (constructor asciiToLowerCase [] { policiesKey := some [] } {}).world).world = .ok none := by
  decide

/-- The same failure for the `policiesKey` `__proto__`: the record is written,
but `all` assigns it through the `__proto__` setter of its result object, so
the slot is never read back. -/
theorem setPolicy_under_proto_key :
    encodeURIComponent protoName = protoName ∧
      (constructor asciiToLowerCase [] { policiesKey := some protoName } {}).world.jar ≠ [] ∧
      isPolicyAccepted 0 "usage".toList
        (setPolicy 0 "usage".toList (.bool true)
          (constructor asciiToLowerCase [] { policiesKey := some protoName } {}).world).world = .ok none := by
  decide

end Cookies

namespace Cookies

set_option maxRecDepth 100000

/-- The failing input of C2: a store on empty storage, `deleteAll()`, then
`acceptAllPolicies()`.  The record `acceptAllPolicies` writes is `{}`, without
`essential`, while `rejectAllPolicies` from the same state writes
`{"essential":true}`. -/
theorem C2_acceptAll_after_deleteAll_writes_empty_record :
    (acceptAllPolicies asciiToLowerCase 0
        (deleteAll 0 "/".toList none (constructor asciiToLowerCase [] {} {}).world)).world.written.getLast? =
      some "cookies_policy=%7B%7D; samesite=Lax; path=/; max-age=31536000; secure".toList ∧
    policies 0 (acceptAllPolicies asciiToLowerCase 0
        (deleteAll 0 "/".toList none (constructor asciiToLowerCase [] {} {}).world)).world = .ok (.obj []) ∧
    (rejectAllPolicies asciiToLowerCase 0
        (deleteAll 0 "/".toList none (constructor asciiToLowerCase [] {} {}).world)).world.written.getLast? =
      some ("cookies_policy=%7B%22essential%22%3Atrue%7D; samesite=Lax; path=/; " ++
        "max-age=31536000; secure").toList := by
  decide

/-- C3 as stated fails: after constructions with the keys `a`, `b`, a third
construction with `a` does not return the instance constructed first (number
0) but a new one (number 2), with the newly supplied extra policies. -/
theorem C3_counterexample :
    (constructor asciiToLowerCase [] { policiesKey := some "a".toList } {}).result = .ok 0 ∧
      (constructor asciiToLowerCase [] { policiesKey := some "b".toList }
        (constructor asciiToLowerCase [] { policiesKey := some "a".toList } {}).world).result = .ok 1 ∧
      (constructor asciiToLowerCase ["x".toList] { policiesKey := some "a".toList }
        (constructor asciiToLowerCase [] { policiesKey := some "b".toList }
          (constructor asciiToLowerCase [] { policiesKey := some "a".toList } {}).world).world).result = .ok 2 ∧
      ((constructor asciiToLowerCase ["x".toList] { policiesKey := some "a".toList }
        (constructor asciiToLowerCase [] { policiesKey := some "b".toList }
          (constructor asciiToLowerCase [] { policiesKey := some "a".toList } {}).world).world).world.fields
            2).extraPolicies = ["x".toList] := by
  decide

/-- The failing input of C5: two observers on `changePolicy`, one on
`acceptPolicy`, then `acceptPolicy("usage")`.  Each `changePolicy` observer is
called twice, once by `setPolicy` and once by `acceptPolicy` itself. -/
theorem C5_acceptPolicy_calls_changePolicy_twice :
    (acceptPolicy 0 "usage".toList
      («on» 0 "acceptPolicy".toList 3 («on» 0 "changePolicy".toList 2
        («on» 0 "changePolicy".toList 1 (constructor asciiToLowerCase [] {} {}).world)))).world.calls =
      [⟨1, 0, .record [("usage".toList, .bool true)]⟩,
       ⟨2, 0, .record [("usage".toList, .bool true)]⟩,
       ⟨3, 0, .policy "usage".toList⟩,
       ⟨1, 0, .record [("usage".toList, .bool true)]⟩,
       ⟨2, 0, .record [("usage".toList, .bool true)]⟩] ∧
    (rejectPolicy 0 "usage".toList
      («on» 0 "rejectPolicy".toList 3
        («on» 0 "changePolicy".toList 1 (constructor asciiToLowerCase [] {} {}).world))).world.calls =
      [⟨1, 0, .record [("usage".toList, .bool false)]⟩,
       ⟨3, 0, .policy "usage".toList⟩,
       ⟨1, 0, .record [("usage".toList, .bool false)]⟩] := by
  decide

/-- C6 (as amended): when the policies slot is absent or holds the empty
string, `policies` returns the empty record and `isPolicyAccepted` returns
`null` for every name; when the slot holds a text that `decodeURIComponent` or
`JSON.parse` rejects, `policies` and `isPolicyAccepted` raise that error. -/
theorem C6_policies_of_slot (w : World) (self : Nat) :
    ((get (w.fields self).policiesKey w = .ok none ∨
        get (w.fields self).policiesKey w = .ok (some [])) →
      policies self w = .ok (.obj []) ∧ ∀ n, isPolicyAccepted self n w = .ok none) ∧
    (∀ e, get (w.fields self).policiesKey w = .error e →
      policies self w = .error e ∧ ∀ n, isPolicyAccepted self n w = .error e) ∧
    (∀ text e, get (w.fields self).policiesKey w = .ok (some text) → text ≠ [] →
      JSON.parse text = .error e →
      policies self w = .error e ∧ ∀ n, isPolicyAccepted self n w = .error e) := by
  have hempty : JSON.parse "\x7b\x7d".toList = .ok (.obj []) := by decide
  refine ⟨?_, ?_, ?_⟩
  · intro h
    have hp : policies self w = .ok (.obj []) := by
      unfold policies
      rcases h with h | h
      · rw [h]; exact hempty
      · rw [h]; simp only [if_true]; exact hempty
    refine ⟨hp, fun n => ?_⟩
    rw [isPolicyAccepted_of_policies self n w [] hp]
    rfl
  · intro e h
    have hp : policies self w = .error e := by
      unfold policies; rw [h]
    refine ⟨hp, fun n => ?_⟩
    unfold isPolicyAccepted; rw [hp]
  · intro text e h hne hparse
    have hp : policies self w = .error e := by
      unfold policies; rw [h]; simp only [hne, if_false]; exact hparse
    refine ⟨hp, fun n => ?_⟩
    unfold isPolicyAccepted; rw [hp]

/-- Witness of C6: a store whose record has been deleted. -/
theorem C6_witness :
    policies 0 (deleteAll 0 "/".toList none (constructor asciiToLowerCase [] {} {}).world) = .ok (.obj []) ∧
      ∀ n, isPolicyAccepted 0 n (deleteAll 0 "/".toList none (constructor asciiToLowerCase [] {} {}).world) =
        .ok none :=
  (C6_policies_of_slot (deleteAll 0 "/".toList none (constructor asciiToLowerCase [] {} {}).world) 0).1
    (Or.inl (by decide))

/-- C6 as stated fails: with the text `x` in the policies slot, reading
`policies` raises a `SyntaxError`, and so does `isPolicyAccepted`; with the
text `%` they raise a `URIError`. -/
theorem C6_counterexample :
    policies 0 (set 0 defaultPoliciesKey "x".toList {} (constructor asciiToLowerCase [] {} {}).world) =
        .error .SyntaxError ∧
      isPolicyAccepted 0 "usage".toList
        (set 0 defaultPoliciesKey "x".toList {} (constructor asciiToLowerCase [] {} {}).world) =
        .error .SyntaxError ∧
      policies 0
        { (constructor asciiToLowerCase [] {} {}).world with
          jar := [{ name := defaultPoliciesKey, value := "%".toList, domain := [],
                    path := defaultPath }] } = .error .URIError := by
  decide

/-- C9: `setPolicy("essential", b)` leaves the world as it was, for every value
`b`: nothing is written, no observer is called, and `isPolicyAccepted` answers
as before. -/
theorem C9_setPolicy_essential_is_noop (w : World) (self : Nat) (b : JSON) :
    (setPolicy self essential b w).world = w ∧
      (setPolicy self essential b w).result = .ok () ∧
      (setPolicy self essential b w).world.written = w.written ∧
      (setPolicy self essential b w).world.calls = w.calls ∧
      isPolicyAccepted self essential (setPolicy self essential b w).world =
        isPolicyAccepted self essential w := by
  have h : setPolicy self essential b w = { world := w, result := .ok () } := by
    unfold setPolicy; rw [if_pos rfl]
  rw [h]
  exact ⟨rfl, rfl, rfl, rfl, rfl⟩

/-- The failing input of C10: observers on `changePolicy`, `acceptPolicy` and
`rejectPolicy`, then `rejectPolicy("essential")` and `acceptPolicy("essential")`.
Storage is untouched, but the observers are called, `changePolicy` with
`{essential: false}`. -/
theorem C10_wrappers_notify_for_essential :
    (rejectPolicy 0 essential
      («on» 0 "rejectPolicy".toList 3
        («on» 0 "changePolicy".toList 1 (constructor asciiToLowerCase [] {} {}).world))).world.calls =
      [⟨3, 0, .policy essential⟩, ⟨1, 0, .record [(essential, .bool false)]⟩] ∧
    (rejectPolicy 0 essential
      («on» 0 "rejectPolicy".toList 3
        («on» 0 "changePolicy".toList 1 (constructor asciiToLowerCase [] {} {}).world))).world.written =
      (constructor asciiToLowerCase [] {} {}).world.written ∧
    isPolicyAccepted 0 essential (rejectPolicy 0 essential
      («on» 0 "rejectPolicy".toList 3
        («on» 0 "changePolicy".toList 1 (constructor asciiToLowerCase [] {} {}).world))).world =
      .ok (some true) ∧
    (acceptPolicy 0 essential
      («on» 0 "acceptPolicy".toList 2
        («on» 0 "changePolicy".toList 1 (constructor asciiToLowerCase [] {} {}).world))).world.calls =
      [⟨2, 0, .policy essential⟩, ⟨1, 0, .record [(essential, .bool true)]⟩] := by
  decide

end Cookies

namespace Cookies

set_option maxRecDepth 100000

/-! ### Observers -/

theorem on_calls (self : Nat) (event : Str) (callback : Callback) (w : World) :
    («on» self event callback w).calls = w.calls := rfl

theorem on_heap_length (self : Nat) (event : Str) (callback : Callback) (w : World) :
    («on» self event callback w).heap.length = w.heap.length := by
  unfold «on»; simp

theorem getD_set_self {α : Type} (l : List α) (i : Nat) (x d : α) (h : i < l.length) :
    (l.set i x).getD i d = x := by
  induction l generalizing i with
  | nil => simp at h
  | cons a l ih =>
    cases i with
    | zero => rfl
    | succ j =>
      simp only [List.length_cons, Nat.add_lt_add_iff_right] at h
      simpa using ih j h

theorem on_events (self : Nat) (event : Str) (callback : Callback) (w : World)
    (hself : self < w.heap.length) :
    ((«on» self event callback w).fields self).events =
      (if !(w.fields self).events.has event then (w.fields self).events.assign event []
        else (w.fields self).events).assign event
        ((((if !(w.fields self).events.has event then (w.fields self).events.assign event []
          else (w.fields self).events).get? event).getD []) ++ [callback]) := by
  unfold «on» World.fields
  simp only
  rw [getD_set_self _ _ _ _ hself]

/-- The callbacks registered for `target` after one more `on(event, callback)`:
the new callback is appended when the event is `target`, otherwise the list is
as before. -/
theorem on_registered (self : Nat) (event target : Str) (callback : Callback) (w : World)
    (hself : self < w.heap.length) (ht : target ≠ protoName) :
    ((«on» self event callback w).fields self).events.get? target =
      if event = target then
        some ((((w.fields self).events.get? target).getD []) ++ [callback])
      else (w.fields self).events.get? target := by
  rw [on_events self event callback w hself]
  by_cases hp : event = protoName
  · have hne : event ≠ target := fun e => ht (e ▸ hp)
    rw [if_neg hne]
    simp only [JSObj.assign, hp, if_true, ite_self]
  · simp only [JSObj.assign, hp, if_false]
    rw [JSObj.get?_define]
    by_cases he : event = target
    · subst he
      rw [if_pos rfl, if_pos rfl]
      by_cases hh : (w.fields self).events.has event = true
      · simp only [hh, Bool.not_true, Bool.false_eq_true, if_false]
      · have hh2 : (w.fields self).events.has event = false := by simpa using hh
        simp only [hh2, Bool.not_false, if_true, JSObj.get?_define,
          (JSObj.get?_eq_none_iff _ _).2 hh2]
        rfl
    · rw [if_neg he, if_neg (fun e => he e.symm)]
      by_cases hh : (w.fields self).events.has event = true
      · simp only [hh, Bool.not_true, Bool.false_eq_true, if_false]
      · have hh2 : (w.fields self).events.has event = false := by simpa using hh
        simp only [hh2, Bool.not_false, if_true, JSObj.get?_define]
        rw [if_neg (fun e => he e.symm)]

theorem registerAll_cons (self : Nat) (r : Str × Callback) (rs : List (Str × Callback))
    (w : World) :
    registerAll self (r :: rs) w = registerAll self rs («on» self r.1 r.2 w) := rfl

theorem registerAll_calls (self : Nat) (rs : List (Str × Callback)) (w : World) :
    (registerAll self rs w).calls = w.calls := by
  induction rs generalizing w with
  | nil => rfl
  | cons r rs ih => rw [registerAll_cons, ih, on_calls]

/-- The callbacks registered for `target` after a run of registrations: the
earlier ones followed by those of the run that name `target`, in order. -/
theorem registerAll_registered (self : Nat) (target : Str) (rs : List (Str × Callback))
    (w : World) (hself : self < w.heap.length) (ht : target ≠ protoName) :
    (((registerAll self rs w).fields self).events.get? target).getD [] =
      (((w.fields self).events.get? target).getD []) ++
        (rs.filter (fun r => r.1 = target)).map Prod.snd := by
  induction rs generalizing w with
  | nil => simp [registerAll]
  | cons r rs ih =>
    rw [registerAll_cons, ih _ (by rw [on_heap_length]; exact hself),
      on_registered self r.1 target r.2 w hself ht]
    by_cases he : r.1 = target
    · rw [if_pos he, List.filter_cons_of_pos (by simpa using he)]
      simp
    · rw [if_neg he, List.filter_cons_of_neg (by simpa using he)]

/-- C8 (as amended): for every event name other than `__proto__` and every run
of registrations through `on` on one existing instance, a `trigger` of the event
calls exactly the callbacks registered for it, those registered before the run
and then those of the run, each once per registration, in registration order,
each with the same payload; callbacks registered for other events are not
called. -/
theorem C8_trigger_calls_registered (w : World) (self : Nat) (event : Str)
    (registrations : List (Str × Callback)) (data : Payload)
    (hself : self < w.heap.length) (hevent : event ≠ protoName) :
    (trigger self event data (registerAll self registrations w)).calls =
      w.calls ++
        ((((w.fields self).events.get? event).getD []) ++
          (registrations.filter (fun r => r.1 = event)).map Prod.snd).map
          (fun cb => ({ callback := cb, self := self, data := data } : Invocation)) := by
  rw [trigger_calls, registerAll_calls, registerAll_registered self event registrations w hself hevent]

/-- Witness of C8: `c1`, `c2` and again `c1` on `changePolicy`, with a callback
on another event in between. -/
theorem C8_witness :
    (trigger 0 "changePolicy".toList .empty
      (registerAll 0 [("changePolicy".toList, 1), ("destroy".toList, 9),
        ("changePolicy".toList, 2), ("changePolicy".toList, 1)]
        (constructor asciiToLowerCase [] {} {}).world)).calls =
      [⟨1, 0, .empty⟩, ⟨2, 0, .empty⟩, ⟨1, 0, .empty⟩] :=
  (C8_trigger_calls_registered (constructor asciiToLowerCase [] {} {}).world 0 "changePolicy".toList
    [("changePolicy".toList, 1), ("destroy".toList, 9), ("changePolicy".toList, 2),
      ("changePolicy".toList, 1)] .empty (by decide) (by decide)).trans (by decide)

/-- C8 as stated fails for the event name `__proto__`: `on` assigns the list
through the `__proto__` setter of the `events` object, which creates no own
property, so a `trigger` of that event calls nothing. -/
theorem C8_counterexample :
    (trigger 0 protoName .empty
      («on» 0 protoName 1 (constructor asciiToLowerCase [] {} {}).world)).calls = [] ∧
    (trigger 0 "changePolicy".toList .empty
      («on» 0 "changePolicy".toList 1 (constructor asciiToLowerCase [] {} {}).world)).calls =
      [⟨1, 0, .empty⟩] := by
  decide

end Cookies

namespace Cookies

set_option maxRecDepth 100000

/-! ### Construction -/

theorem getD_append_length {α : Type} (l : List α) (x d : α) :
    (l ++ [x]).getD l.length d = x := by
  induction l with
  | nil => rfl
  | cons a l ih => simp

theorem init_of_policies {toLowerCase : Str → Str} (self : Nat) (w : World) (r : JSObj JSON)
    (hr : policies self w = .ok (.obj r)) :
    init toLowerCase self w =
      { world := savePolicies self (seedRecord toLowerCase (w.fields self).extraPolicies r) w,
        result := .ok () } := by
  unfold init
  rw [hr]
  rfl

theorem seedRecord_allBool {toLowerCase : Str → Str} (extra : List Str) (r : JSObj JSON) (hr : allBool r) :
    allBool (seedRecord toLowerCase extra r) := by
  unfold seedRecord
  refine allBool_define _ _ _ (allBool_defineAll _ _ hr (allBool_define _ _ _
    (allBool_define _ _ _ (allBool_defineAll _ _ (allBool_fromEntries _ ?_) allBool_nil))))
  intro p hp
  obtain ⟨k, _, rfl⟩ := List.mem_map.1 hp
  exact ⟨false, rfl⟩

theorem seedRecord_nodup {toLowerCase : Str → Str} (extra : List Str) (r : JSObj JSON) :
    (JSObj.keys (seedRecord toLowerCase extra r)).Nodup := by
  unfold seedRecord
  exact JSObj.nodup_keys_define _ _ _ (JSObj.nodup_keys_defineAll _ _
    (JSObj.nodup_keys_define _ _ _ (JSObj.nodup_keys_define _ _ _
      (JSObj.nodup_keys_defineAll _ _ List.nodup_nil))))

theorem has_extra {toLowerCase : Str → Str} (extra : List Str) (k : Str) :
    JSObj.has (JSObj.defineAll ([] : JSObj JSON)
      (JSObj.fromEntries (extra.map (fun n => (toLowerCase n, JSON.bool false))))) k = true ↔
      k ∈ extra.map toLowerCase := by
  rw [JSObj.has_defineAll, JSObj.has_fromEntries, JSObj.has_nil, Bool.or_false]
  exact has_map_const extra toLowerCase (JSON.bool false) k

theorem get?_extra {toLowerCase : Str → Str} (extra : List Str) (k : Str) (hk : k ∈ extra.map toLowerCase) :
    JSObj.get? (JSObj.defineAll ([] : JSObj JSON)
      (JSObj.fromEntries (extra.map (fun n => (toLowerCase n, JSON.bool false))))) k =
      some (JSON.bool false) := by
  apply JSObj.get?_of_const _ _ _ _ ((has_extra extra k).2 hk)
  apply const_defineAll _ _ _ _ (fun _ h => absurd h (List.not_mem_nil _))
  apply const_fromEntries
  intro p hp
  obtain ⟨n, _, rfl⟩ := List.mem_map.1 hp
  rfl

/-- The values of the record `init` saves. -/
theorem seedRecord_spec {toLowerCase : Str → Str} (extra : List Str) (r : JSObj JSON) (hnd : (JSObj.keys r).Nodup) :
    JSObj.get? (seedRecord toLowerCase extra r) essential = some (.bool true) ∧
    (∀ k, k ≠ essential → JSObj.has r k = true →
      JSObj.get? (seedRecord toLowerCase extra r) k = JSObj.get? r k) ∧
    (∀ k, k ≠ essential → JSObj.has r k = false →
      (k = "usage".toList ∨ k = "settings".toList ∨ k ∈ extra.map toLowerCase) →
      JSObj.get? (seedRecord toLowerCase extra r) k = some (.bool false)) ∧
    (∀ k, JSObj.has (seedRecord toLowerCase extra r) k = true →
      k = essential ∨ JSObj.has r k = true ∨ k = "usage".toList ∨ k = "settings".toList ∨
        k ∈ extra.map toLowerCase) := by
  refine ⟨?_, ?_, ?_, ?_⟩
  · unfold seedRecord
    rw [JSObj.get?_define, if_pos rfl]
  · intro k hk hh
    unfold seedRecord
    rw [JSObj.get?_define, if_neg hk, JSObj.get?_defineAll_of_nodup _ _ hnd, if_pos hh]
  · intro k hk hh hin
    unfold seedRecord
    rw [JSObj.get?_define, if_neg hk, JSObj.get?_defineAll_of_nodup _ _ hnd, hh]
    simp only [Bool.false_eq_true, if_false]
    rw [JSObj.get?_define]
    by_cases h1 : k = "settings".toList
    · rw [if_pos h1]
    · rw [if_neg h1, JSObj.get?_define]
      by_cases h2 : k = "usage".toList
      · rw [if_pos h2]
      · rw [if_neg h2]
        rcases hin with h | h | h
        · exact absurd h h2
        · exact absurd h h1
        · exact get?_extra extra k h
  · intro k hh
    unfold seedRecord at hh
    rw [JSObj.has_define, JSObj.has_defineAll, JSObj.has_define, JSObj.has_define] at hh
    simp only [Bool.or_eq_true, decide_eq_true_eq] at hh
    rcases hh with h | h | h | h | h
    · exact Or.inl h
    · exact Or.inr (Or.inl h)
    · exact Or.inr (Or.inr (Or.inr (Or.inl h)))
    · exact Or.inr (Or.inr (Or.inl h))
    · exact Or.inr (Or.inr (Or.inr (Or.inr ((has_extra extra k).1 h))))

/-- The constructor calls `toLowerCase` on the extra policy names only. -/
theorem constructor_congr (f g : Str → Str) (extra : List Str) (options : Options) (w : World)
    (h : ∀ k ∈ extra, f k = g k) :
    constructor f extra options w = constructor g extra options w := by
  have hi : ∀ (self : Nat) (v : World), (∀ k ∈ (v.fields self).extraPolicies, f k = g k) →
      init f self v = init g self v := by
    intro self v hv
    unfold init
    have hm : (v.fields self).extraPolicies.map (fun k => (f k, JSON.bool false)) =
        (v.fields self).extraPolicies.map (fun k => (g k, JSON.bool false)) :=
      List.map_congr_left (fun k hk => by rw [hv k hk])
    rw [hm]
  have e := hi w.heap.length
    { w with
      _instance := some w.heap.length,
      heap := w.heap ++ [{ extraPolicies := extra, domain := options.domain.getD [],
                           secure := options.secure.getD true, events := [],
                           policiesKey := options.policiesKey.getD defaultPoliciesKey }] }
    (by
      have hf : (World.fields
          { w with
            _instance := some w.heap.length,
            heap := w.heap ++ [{ extraPolicies := extra, domain := options.domain.getD [],
                                 secure := options.secure.getD true, events := [],
                                 policiesKey := options.policiesKey.getD defaultPoliciesKey }] }
          w.heap.length).extraPolicies = extra := by
        unfold World.fields
        show ((w.heap ++ [_]).getD w.heap.length _).extraPolicies = extra
        rw [getD_append_length]
      rw [hf]
      exact h)
  unfold constructor
  simp only []
  rw [e]

/-- C4 (as amended): constructing the first store for a policies key that is
non-empty, is not `__proto__` and is left unchanged by `encodeURIComponent`,
over storage that holds only what such a store writes, with any list `E` of
extra policy names and prior stored record `R` (the empty record when the slot
is absent), returns the new instance and leaves a stored record in which
`essential` is `true`, every key of `R` other than `essential` keeps its value
from `R`, each of `usage`, `settings` and the lower-cased names of `E` (what
`String.prototype.toLowerCase` makes of them, whatever that function is) that
is neither a key of `R` nor `essential` is `false`, and there are no other
keys; on empty storage with `E = ["marketing"]`, a name that `toLowerCase`
leaves as it is, and the default key the record is
`marketing:false, usage:false, settings:false, essential:true`. -/
theorem C4_first_construction_seeds_record (toLowerCase : Str → Str) (w : World)
    (extra : List Str) (options : Options) (r : List (Str × Bool))
    (hfirst : ∀ existing, w._instance = some existing →
      (w.fields existing).policiesKey ≠ options.policiesKey.getD defaultPoliciesKey)
    (hkey : options.policiesKey.getD defaultPoliciesKey ≠ [])
    (hproto : options.policiesKey.getD defaultPoliciesKey ≠ protoName)
    (henc : encodeURIComponent (options.policiesKey.getD defaultPoliciesKey) =
      options.policiesKey.getD defaultPoliciesKey)
    (hwf : ∀ c ∈ w.jar, c.wellFormed)
    (hslot : ∀ c ∈ w.jar, c.name = options.policiesKey.getD defaultPoliciesKey →
      c.domain = domainAttribute (options.domain.getD []) ∧ c.path = defaultPath)
    (hr : storedRecord (options.policiesKey.getD defaultPoliciesKey) w =
      .ok (.obj (boolRecord r))) :
    ((constructor toLowerCase extra options w).result = .ok w.heap.length ∧
      ∃ stored : JSObj JSON,
        policies w.heap.length (constructor toLowerCase extra options w).world = .ok (.obj stored) ∧
        stored.get? essential = some (.bool true) ∧
        (∀ k, k ≠ essential → (boolRecord r).has k = true →
          stored.get? k = (boolRecord r).get? k) ∧
        (∀ k, k ≠ essential → (boolRecord r).has k = false →
          (k = "usage".toList ∨ k = "settings".toList ∨ k ∈ extra.map toLowerCase) →
          stored.get? k = some (.bool false)) ∧
        (∀ k, stored.has k = true →
          k = essential ∨ (boolRecord r).has k = true ∨ k = "usage".toList ∨
            k = "settings".toList ∨ k ∈ extra.map toLowerCase)) ∧
    (toLowerCase "marketing".toList = "marketing".toList →
      policies 0 (constructor toLowerCase ["marketing".toList] {} {}).world =
        .ok (.obj [("marketing".toList, .bool false), ("usage".toList, .bool false),
          ("settings".toList, .bool false), ("essential".toList, .bool true)])) := by
  refine ⟨?_, fun hm => by
    rw [constructor_congr toLowerCase asciiToLowerCase _ _ _
      (fun k hk => by rw [List.mem_singleton.1 hk, hm]; decide)]
    decide⟩
  have hnd := storedRecord_obj_nodup _ _ _ hr
  -- the world in which `init` runs
  have hfresh : constructor toLowerCase extra options w =
      { world := (init toLowerCase w.heap.length
          { w with
            _instance := some w.heap.length,
            heap := w.heap ++ [{ extraPolicies := extra, domain := options.domain.getD [],
                                 secure := options.secure.getD true, events := [],
                                 policiesKey := options.policiesKey.getD defaultPoliciesKey }] }
          ).world,
        result := (init toLowerCase w.heap.length
          { w with
            _instance := some w.heap.length,
            heap := w.heap ++ [{ extraPolicies := extra, domain := options.domain.getD [],
                                 secure := options.secure.getD true, events := [],
                                 policiesKey := options.policiesKey.getD defaultPoliciesKey }] }
          ).result.map (fun _ => w.heap.length) } := by
    unfold constructor
    cases hi : w._instance with
    | none => rfl
    | some existing =>
      simp only [hfirst existing hi, if_false]
  rw [hfresh]
  generalize hw0 : ({ w with
      _instance := some w.heap.length,
      heap := w.heap ++ [{ extraPolicies := extra, domain := options.domain.getD [],
                           secure := options.secure.getD true, events := [],
                           policiesKey := options.policiesKey.getD defaultPoliciesKey }] } :
      World) = w0
  have hjar : w0.jar = w.jar := by rw [← hw0]
  have hfields : w0.fields w.heap.length =
      { extraPolicies := extra, domain := options.domain.getD [],
        secure := options.secure.getD true, events := [],
        policiesKey := options.policiesKey.getD defaultPoliciesKey } := by
    rw [← hw0]
    exact getD_append_length _ _ _
  have hk0 : (w0.fields w.heap.length).policiesKey =
      options.policiesKey.getD defaultPoliciesKey := by rw [hfields]
  have hd0 : (w0.fields w.heap.length).domain = options.domain.getD [] := by rw [hfields]
  have he0 : (w0.fields w.heap.length).extraPolicies = extra := by rw [hfields]
  have hpol : policies w.heap.length w0 = .ok (.obj (boolRecord r)) := by
    rw [policies_eq_storedRecord, hk0, storedRecord_congr _ w0 w hjar]
    exact hr
  rw [init_of_policies _ _ _ hpol, he0]
  refine ⟨rfl, JSObj.fromEntries (seedRecord toLowerCase extra (boolRecord r)), ?_, ?_⟩
  · exact policies_savePolicies_bool _ _ w0 (seedRecord_allBool _ _ (allBool_boolRecord r))
      (by rw [hk0]; exact hkey) (by rw [hk0]; exact hproto) (by rw [hk0]; exact henc)
      (by rw [hjar]; exact hwf) (by rw [hjar, hk0, hd0]; exact hslot)
  · have hs := @seedRecord_spec toLowerCase extra (boolRecord r) hnd
    have hg : ∀ k, JSObj.get? (JSObj.fromEntries (seedRecord toLowerCase extra (boolRecord r))) k =
        JSObj.get? (seedRecord toLowerCase extra (boolRecord r)) k :=
      fun k => JSObj.get?_fromEntries_of_nodup _ (seedRecord_nodup _ _) k
    refine ⟨?_, ?_, ?_, ?_⟩
    · rw [hg]; exact hs.1
    · intro k h1 h2; rw [hg]; exact hs.2.1 k h1 h2
    · intro k h1 h2 h3; rw [hg]; exact hs.2.2.1 k h1 h2 h3
    · intro k h1
      rw [JSObj.has_fromEntries] at h1
      exact hs.2.2.2 k h1

end Cookies

namespace Cookies

set_option maxRecDepth 100000

/-- Witness of C4: extra policy `Marketing` over empty storage. -/
theorem C4_witness :
    (constructor asciiToLowerCase ["Marketing".toList] {} {}).result = .ok 0 ∧
      ∃ stored : JSObj JSON,
        policies 0 (constructor asciiToLowerCase ["Marketing".toList] {} {}).world = .ok (.obj stored) ∧
        stored.get? essential = some (.bool true) ∧
        stored.get? "marketing".toList = some (.bool false) := by
  obtain ⟨h1, stored, h2, h3, _, h5, _⟩ :=
    (C4_first_construction_seeds_record asciiToLowerCase {} ["Marketing".toList] {} []
      (by intro existing h; cases h) (by decide) (by decide) (by decide) (by decide) (by decide)
      (by decide)).1
  exact ⟨h1, stored, h2, h3,
    h5 "marketing".toList (by decide) (by decide) (Or.inr (Or.inr (by decide)))⟩

/-- C4 as stated fails for the empty policies key: `set` ignores an empty name,
so the construction stores nothing and the record read back has no `essential`
key. -/
theorem C4_counterexample :
    (constructor asciiToLowerCase ["marketing".toList] { policiesKey := some [] } {}).result = .ok 0 ∧
      (constructor asciiToLowerCase ["marketing".toList] { policiesKey := some [] } {}).world.jar = [] ∧
      policies 0 (constructor asciiToLowerCase ["marketing".toList] { policiesKey := some [] } {}).world =
        .ok (.obj []) ∧
      isPolicyAccepted 0 essential
        (constructor asciiToLowerCase ["marketing".toList] { policiesKey := some [] } {}).world = .ok none := by
  decide

/-! ### Accepting and rejecting all policies -/

theorem acceptAllPolicies_of_policies {toLowerCase : Str → Str} (self : Nat) (w : World) (r : JSObj JSON)
    (hr : policies self w = .ok (.obj r)) :
    acceptAllPolicies toLowerCase self w =
      { world := trigger self "changePolicy".toList (.record (acceptedRecord toLowerCase (JSObj.keys r)))
          (trigger self "acceptAllPolicies".toList .empty
            (savePolicies self (acceptedRecord toLowerCase (JSObj.keys r)) w)),
        result := .ok () } := by
  unfold acceptAllPolicies
  rw [hr]
  rfl

theorem rejectAllPolicies_of_policies {toLowerCase : Str → Str} (self : Nat) (w : World) (r : JSObj JSON)
    (hr : policies self w = .ok (.obj r)) :
    rejectAllPolicies toLowerCase self w =
      { world := trigger self "changePolicy".toList (.record (rejectedRecord toLowerCase (JSObj.keys r)))
          (trigger self "rejectAllPolicies".toList .empty
            (savePolicies self (rejectedRecord toLowerCase (JSObj.keys r)) w)),
        result := .ok () } := by
  unfold rejectAllPolicies
  rw [hr]
  rfl

theorem acceptedRecord_has {toLowerCase : Str → Str} (keys : List Str) (k : Str) :
    JSObj.has (acceptedRecord toLowerCase keys) k = true ↔ k ∈ keys.map toLowerCase := by
  unfold acceptedRecord
  rw [JSObj.has_fromEntries]
  exact has_map_const keys toLowerCase (JSON.bool true) k

theorem acceptedRecord_const {toLowerCase : Str → Str} (keys : List Str) :
    ∀ p ∈ acceptedRecord toLowerCase keys, p.2 = JSON.bool true := by
  apply const_fromEntries
  intro p hp
  obtain ⟨n, _, rfl⟩ := List.mem_map.1 hp
  rfl

theorem rejectedRecord_has {toLowerCase : Str → Str} (keys : List Str) (k : Str) :
    JSObj.has (rejectedRecord toLowerCase keys) k = true ↔ k = essential ∨ k ∈ keys.map toLowerCase := by
  unfold rejectedRecord
  rw [JSObj.has_define, JSObj.has_defineAll, JSObj.has_fromEntries, JSObj.has_nil,
    Bool.or_false, Bool.or_eq_true, decide_eq_true_eq]
  exact or_congr Iff.rfl (has_map_const keys toLowerCase (JSON.bool false) k)

theorem rejectedRecord_get? {toLowerCase : Str → Str} (keys : List Str) (k : Str) :
    JSObj.get? (rejectedRecord toLowerCase keys) k =
      if k = essential then some (JSON.bool true)
      else if k ∈ keys.map toLowerCase then some (JSON.bool false) else none := by
  unfold rejectedRecord
  rw [JSObj.get?_define]
  by_cases hk : k = essential
  · rw [if_pos hk, if_pos hk]
  · rw [if_neg hk, if_neg hk]
    have hc : ∀ p ∈ JSObj.defineAll ([] : JSObj JSON)
        (JSObj.fromEntries (keys.map (fun n => (toLowerCase n, JSON.bool false)))),
        p.2 = JSON.bool false := by
      apply const_defineAll _ _ _ _ (fun _ h => absurd h (List.not_mem_nil _))
      apply const_fromEntries
      intro p hp
      obtain ⟨n, _, rfl⟩ := List.mem_map.1 hp
      rfl
    by_cases hm : k ∈ keys.map toLowerCase
    · rw [if_pos hm]
      exact JSObj.get?_of_const _ _ hc k ((has_extra keys k).2 hm)
    · rw [if_neg hm, JSObj.get?_eq_none_iff]
      have := (has_extra keys k).not.2 hm
      simpa using this

theorem map_toLowerCase_of_fixed {toLowerCase : Str → Str} (keys : List Str) (h : ∀ k ∈ keys, toLowerCase k = k) :
    keys.map toLowerCase = keys := by
  induction keys with
  | nil => rfl
  | cons a l ih =>
    rw [List.map_cons, h a (List.mem_cons_self _ _),
      ih (fun k hk => h k (List.mem_cons_of_mem _ hk))]

/-- C7 (as amended): for a store whose `policiesKey` is non-empty, is not
`__proto__` and is left unchanged by `encodeURIComponent`, over storage that
holds only what the store writes, and every stored record `R` of booleans:
after `acceptAllPolicies()` the keys of the record read from `policies` are the
lower-cased keys of `R` and each is `true`; after `rejectAllPolicies()` the
keys are `essential` and the lower-cased keys of `R`, `essential` is `true` and
every other key is `false`.  When every key of `R` is its own lower-case form,
the lower-cased keys are the keys of `R`.  Lower-casing is what
`String.prototype.toLowerCase` does, whatever that function is: the statement
holds for every `toLowerCase`. -/
theorem C7_acceptAll_rejectAll (toLowerCase : Str → Str) (w : World) (self : Nat)
    (r : List (Str × Bool))
    (hkey : (w.fields self).policiesKey ≠ [])
    (hproto : (w.fields self).policiesKey ≠ protoName)
    (henc : encodeURIComponent (w.fields self).policiesKey = (w.fields self).policiesKey)
    (hwf : ∀ c ∈ w.jar, c.wellFormed)
    (hslot : ∀ c ∈ w.jar, c.name = (w.fields self).policiesKey →
      c.domain = domainAttribute (w.fields self).domain ∧ c.path = defaultPath)
    (hr : policies self w = .ok (.obj (boolRecord r))) :
    (∃ stored : JSObj JSON,
      policies self (acceptAllPolicies toLowerCase self w).world = .ok (.obj stored) ∧
      (∀ k, stored.has k = true ↔ k ∈ (JSObj.keys (boolRecord r)).map toLowerCase) ∧
      (∀ k, stored.has k = true → stored.get? k = some (.bool true))) ∧
    (∃ stored : JSObj JSON,
      policies self (rejectAllPolicies toLowerCase self w).world = .ok (.obj stored) ∧
      (∀ k, stored.has k = true ↔
        k = essential ∨ k ∈ (JSObj.keys (boolRecord r)).map toLowerCase) ∧
      stored.get? essential = some (.bool true) ∧
      (∀ k, k ≠ essential → stored.has k = true → stored.get? k = some (.bool false))) ∧
    ((∀ k ∈ JSObj.keys (boolRecord r), toLowerCase k = k) →
      ∀ k, k ∈ (JSObj.keys (boolRecord r)).map toLowerCase ↔ (boolRecord r).has k = true) := by
  refine ⟨?_, ?_, ?_⟩
  · refine ⟨JSObj.fromEntries (acceptedRecord toLowerCase (JSObj.keys (boolRecord r))), ?_, ?_, ?_⟩
    · rw [acceptAllPolicies_of_policies self w _ hr]
      show policies self (trigger _ _ _ (trigger _ _ _ _)) = _
      rw [policies_congr self _ _ (trigger_jar _ _ _ _) (trigger_heap _ _ _ _),
        policies_congr self _ _ (trigger_jar _ _ _ _) (trigger_heap _ _ _ _)]
      refine policies_savePolicies_bool self _ w ?_ hkey hproto henc hwf hslot
      intro p hp
      exact ⟨true, acceptedRecord_const _ p hp⟩
    · intro k
      rw [JSObj.has_fromEntries, acceptedRecord_has]
    · intro k hk
      rw [JSObj.has_fromEntries] at hk
      have hnd : (JSObj.keys (acceptedRecord toLowerCase (JSObj.keys (boolRecord r)))).Nodup :=
        JSObj.nodup_keys_fromEntries _
      rw [JSObj.get?_fromEntries_of_nodup _ hnd]
      exact JSObj.get?_of_const _ _ (acceptedRecord_const _) k hk
  · have hnd : (JSObj.keys (rejectedRecord toLowerCase (JSObj.keys (boolRecord r)))).Nodup :=
      JSObj.nodup_keys_define _ _ _ (JSObj.nodup_keys_defineAll _ _ List.nodup_nil)
    refine ⟨JSObj.fromEntries (rejectedRecord toLowerCase (JSObj.keys (boolRecord r))), ?_, ?_, ?_, ?_⟩
    · rw [rejectAllPolicies_of_policies self w _ hr]
      show policies self (trigger _ _ _ (trigger _ _ _ _)) = _
      rw [policies_congr self _ _ (trigger_jar _ _ _ _) (trigger_heap _ _ _ _),
        policies_congr self _ _ (trigger_jar _ _ _ _) (trigger_heap _ _ _ _)]
      refine policies_savePolicies_bool self _ w ?_ hkey hproto henc hwf hslot
      intro p hp
      have := JSObj.get?_eq_some_iff_mem _ hnd p.1 p.2
      have hg := this.2 hp
      rw [rejectedRecord_get?] at hg
      split_ifs at hg
      · exact ⟨true, (Option.some.inj hg).symm⟩
      · exact ⟨false, (Option.some.inj hg).symm⟩
    · intro k
      rw [JSObj.has_fromEntries, rejectedRecord_has]
    · rw [JSObj.get?_fromEntries_of_nodup _ hnd, rejectedRecord_get?, if_pos rfl]
    · intro k hk hh
      rw [JSObj.has_fromEntries, rejectedRecord_has] at hh
      rw [JSObj.get?_fromEntries_of_nodup _ hnd, rejectedRecord_get?, if_neg hk]
      rcases hh with h | h
      · exact absurd h hk
      · rw [if_pos h]
  · intro hfix k
    rw [map_toLowerCase_of_fixed _ hfix, JSObj.has_iff_mem_keys]

/-- Witness of C7 on the store constructed over empty storage. -/
theorem C7_witness :
    ∃ stored : JSObj JSON,
      policies 0 (rejectAllPolicies asciiToLowerCase 0 (constructor asciiToLowerCase [] {} {}).world).world =
        .ok (.obj stored) ∧
      stored.get? essential = some (.bool true) :=
  let ⟨stored, h1, _, h3, _⟩ :=
    (C7_acceptAll_rejectAll asciiToLowerCase (constructor asciiToLowerCase [] {} {}).world 0
      [("usage".toList, false), ("settings".toList, false), ("essential".toList, true)]
      (by decide) (by decide) (by decide) (by decide) (by decide) (by decide)).2.1
  ⟨stored, h1, h3⟩

/-- C7 as stated fails for a key that is not in lower case: after
`setPolicy("Marketing", false)` the record has the key `Marketing`, and
`acceptAllPolicies()` leaves a record without it, holding `marketing` instead. -/
theorem C7_counterexample :
    isPolicyAccepted 0 "Marketing".toList
        (setPolicy 0 "Marketing".toList (.bool false) (constructor asciiToLowerCase [] {} {}).world).world =
        .ok (some false) ∧
      isPolicyAccepted 0 "Marketing".toList
        (acceptAllPolicies asciiToLowerCase 0
          (setPolicy 0 "Marketing".toList (.bool false)
            (constructor asciiToLowerCase [] {} {}).world).world).world = .ok none ∧
      isPolicyAccepted 0 "marketing".toList
        (acceptAllPolicies asciiToLowerCase 0
          (setPolicy 0 "Marketing".toList (.bool false)
            (constructor asciiToLowerCase [] {} {}).world).world).world = .ok (some true) := by
  decide

end Cookies

namespace Cookies

/-! ### The notifications of the wrappers, in every state -/

/-- The observer calls of `acceptPolicy(p)` for `p` other than `essential`, in
every state whose stored record reads as an object: after the calls made while
saving, the `changePolicy` observers are called by `setPolicy`, then the
`acceptPolicy` observers, then the `changePolicy` observers once more. -/
theorem acceptPolicy_calls (w : World) (self : Nat) (p : Str) (r : JSObj JSON)
    (hp : p ≠ essential) (hr : policies self w = .ok (.obj r)) :
    (acceptPolicy self p w).world.calls =
      (savePolicies self
        (((JSObj.defineAll [] r).define p (.bool true)).define essential (.bool true)) w).calls ++
      ((((w.fields self).events.get? "changePolicy".toList).getD []).map (fun cb =>
        ({ callback := cb, self := self, data := .record [(p, .bool true)] } : Invocation))) ++
      ((((w.fields self).events.get? "acceptPolicy".toList).getD []).map (fun cb =>
        ({ callback := cb, self := self, data := .policy p } : Invocation))) ++
      ((((w.fields self).events.get? "changePolicy".toList).getD []).map (fun cb =>
        ({ callback := cb, self := self, data := .record [(p, .bool true)] } : Invocation))) := by
  unfold acceptPolicy
  rw [setPolicy_of_policies self p (.bool true) w r hp hr]
  simp only [trigger_calls, trigger_fields, savePolicies_fields]

/-- The observer calls of `rejectPolicy(p)` for `p` other than `essential`,
likewise. -/
theorem rejectPolicy_calls (w : World) (self : Nat) (p : Str) (r : JSObj JSON)
    (hp : p ≠ essential) (hr : policies self w = .ok (.obj r)) :
    (rejectPolicy self p w).world.calls =
      (savePolicies self
        (((JSObj.defineAll [] r).define p (.bool false)).define essential (.bool true)) w).calls ++
      ((((w.fields self).events.get? "changePolicy".toList).getD []).map (fun cb =>
        ({ callback := cb, self := self, data := .record [(p, .bool false)] } : Invocation))) ++
      ((((w.fields self).events.get? "rejectPolicy".toList).getD []).map (fun cb =>
        ({ callback := cb, self := self, data := .policy p } : Invocation))) ++
      ((((w.fields self).events.get? "changePolicy".toList).getD []).map (fun cb =>
        ({ callback := cb, self := self, data := .record [(p, .bool false)] } : Invocation))) := by
  unfold rejectPolicy
  rw [setPolicy_of_policies self p (.bool false) w r hp hr]
  simp only [trigger_calls, trigger_fields, savePolicies_fields]

/-- The wrappers on `essential`, in every state: storage is left alone, and the
observers of the wrapper's own event and of `changePolicy` are called. -/
theorem wrappers_on_essential (w : World) (self : Nat) :
    (acceptPolicy self essential w).world.jar = w.jar ∧
    (acceptPolicy self essential w).world.written = w.written ∧
    (acceptPolicy self essential w).world.calls = w.calls ++
      ((((w.fields self).events.get? "acceptPolicy".toList).getD []).map (fun cb =>
        ({ callback := cb, self := self, data := .policy essential } : Invocation))) ++
      ((((w.fields self).events.get? "changePolicy".toList).getD []).map (fun cb =>
        ({ callback := cb, self := self,
           data := .record [(essential, .bool true)] } : Invocation))) ∧
    (rejectPolicy self essential w).world.jar = w.jar ∧
    (rejectPolicy self essential w).world.written = w.written ∧
    (rejectPolicy self essential w).world.calls = w.calls ++
      ((((w.fields self).events.get? "rejectPolicy".toList).getD []).map (fun cb =>
        ({ callback := cb, self := self, data := .policy essential } : Invocation))) ++
      ((((w.fields self).events.get? "changePolicy".toList).getD []).map (fun cb =>
        ({ callback := cb, self := self,
           data := .record [(essential, .bool false)] } : Invocation))) := by
  have h : ∀ b, setPolicy self essential b w = { world := w, result := .ok () } := by
    intro b; unfold setPolicy; rw [if_pos rfl]
  unfold acceptPolicy rejectPolicy
  rw [h, h]
  simp only [trigger_calls, trigger_fields, trigger_jar, trigger_written, and_self]

/-- The record `acceptAllPolicies` saves has the key `essential` only when the
stored record has a key whose lower-case form is `essential`; the records of
`init`, `setPolicy` and `rejectAllPolicies` always map `essential` to `true`. -/
theorem essential_in_saved_records {toLowerCase : Str → Str} (extra keys : List Str) (r : JSObj JSON) (p : Str)
    (accepted : JSON) :
    (JSObj.has (acceptedRecord toLowerCase keys) essential = true ↔ essential ∈ keys.map toLowerCase) ∧
    JSObj.get? (rejectedRecord toLowerCase keys) essential = some (.bool true) ∧
    JSObj.get? (seedRecord toLowerCase extra r) essential = some (.bool true) ∧
    JSObj.get? (((JSObj.defineAll [] r).define p accepted).define essential (.bool true))
      essential = some (.bool true) := by
  refine ⟨acceptedRecord_has keys essential, ?_, ?_, ?_⟩
  · rw [rejectedRecord_get?, if_pos rfl]
  · unfold seedRecord
    rw [JSObj.get?_define, if_pos rfl]
  · rw [JSObj.get?_define, if_pos rfl]

end Cookies

namespace Cookies

/-! ## Deleting cookies -/

/-- The loop of `all` never creates a property with the empty name or the name
`__proto__`. -/
theorem allStep_has_hidden (o : JSObj (Option Str)) (x k : Str) (hk : k = [] ∨ k = protoName) :
    JSObj.has (allStep o x) k = JSObj.has o k := by
  unfold allStep
  cases hsplit : splitOn '=' (trim x) with
  | nil => rfl
  | cons name rest =>
    by_cases hn : name = []
    · simp only [hn, ne_eq, not_true_eq_false, if_false]
    · simp only [ne_eq, hn, not_false_eq_true, if_true]
      unfold JSObj.assign
      by_cases hp : name = protoName
      · rw [if_pos hp]
      · rw [if_neg hp, JSObj.has_define]
        have : decide (k = name) = false := by
          rcases hk with hk | hk
          · exact decide_eq_false (fun e => hn (e ▸ hk))
          · exact decide_eq_false (fun e => hp (e ▸ hk))
        rw [this, Bool.false_or]

theorem foldl_allStep_has_hidden (l : List Str) (o : JSObj (Option Str)) (k : Str)
    (hk : k = [] ∨ k = protoName) :
    JSObj.has (l.foldl allStep o) k = JSObj.has o k := by
  induction l generalizing o with
  | nil => rfl
  | cons x l ih => rw [List.foldl_cons, ih, allStep_has_hidden o x k hk]

/-- The methods `exists` and `get` never find the empty name or `__proto__`,
whatever the storage holds. -/
theorem exists_hidden (w : World) (k : Str) (hk : k = [] ∨ k = protoName) :
    «exists» k w = false := by
  have e : all w = ((splitOn ';' w.jar.read).filter (fun x => x ≠ [])).foldl allStep [] := rfl
  unfold «exists»
  rw [e, foldl_allStep_has_hidden _ _ k hk]
  rfl

theorem get_hidden (w : World) (k : Str) (hk : k = [] ∨ k = protoName) :
    get k w = .ok none := by
  unfold get
  rw [exists_hidden w k hk]
  rfl

theorem has_foldl_assign (l : Jar) (o : JSObj (Option Str)) (key : Str) (hp : key ≠ protoName) :
    JSObj.has (l.foldl (fun (o : JSObj (Option Str)) (c : StoredCookie) => JSObj.assign c.name (some c.value) o) o) key = true ↔
      (∃ c ∈ l, c.name = key) ∨ JSObj.has o key = true := by
  induction l generalizing o with
  | nil => simp
  | cons c l ih =>
    rw [List.foldl_cons, ih]
    have hd : JSObj.has (JSObj.assign c.name (some c.value) o) key = true ↔
        c.name = key ∨ JSObj.has o key = true := by
      unfold JSObj.assign
      by_cases hc : c.name = protoName
      · rw [if_pos hc]
        constructor
        · exact Or.inr
        · rintro (h | h)
          · exact absurd (h.symm.trans hc) hp
          · exact h
      · rw [if_neg hc, JSObj.has_define, Bool.or_eq_true, decide_eq_true_iff]
        constructor
        · rintro (h | h)
          · exact Or.inl h.symm
          · exact Or.inr h
        · rintro (h | h)
          · exact Or.inl h.symm
          · exact Or.inr h
    rw [hd]
    constructor
    · rintro (⟨d, hd, hn⟩ | h | h)
      · exact Or.inl ⟨d, List.mem_cons_of_mem _ hd, hn⟩
      · exact Or.inl ⟨c, List.mem_cons_self _ _, h⟩
      · exact Or.inr h
    · rintro (⟨d, hd, hn⟩ | h)
      · rcases List.mem_cons.1 hd with hd | hd
        · exact Or.inr (Or.inl (hd ▸ hn))
        · exact Or.inl ⟨d, hd, hn⟩
      · exact Or.inr (Or.inr h)

/-- The method `exists` finds a name other than `__proto__` exactly when a
stored cookie carries it, in a storage of cookies in the form `set` writes. -/
theorem exists_iff (w : World) (key : Str) (h : ∀ c ∈ w.jar, c.wellFormed)
    (hp : key ≠ protoName) :
    «exists» key w = true ↔ ∃ c ∈ w.jar, c.name = key := by
  unfold «exists»
  rw [all_eq w h, has_foldl_assign _ _ key hp]
  constructor
  · rintro (⟨c, hc, hn⟩ | h)
    · exact ⟨c, (mem_sortByPath _ _).1 hc, hn⟩
    · exact absurd h (by simp [JSObj.has])
  · rintro ⟨c, hc, hn⟩
    exact Or.inl ⟨c, (mem_sortByPath _ _).2 hc, hn⟩

/-- Storing with a `Max-Age` of zero or less only removes. -/
theorem store_neg (c : StoredCookie) (n : Int) (jar : Jar) (hn : n ≤ 0) :
    jar.store c (some n) = jar.filter (fun d => !d.sameEntry c) := by
  unfold Jar.store
  have h0 : decide (n ≤ 0) = true := decide_eq_true hn
  simp only [h0, if_true]

theorem delete_eq (self : Nat) (key : Str) (w : World) (hkey : key ≠ []) :
    delete self key "/".toList none w =
      trigger self "deleteCookie".toList (.deleteCookie key (-1) "/".toList none)
        (trigger self "setCookie".toList
          (.setCookie key [] (-1) "/".toList "Lax".toList
            (w.fields self).domain (w.fields self).secure
            (cookieString key [] (w.fields self).domain "Lax".toList "/".toList (-1)
              (w.fields self).secure))
          { w with
            jar := w.jar.assign (cookieString key [] (w.fields self).domain "Lax".toList
              "/".toList (-1) (w.fields self).secure),
            written := w.written ++ [cookieString key [] (w.fields self).domain "Lax".toList
              "/".toList (-1) (w.fields self).secure] }) := by
  unfold delete set
  simp only [hkey, if_false]
  rfl

theorem delete_nil (self : Nat) (w : World) :
    delete self [] "/".toList none w =
      trigger self "deleteCookie".toList (.deleteCookie [] (-1) "/".toList none) w := by
  unfold delete set
  simp only [if_true]
  rfl

theorem encodeURIComponent_nil : encodeURIComponent [] = [] := by
  decide

/-- What `delete(key)` leaves in the storage: it removes the cookie `set(key, …)`
writes, the one with the encoded name at the default path and the own domain of
the store. -/
theorem delete_jar (self : Nat) (key : Str) (w : World) (hkey : key ≠ []) :
    (delete self key "/".toList none w).jar =
      w.jar.filter (fun d => !d.sameEntry (policyCookie key (w.fields self).domain [])) := by
  rw [delete_eq self key w hkey, trigger_jar, trigger_jar]
  show w.jar.assign _ = _
  unfold Jar.assign
  rw [parseSetCookie_cookieString key [] _ _ _ hkey maxAge_delete_ok.1 maxAge_delete_ok.2]
  show w.jar.store _ (some (-1)) = _
  rw [store_neg _ _ _ (by decide)]
  rfl

theorem delete_heap (self : Nat) (key : Str) (w : World) :
    (delete self key "/".toList none w).heap = w.heap := by
  unfold delete
  rw [trigger_heap, set_heap]

theorem delete_fields (self : Nat) (key : Str) (w : World) (r : Nat) :
    (delete self key "/".toList none w).fields r = w.fields r := by
  unfold World.fields
  rw [delete_heap]

theorem delete_instance (self : Nat) (key : Str) (w : World) :
    (delete self key "/".toList none w)._instance = w._instance := by
  unfold delete
  rw [trigger_instance, set_instance]

/-- The cookies left by the loop of `deleteAll` over the names `names`. -/
theorem mem_foldl_delete (self : Nat) (names : List Str) (w : World) (c : StoredCookie) :
    c ∈ (names.foldl (fun acc cookie => delete self cookie "/".toList none acc) w).jar ↔
      c ∈ w.jar ∧ ∀ n ∈ names, n ≠ [] →
        c.sameEntry (policyCookie n (w.fields self).domain []) = false := by
  induction names generalizing w with
  | nil => simp
  | cons n names ih =>
    rw [List.foldl_cons, ih, delete_fields]
    by_cases hn : n = []
    · subst hn
      rw [delete_nil, trigger_jar]
      constructor
      · rintro ⟨h1, h2⟩
        refine ⟨h1, fun m hm hne => ?_⟩
        rcases List.mem_cons.1 hm with hm | hm
        · exact absurd hm hne
        · exact h2 m hm hne
      · rintro ⟨h1, h2⟩
        exact ⟨h1, fun m hm hne => h2 m (List.mem_cons_of_mem _ hm) hne⟩
    · rw [delete_jar self n w hn, List.mem_filter]
      constructor
      · rintro ⟨⟨h1, h3⟩, h2⟩
        refine ⟨h1, fun m hm hne => ?_⟩
        rcases List.mem_cons.1 hm with hm | hm
        · subst hm
          simpa using h3
        · exact h2 m hm hne
      · rintro ⟨h1, h2⟩
        refine ⟨⟨h1, ?_⟩, fun m hm hne => h2 m (List.mem_cons_of_mem _ hm) hne⟩
        simpa using h2 n (List.mem_cons_self _ _) hn

/-- The cookies `deleteAll()` leaves: those no name listed by `all` accounts
for, once that name is encoded again. -/
theorem mem_deleteAll (self : Nat) (w : World) (c : StoredCookie) :
    c ∈ (deleteAll self "/".toList none w).jar ↔
      c ∈ w.jar ∧ ∀ n ∈ JSObj.keys (all w), n ≠ [] →
        c.sameEntry (policyCookie n (w.fields self).domain []) = false := by
  unfold deleteAll
  rw [trigger_jar, mem_foldl_delete]

theorem deleteAll_sub (self : Nat) (w : World) (c : StoredCookie)
    (h : c ∈ (deleteAll self "/".toList none w).jar) : c ∈ w.jar :=
  ((mem_deleteAll self w c).1 h).1

/-- After `deleteAll()` no cookie is left under a name that encoding leaves
unchanged, when the cookies of that name sit at the default path and the own
domain of the store. -/
theorem deleteAll_removes (self : Nat) (w : World) (key : Str)
    (henc : encodeURIComponent key = key) (hp : key ≠ protoName)
    (hwf : ∀ c ∈ w.jar, c.wellFormed)
    (hslot : ∀ c ∈ w.jar, c.name = key →
      c.domain = domainAttribute (w.fields self).domain ∧ c.path = defaultPath) :
    ¬ ∃ c ∈ (deleteAll self "/".toList none w).jar, c.name = key := by
  rintro ⟨c, hc, hn⟩
  obtain ⟨hcw, hall⟩ := (mem_deleteAll self w c).1 hc
  have hkey : key ≠ [] := by
    rw [← hn]
    exact (hwf c hcw).1
  have hmem : key ∈ JSObj.keys (all w) :=
    (JSObj.has_iff_mem_keys _ _).1 ((exists_iff w key hwf hp).2 ⟨c, hcw, hn⟩)
  have hs := hall key hmem hkey
  obtain ⟨hd, hpath⟩ := hslot c hcw hn
  have : c.sameEntry (policyCookie key (w.fields self).domain []) = true := by
    unfold StoredCookie.sameEntry policyCookie
    simp [hn, henc, hd, hpath]
  rw [this] at hs
  exact absurd hs (by decide)

end Cookies

set_option maxRecDepth 100000

namespace Cookies

/-! ## C11, C12: `deleteAll` -/

theorem deleteAll_fields (self : Nat) (w : World) (r : Nat) :
    (deleteAll self "/".toList none w).fields r = w.fields r := by
  have hfold : ∀ (names : List Str) (v : World),
      (names.foldl (fun acc cookie => delete self cookie "/".toList none acc) v).heap = v.heap := by
    intro names
    induction names with
    | nil => intro v; rfl
    | cons n names ih => intro v; rw [List.foldl_cons, ih, delete_heap]
  unfold World.fields deleteAll
  rw [trigger_heap, hfold]

/-- C11: for every store whose `policiesKey` is left unchanged by
`encodeURIComponent`, over a storage of cookies in the form `set` writes in
which the cookies under the policies key sit at the default path and the own
domain of the store: after `deleteAll()` with the default arguments the getter
`policies` returns the empty record and `get(policiesKey)` returns `null`.  The
browser removes the entry of the same name, domain and path on a write with a
negative `max-age`. -/
theorem C11_deleteAll_clears_policy_record (w : World) (self : Nat)
    (henc : encodeURIComponent (w.fields self).policiesKey = (w.fields self).policiesKey)
    (hwf : ∀ c ∈ w.jar, c.wellFormed)
    (hslot : ∀ c ∈ w.jar, c.name = (w.fields self).policiesKey →
      c.domain = domainAttribute (w.fields self).domain ∧ c.path = defaultPath) :
    policies self (deleteAll self "/".toList none w) = .ok (.obj []) ∧
      get (w.fields self).policiesKey (deleteAll self "/".toList none w) = .ok none := by
  have hget : get (w.fields self).policiesKey (deleteAll self "/".toList none w) = .ok none := by
    by_cases hp : (w.fields self).policiesKey = protoName
    · exact get_hidden _ _ (Or.inr hp)
    · exact get_of_absent _ _ (fun c hc => hwf c (deleteAll_sub self w c hc)) hp
        (deleteAll_removes self w _ henc hp hwf hslot)
  refine ⟨?_, hget⟩
  unfold policies
  rw [deleteAll_fields, hget]
  decide

/-- Witness of C11: the store constructed over empty storage with the default
options, whose record `deleteAll()` removes. -/
theorem C11_witness :
    (constructor asciiToLowerCase [] {} {}).world.jar ≠ [] ∧
      policies 0 (deleteAll 0 "/".toList none (constructor asciiToLowerCase [] {} {}).world) = .ok (.obj []) ∧
      get ((constructor asciiToLowerCase [] {} {}).world.fields 0).policiesKey
        (deleteAll 0 "/".toList none (constructor asciiToLowerCase [] {} {}).world) = .ok none :=
  ⟨by decide,
    C11_deleteAll_clears_policy_record (constructor asciiToLowerCase [] {} {}).world 0
      (by decide) (by decide) (by decide)⟩

/-- Evaluates C12 on `new Cookies(); set("a b", "1"); deleteAll()`: the cookie
is stored under the encoded name `a%20b`, `all` lists that name, `delete`
encodes it once more and writes `a%2520b=; … max-age=-1`, which removes
nothing; the cookie remains and `exists("a%20b")` is still true. -/
theorem C12_deleteAll_leaves_encoded_names :
    (deleteAll 0 "/".toList none
        (set 0 "a b".toList "1".toList {} (constructor asciiToLowerCase [] {} {}).world)).jar =
      [{ name := "a%20b".toList, value := "1".toList, domain := [], path := "/".toList }] ∧
    «exists» "a%20b".toList
      (deleteAll 0 "/".toList none
        (set 0 "a b".toList "1".toList {} (constructor asciiToLowerCase [] {} {}).world)) = true ∧
    all (deleteAll 0 "/".toList none
        (set 0 "a b".toList "1".toList {} (constructor asciiToLowerCase [] {} {}).world)) =
      [("a%20b".toList, some "1".toList)] ∧
    (deleteAll 0 "/".toList none
        (set 0 "a b".toList "1".toList {} (constructor asciiToLowerCase [] {} {}).world)).written.getLast? =
      some "a%2520b=; samesite=Lax; path=/; max-age=-1; secure".toList := by
  decide

/-- What `deleteAll()` does achieve: it empties a storage in which every cookie
has a name that `encodeURIComponent` leaves unchanged (and that is not
`__proto__`) and sits at the default path and the own domain of the store. -/
theorem deleteAll_empties (w : World) (self : Nat)
    (h : ∀ c ∈ w.jar, c.wellFormed ∧ encodeURIComponent c.name = c.name ∧ c.name ≠ protoName ∧
      c.domain = domainAttribute (w.fields self).domain ∧ c.path = defaultPath) :
    (deleteAll self "/".toList none w).jar = [] ∧
      all (deleteAll self "/".toList none w) = [] ∧
      ∀ n, «exists» n (deleteAll self "/".toList none w) = false := by
  have hj : (deleteAll self "/".toList none w).jar = [] := by
    apply List.eq_nil_iff_forall_not_mem.2
    intro c hc
    have hcw := deleteAll_sub self w c hc
    obtain ⟨_, henc, hp, _, _⟩ := h c hcw
    exact deleteAll_removes self w c.name henc hp (fun d hd => (h d hd).1)
      (fun d hd _ => ⟨(h d hd).2.2.2.1, (h d hd).2.2.2.2⟩) ⟨c, hc, rfl⟩
  have ha : all (deleteAll self "/".toList none w) = [] := by
    rw [all_congr _ ({} : World) hj]
    decide
  refine ⟨hj, ha, fun n => ?_⟩
  unfold «exists»
  rw [ha]
  rfl

/-- The observers of `deleteAllCookies` are called once each, after every call
made by the deletions. -/
theorem deleteAll_calls (w : World) (self : Nat) :
    (deleteAll self "/".toList none w).calls =
      ((JSObj.keys (all w)).foldl
        (fun acc cookie => delete self cookie "/".toList none acc) w).calls ++
      ((((w.fields self).events.get? "deleteAllCookies".toList).getD []).map (fun cb =>
        ({ callback := cb, self := self,
           data := .deleteAllCookies "/".toList none } : Invocation))) := by
  have hfold : ∀ (names : List Str) (v : World),
      (names.foldl (fun acc cookie => delete self cookie "/".toList none acc) v).heap = v.heap := by
    intro names
    induction names with
    | nil => intro v; rfl
    | cons n names ih => intro v; rw [List.foldl_cons, ih, delete_heap]
  unfold deleteAll
  rw [trigger_calls]
  unfold World.fields
  rw [hfold]

/-! ## C18: `delete` -/

theorem delete_calls (self : Nat) (key : Str) (w : World) (hkey : key ≠ []) :
    (delete self key "/".toList none w).calls = w.calls ++
      ((((w.fields self).events.get? "setCookie".toList).getD []).map (fun cb =>
        ({ callback := cb, self := self,
           data := .setCookie key [] (-1) "/".toList "Lax".toList
            (w.fields self).domain (w.fields self).secure
            (cookieString key [] (w.fields self).domain "Lax".toList "/".toList (-1)
              (w.fields self).secure) } : Invocation))) ++
      ((((w.fields self).events.get? "deleteCookie".toList).getD []).map (fun cb =>
        ({ callback := cb, self := self,
           data := .deleteCookie key (-1) "/".toList none } : Invocation))) := by
  rw [delete_eq self key w hkey, trigger_calls, trigger_calls, trigger_fields]
  rfl

theorem delete_written (self : Nat) (key : Str) (w : World) (hkey : key ≠ []) :
    (delete self key "/".toList none w).written = w.written ++
      [cookieString key [] (w.fields self).domain "Lax".toList "/".toList (-1)
        (w.fields self).secure] := by
  rw [delete_eq self key w hkey, trigger_written, trigger_written]

theorem set_fields (self : Nat) (key value : Str) (options : SetOptions) (w : World) (r : Nat) :
    (set self key value options w).fields r = w.fields r := by
  unfold World.fields
  rw [set_heap]

/-- C18 (as amended): for every store configuration (any domain, any `secure`
setting), every non-empty key that `encodeURIComponent` leaves unchanged and
every value: `set(key, value)` and `delete(key)` write strings the browser files
under the same name, domain and path, the second with an empty value and
`max-age=-1`; so after `set(key, value)` followed by `delete(key)` the entry
`set` wrote is gone, whatever else the storage holds, and `exists(key)` is
false provided the storage holds cookies in the form `set` writes and no cookie
named `key` is stored under another domain or path; `delete` calls the
`setCookie` observers and then the `deleteCookie` observers, once each. -/
theorem C18_delete_removes_what_set_wrote (w : World) (self : Nat) (key value : Str)
    (hkey : key ≠ []) (henc : encodeURIComponent key = key) :
    (set self key value {} w).written = w.written ++
        [cookieString key value (w.fields self).domain "Lax".toList "/".toList
          (60 * 60 * 24 * 365) (w.fields self).secure] ∧
      (delete self key "/".toList none (set self key value {} w)).written =
        (set self key value {} w).written ++
          [cookieString key [] (w.fields self).domain "Lax".toList "/".toList (-1)
            (w.fields self).secure] ∧
      parseSetCookie (cookieString key value (w.fields self).domain "Lax".toList "/".toList
          (60 * 60 * 24 * 365) (w.fields self).secure) =
        some ({ name := key, value := encodeURIComponent value,
                domain := domainAttribute (w.fields self).domain, path := defaultPath },
              some (60 * 60 * 24 * 365)) ∧
      parseSetCookie (cookieString key [] (w.fields self).domain "Lax".toList "/".toList (-1)
          (w.fields self).secure) =
        some ({ name := key, value := [],
                domain := domainAttribute (w.fields self).domain, path := defaultPath },
              some (-1)) ∧
      (∀ c ∈ (delete self key "/".toList none (set self key value {} w)).jar,
        c ∈ w.jar ∧ ¬ (c.name = key ∧ c.domain = domainAttribute (w.fields self).domain ∧
          c.path = defaultPath)) ∧
      ((∀ c ∈ w.jar, c.wellFormed) →
        (∀ c ∈ w.jar, c.name = key →
          c.domain = domainAttribute (w.fields self).domain ∧ c.path = defaultPath) →
        «exists» key (delete self key "/".toList none (set self key value {} w)) = false) ∧
      (delete self key "/".toList none (set self key value {} w)).calls =
        (set self key value {} w).calls ++
        ((((w.fields self).events.get? "setCookie".toList).getD []).map (fun cb =>
          ({ callback := cb, self := self,
             data := .setCookie key [] (-1) "/".toList "Lax".toList
              (w.fields self).domain (w.fields self).secure
              (cookieString key [] (w.fields self).domain "Lax".toList "/".toList (-1)
                (w.fields self).secure) } : Invocation))) ++
        ((((w.fields self).events.get? "deleteCookie".toList).getD []).map (fun cb =>
          ({ callback := cb, self := self,
             data := .deleteCookie key (-1) "/".toList none } : Invocation))) := by
  have hjar : (delete self key "/".toList none (set self key value {} w)).jar =
      (w.jar.store (policyCookie key (w.fields self).domain value)
        (some (60 * 60 * 24 * 365))).filter
        (fun d => !d.sameEntry (policyCookie key (w.fields self).domain [])) := by
    rw [delete_jar _ _ _ hkey, set_fields, set_jar _ _ _ _ hkey]
  have hsame : ∀ c : StoredCookie,
      c.sameEntry (policyCookie key (w.fields self).domain []) = true ↔
        (c.name = key ∧ c.domain = domainAttribute (w.fields self).domain ∧
          c.path = defaultPath) := by
    intro c
    unfold StoredCookie.sameEntry policyCookie
    simp only [henc, Bool.and_eq_true, decide_eq_true_eq, and_assoc]
  have hmem : ∀ c ∈ (delete self key "/".toList none (set self key value {} w)).jar,
      c ∈ w.jar ∧ ¬ (c.name = key ∧ c.domain = domainAttribute (w.fields self).domain ∧
        c.path = defaultPath) := by
    intro c hc
    rw [hjar, List.mem_filter] at hc
    obtain ⟨hc1, hc2⟩ := hc
    have hc3 : ¬ c.sameEntry (policyCookie key (w.fields self).domain []) = true := by
      simpa using hc2
    refine ⟨?_, fun h => hc3 ((hsame c).2 h)⟩
    rcases mem_store_pos _ _ _ _ (by decide) hc1 with h | h
    · exfalso
      apply hc3
      rw [h, hsame]
      exact ⟨henc, rfl, rfl⟩
    · exact h.1
  refine ⟨set_written self key value w hkey, ?_, ?_, ?_, hmem, ?_, ?_⟩
  · rw [delete_written _ _ _ hkey, set_fields]
  · have := parseSetCookie_cookieString key value (w.fields self).domain (60 * 60 * 24 * 365)
      (w.fields self).secure hkey maxAge_default_ok.1 maxAge_default_ok.2
    rw [henc] at this
    exact this
  · have := parseSetCookie_cookieString key [] (w.fields self).domain (-1)
      (w.fields self).secure hkey maxAge_delete_ok.1 maxAge_delete_ok.2
    rw [henc, encodeURIComponent_nil] at this
    exact this
  · intro hwf hslot
    by_cases hp : key = protoName
    · exact exists_hidden _ _ (Or.inr hp)
    · have hnot : ¬ «exists» key
          (delete self key "/".toList none (set self key value {} w)) = true := by
        rw [exists_iff _ _ (fun c hc => hwf c (hmem c hc).1) hp]
        rintro ⟨c, hc, hn⟩
        obtain ⟨hcw, hs⟩ := hmem c hc
        exact hs ⟨hn, hslot c hcw hn⟩
      simpa using hnot
  · rw [delete_calls _ _ _ hkey, set_fields]

/-- Witness of C18: `set("theme", "dark")` then `delete("theme")` on the store
constructed over empty storage, with two observers registered. -/
theorem C18_witness :
    «exists» "theme".toList
        (set 0 "theme".toList "dark".toList {}
          («on» 0 "deleteCookie".toList 7
            («on» 0 "setCookie".toList 5 (constructor asciiToLowerCase [] {} {}).world))) = true ∧
      «exists» "theme".toList
        (delete 0 "theme".toList "/".toList none
          (set 0 "theme".toList "dark".toList {}
            («on» 0 "deleteCookie".toList 7
              («on» 0 "setCookie".toList 5 (constructor asciiToLowerCase [] {} {}).world)))) = false :=
  ⟨by decide,
    (C18_delete_removes_what_set_wrote
      («on» 0 "deleteCookie".toList 7 («on» 0 "setCookie".toList 5 (constructor asciiToLowerCase [] {} {}).world))
      0 "theme".toList "dark".toList (by decide) (by decide)).2.2.2.2.2.1
      (by decide) (by decide)⟩

/-- C18 as stated fails when a cookie of the same name is stored under another
domain: with `theme` stored under `Domain=example.org` (written here by
`set("theme", "x", {domain: "example.org"})` on a page of a host below
`example.org`), `set("theme", "dark")` followed by `delete("theme")` removes
only the entry without a domain attribute; the other one is still reported by
`document.cookie`, and `exists("theme")` is true. -/
theorem C18_counterexample :
    "theme".toList ≠ [] ∧ encodeURIComponent "theme".toList = "theme".toList ∧
    (delete 0 "theme".toList "/".toList none
        (set 0 "theme".toList "dark".toList {}
          (set 0 "theme".toList "x".toList { domain := some "example.org".toList }
            (deleteAll 0 "/".toList none (constructor asciiToLowerCase [] {} {}).world)))).jar =
      [{ name := "theme".toList, value := "x".toList, domain := "example.org".toList,
         path := "/".toList }] ∧
    «exists» "theme".toList
      (delete 0 "theme".toList "/".toList none
        (set 0 "theme".toList "dark".toList {}
          (set 0 "theme".toList "x".toList { domain := some "example.org".toList }
            (deleteAll 0 "/".toList none (constructor asciiToLowerCase [] {} {}).world)))) =
      true := by
  decide

end Cookies

set_option maxRecDepth 100000

namespace Cookies

/-! ## C14: `isPolicyAccepted` -/

/-- C14: for every stored record `R` that the getter `policies` reads as an
object and every name `n`: `isPolicyAccepted(n)` returns `null` if and only if
`n` is not a key of `R`; for a key of `R` it returns `true` if `R` maps `n` to
`true` and `false` otherwise. -/
theorem C14_isPolicyAccepted_is_three_valued (w : World) (self : Nat) (n : Str) (R : JSObj JSON)
    (hR : policies self w = .ok (.obj R)) :
    (isPolicyAccepted self n w = .ok none ↔ R.has n = false) ∧
      (R.has n = true → R.get? n = some (.bool true) →
        isPolicyAccepted self n w = .ok (some true)) ∧
      (R.has n = true → R.get? n ≠ some (.bool true) →
        isPolicyAccepted self n w = .ok (some false)) := by
  rw [isPolicyAccepted_of_policies self n w R hR]
  refine ⟨?_, ?_, ?_⟩
  · cases h : R.has n <;> simp
  · intro h1 h2
    rw [if_pos h1, decide_eq_true h2]
  · intro h1 h2
    rw [if_pos h1, decide_eq_false h2]

/-- Witness of C14: the record of the store constructed over empty storage. -/
theorem C14_witness :
    (isPolicyAccepted 0 "marketing".toList (constructor asciiToLowerCase [] {} {}).world = .ok none ↔
        JSObj.has [("usage".toList, JSON.bool false), ("settings".toList, JSON.bool false),
          ("essential".toList, JSON.bool true)] "marketing".toList = false) ∧
      (JSObj.has [("usage".toList, JSON.bool false), ("settings".toList, JSON.bool false),
          ("essential".toList, JSON.bool true)] "marketing".toList = true →
        JSObj.get? [("usage".toList, JSON.bool false), ("settings".toList, JSON.bool false),
          ("essential".toList, JSON.bool true)] "marketing".toList = some (.bool true) →
        isPolicyAccepted 0 "marketing".toList (constructor asciiToLowerCase [] {} {}).world = .ok (some true)) ∧
      (JSObj.has [("usage".toList, JSON.bool false), ("settings".toList, JSON.bool false),
          ("essential".toList, JSON.bool true)] "marketing".toList = true →
        JSObj.get? [("usage".toList, JSON.bool false), ("settings".toList, JSON.bool false),
          ("essential".toList, JSON.bool true)] "marketing".toList ≠ some (.bool true) →
        isPolicyAccepted 0 "marketing".toList (constructor asciiToLowerCase [] {} {}).world = .ok (some false)) :=
  C14_isPolicyAccepted_is_three_valued (constructor asciiToLowerCase [] {} {}).world 0 "marketing".toList
    [("usage".toList, .bool false), ("settings".toList, .bool false),
      ("essential".toList, .bool true)] (by decide)

/-! ## C15, C16: `set` -/

/-- C15: for every state of the store, every value and every options object,
`set` called with the empty name returns without a change: nothing is written
to storage, no observer is called, and the call does not raise (it has no way
to). -/
theorem C15_set_with_empty_name_is_noop (w : World) (self : Nat) (value : Str)
    (options : SetOptions) :
    set self [] value options w = w := by
  unfold set
  simp only [if_true]

/-- C16: for every non-empty key and every value, `set` assigns to
`document.cookie` exactly one string: the encoded key, `=`, the encoded value,
`;`, then ` domain=d;` if the domain `d` in force is non-empty, then
` samesite=`, `; path=`, `; max-age=` with the values in force, then `; secure`
if `secure` is in force; each option when supplied replaces the default in its
own place only.  With no options, on a store with the empty domain and `secure`
on, the string is `enc(key)=enc(value); samesite=Lax; path=/; max-age=31536000; secure`;
a domain `d` of the store adds `domain=d;` right after the value; `secure` off
removes the trailing `; secure`. -/
theorem C16_set_writes_entry_string (w : World) (self : Nat) (key value : Str)
    (options : SetOptions) (d : Str) (hkey : key ≠ []) (hd : d ≠ []) :
    (set self key value options w).written = w.written ++
        [encodeURIComponent key ++ "=".toList ++ encodeURIComponent value ++ ";".toList ++
          (if options.domain.getD (w.fields self).domain = [] then []
            else " domain=".toList ++ options.domain.getD (w.fields self).domain ++ ";".toList) ++
          " samesite=".toList ++ options.sameSite.getD "Lax".toList ++
          "; path=".toList ++ options.path.getD "/".toList ++
          "; max-age=".toList ++ intToStr (options.maxAge.getD 31536000) ++
          (if options.secure.getD (w.fields self).secure = true then "; secure".toList else [])] ∧
      ((w.fields self).domain = [] → (w.fields self).secure = true →
        (set self key value {} w).written = w.written ++
          [encodeURIComponent key ++ "=".toList ++ encodeURIComponent value ++
            "; samesite=Lax; path=/; max-age=31536000; secure".toList]) ∧
      ((w.fields self).domain = d → (w.fields self).secure = true →
        (set self key value {} w).written = w.written ++
          [encodeURIComponent key ++ "=".toList ++ encodeURIComponent value ++
            "; domain=".toList ++ d ++
            "; samesite=Lax; path=/; max-age=31536000; secure".toList]) ∧
      ((w.fields self).domain = [] → (w.fields self).secure = false →
        (set self key value {} w).written = w.written ++
          [encodeURIComponent key ++ "=".toList ++ encodeURIComponent value ++
            "; samesite=Lax; path=/; max-age=31536000".toList]) ∧
      (set self key value options w).jar = w.jar.assign
        ((set self key value options w).written.getLast?.getD []) := by
  have hgen : (set self key value options w).written = w.written ++
        [encodeURIComponent key ++ "=".toList ++ encodeURIComponent value ++ ";".toList ++
          (if options.domain.getD (w.fields self).domain = [] then []
            else " domain=".toList ++ options.domain.getD (w.fields self).domain ++ ";".toList) ++
          " samesite=".toList ++ options.sameSite.getD "Lax".toList ++
          "; path=".toList ++ options.path.getD "/".toList ++
          "; max-age=".toList ++ intToStr (options.maxAge.getD 31536000) ++
          (if options.secure.getD (w.fields self).secure = true then "; secure".toList else [])] := by
    unfold set
    simp only [hkey, if_false, trigger_written]
    by_cases h : options.domain.getD (w.fields self).domain = [] <;> simp [h]
  have hnum : intToStr 31536000 = "31536000".toList := by decide
  have hdef : (set self key value {} w).written = w.written ++
      [cookieString key value (w.fields self).domain "Lax".toList "/".toList
        (60 * 60 * 24 * 365) (w.fields self).secure] := set_written self key value w hkey
  have h365 : ((60 : Int) * 60 * 24 * 365) = 31536000 := by decide
  refine ⟨hgen, ?_, ?_, ?_, ?_⟩
  · intro h1 h2
    rw [hdef, h1, h2, h365]
    unfold cookieString
    rw [hnum]
    simp
  · intro h1 h2
    rw [hdef, h1, h2, h365]
    unfold cookieString
    rw [hnum]
    simp [hd]
  · intro h1 h2
    rw [hdef, h1, h2, h365]
    unfold cookieString
    rw [hnum]
    simp
  · rw [hgen]
    unfold set
    simp only [hkey, if_false, trigger_jar]
    by_cases h : options.domain.getD (w.fields self).domain = [] <;> simp [h]

end Cookies

set_option maxRecDepth 100000

namespace Cookies

/-- Witness of C16: `set("theme", "dark")` on the store constructed over empty
storage with the default options. -/
theorem C16_witness :
    (set 0 "theme".toList "dark".toList {} (constructor asciiToLowerCase [] {} {}).world).written =
      (constructor asciiToLowerCase [] {} {}).world.written ++
        ["theme=dark; samesite=Lax; path=/; max-age=31536000; secure".toList] :=
  (C16_set_writes_entry_string (constructor asciiToLowerCase [] {} {}).world 0 "theme".toList "dark".toList {}
    "example.org".toList (by decide) (by decide)).2.1 (by decide) (by decide)

/-- The strings of C16 on concrete stores: a store with the domain
`example.org`, a store with `secure` off, and a call that supplies only
`maxAge`. -/
theorem set_strings_evaluated :
    (set 0 "theme".toList "dark".toList {}
        (constructor asciiToLowerCase [] { domain := some "example.org".toList } {}).world).written.getLast? =
      some "theme=dark; domain=example.org; samesite=Lax; path=/; max-age=31536000; secure".toList ∧
    (set 0 "theme".toList "dark".toList {}
        (constructor asciiToLowerCase [] { secure := some false } {}).world).written.getLast? =
      some "theme=dark; samesite=Lax; path=/; max-age=31536000".toList ∧
    (set 0 "theme".toList "dark".toList { maxAge := some 60 }
        (constructor asciiToLowerCase [] {} {}).world).written.getLast? =
      some "theme=dark; samesite=Lax; path=/; max-age=60; secure".toList ∧
    (set 0 "a b".toList "x=y;z".toList { path := some "/app".toList, sameSite := some "Strict".toList }
        (constructor asciiToLowerCase [] {} {}).world).written.getLast? =
      some "a%20b=x%3Dy%3Bz; samesite=Strict; path=/app; max-age=31536000; secure".toList := by
  decide

/-! ## C19: names that encoding changes -/

/-- After `set(key, value)` on empty storage the value is found under the
encoded name: `get(enc(key))` returns `value`, and `exists(k)` holds for the
name `k = enc(key)` only.  So `exists(key)` holds exactly for the keys that
`encodeURIComponent` leaves unchanged (other than `__proto__`). -/
theorem set_then_get (w : World) (self : Nat) (key value : Str) (hkey : key ≠ [])
    (hempty : w.jar = []) :
    (∀ k, k ≠ protoName →
      («exists» k (set self key value {} w) = true ↔ k = encodeURIComponent key)) ∧
    (encodeURIComponent key ≠ protoName →
      get (encodeURIComponent key) (set self key value {} w) = .ok (some value)) := by
  have hjar : (set self key value {} w).jar = [policyCookie key (w.fields self).domain value] := by
    rw [set_jar self key value w hkey, hempty]
    rfl
  have hwf : ∀ c ∈ (set self key value {} w).jar, c.wellFormed := by
    intro c hc
    rw [hjar, List.mem_singleton] at hc
    rw [hc]
    exact policyCookie_wellFormed key _ value hkey
  constructor
  · intro k hk
    rw [exists_iff _ _ hwf hk, hjar]
    constructor
    · rintro ⟨c, hc, hn⟩
      rw [List.mem_singleton] at hc
      rw [← hn, hc]
      rfl
    · intro h
      exact ⟨_, List.mem_singleton.2 rfl, h.symm⟩
  · intro hp
    rw [get_of_present _ _ (encodeURIComponent value) hwf hp, decodeURIComponent_encodeURIComponent]
    · rfl
    · intro c hc _
      rw [hjar, List.mem_singleton] at hc
      rw [hc]
      rfl
    · exact ⟨_, by rw [hjar]; exact List.mem_singleton.2 rfl, rfl⟩

/-- Evaluates C19 on `set("a b", "1")` over empty storage (a store after
`deleteAll()`): the cookie is written under the name `a%20b`, so
`exists("a b")` is false and `get("a b")` returns `null`; the value is found
under `a%20b`.  Likewise a store constructed with the `policiesKey`
`my policies` writes its record under `my%20policies` and reads back the empty
record. -/
theorem C19_set_then_get_misses_encoded_name :
    (deleteAll 0 "/".toList none (constructor asciiToLowerCase [] {} {}).world).jar = [] ∧
    (set 0 "a b".toList "1".toList {}
        (deleteAll 0 "/".toList none (constructor asciiToLowerCase [] {} {}).world)).jar =
      [{ name := "a%20b".toList, value := "1".toList, domain := [], path := "/".toList }] ∧
    «exists» "a b".toList
      (set 0 "a b".toList "1".toList {}
        (deleteAll 0 "/".toList none (constructor asciiToLowerCase [] {} {}).world)) = false ∧
    get "a b".toList
      (set 0 "a b".toList "1".toList {}
        (deleteAll 0 "/".toList none (constructor asciiToLowerCase [] {} {}).world)) = .ok none ∧
    get "a%20b".toList
      (set 0 "a b".toList "1".toList {}
        (deleteAll 0 "/".toList none (constructor asciiToLowerCase [] {} {}).world)) = .ok (some "1".toList) ∧
    (constructor asciiToLowerCase [] { policiesKey := some "my policies".toList } {}).world.written =
      [("my%20policies=%7B%22usage%22%3Afalse%2C%22settings%22%3Afalse%2C%22essential%22%3Atrue%7D" ++
        "; samesite=Lax; path=/; max-age=31536000; secure").toList] ∧
    policies 0 (constructor asciiToLowerCase [] { policiesKey := some "my policies".toList } {}).world =
      .ok (.obj []) := by
  decide

/-! ## C17, C20: `destroy` -/

theorem destroy_jar (self : Nat) (w : World) : (destroy self w).jar = w.jar := by
  unfold destroy; rw [trigger_jar]

theorem destroy_written (self : Nat) (w : World) : (destroy self w).written = w.written := by
  unfold destroy; rw [trigger_written]

theorem destroy_heap (self : Nat) (w : World) : (destroy self w).heap = w.heap := by
  unfold destroy; rw [trigger_heap]

theorem destroy_instance (self : Nat) (w : World) : (destroy self w)._instance = none := by
  unfold destroy; rw [trigger_instance]

theorem destroy_calls (self : Nat) (w : World) :
    (destroy self w).calls = w.calls ++
      ((((w.fields self).events.get? "destroy".toList).getD []).map (fun cb =>
        ({ callback := cb, self := self, data := .empty } : Invocation))) := by
  unfold destroy; rw [trigger_calls]; rfl

/-- When the slot `Cookies._instance` is empty or holds an instance with another
`policiesKey`, the constructor takes a new object and runs `init` on it. -/
theorem constructor_of_other_key {toLowerCase : Str → Str} (extra : List Str)
    (options : Options) (w : World)
    (hfirst : ∀ existing, w._instance = some existing →
      (w.fields existing).policiesKey ≠ options.policiesKey.getD defaultPoliciesKey) :
    constructor toLowerCase extra options w =
      { world := (init toLowerCase w.heap.length
          { w with
            _instance := some w.heap.length,
            heap := w.heap ++ [{ extraPolicies := extra, domain := options.domain.getD [],
                                 secure := options.secure.getD true, events := [],
                                 policiesKey := options.policiesKey.getD defaultPoliciesKey }] }
          ).world,
        result := (init toLowerCase w.heap.length
          { w with
            _instance := some w.heap.length,
            heap := w.heap ++ [{ extraPolicies := extra, domain := options.domain.getD [],
                                 secure := options.secure.getD true, events := [],
                                 policiesKey := options.policiesKey.getD defaultPoliciesKey }] }
          ).result.map (fun _ => w.heap.length) } := by
  unfold constructor
  cases hi : w._instance with
  | none => rfl
  | some existing =>
    simp only [hfirst existing hi, if_false]

theorem init_heap {toLowerCase : Str → Str} (self : Nat) (w : World) : (init toLowerCase self w).world.heap = w.heap := by
  unfold init
  cases policies self w with
  | error e => rfl
  | ok stored =>
    dsimp only
    cases stored.ownEntries with
    | error e => rfl
    | ok entries => exact savePolicies_heap _ _ _

theorem init_instance {toLowerCase : Str → Str} (self : Nat) (w : World) : (init toLowerCase self w).world._instance = w._instance := by
  unfold init
  cases policies self w with
  | error e => rfl
  | ok stored =>
    dsimp only
    cases stored.ownEntries with
    | error e => rfl
    | ok entries => exact savePolicies_instance _ _ _

theorem init_result {toLowerCase : Str → Str} (self : Nat) (w : World) (stored : JSON) (entries : JSObj JSON)
    (hread : policies self w = .ok stored) (hentries : stored.ownEntries = .ok entries) :
    (init toLowerCase self w).result = .ok () := by
  unfold init
  rw [hread]
  simp only [hentries]

theorem init_error {toLowerCase : Str → Str} (self : Nat) (w : World) (e : JSError)
    (hread : policies self w = .error e) :
    init toLowerCase self w = { world := w, result := .error e } := by
  unfold init
  rw [hread]

theorem init_result_cases {toLowerCase : Str → Str} (self : Nat) (w : World) :
    (init toLowerCase self w).result = .ok () ∨ ∃ e, (init toLowerCase self w).result = .error e := by
  unfold init
  cases policies self w with
  | error e => exact Or.inr ⟨e, rfl⟩
  | ok stored =>
    dsimp only
    cases stored.ownEntries with
    | error e => exact Or.inr ⟨e, rfl⟩
    | ok entries => exact Or.inl rfl

end Cookies

set_option maxRecDepth 100000

namespace Cookies

/-- The construction that takes a new object, in terms of the world in which
`init` runs. -/
theorem constructor_fresh_spec {toLowerCase : Str → Str} (extra : List Str) (options : Options)
    (w : World)
    (hfirst : ∀ existing, w._instance = some existing →
      (w.fields existing).policiesKey ≠ options.policiesKey.getD defaultPoliciesKey) :
    ∃ w2 : World, w2.jar = w.jar ∧
      w2.heap = w.heap ++ [{ extraPolicies := extra, domain := options.domain.getD [],
                             secure := options.secure.getD true, events := [],
                             policiesKey := options.policiesKey.getD defaultPoliciesKey }] ∧
      w2._instance = some w.heap.length ∧
      constructor toLowerCase extra options w =
        { world := (init toLowerCase w.heap.length w2).world,
          result := (init toLowerCase w.heap.length w2).result.map (fun _ => w.heap.length) } :=
  ⟨{ w with
      _instance := some w.heap.length,
      heap := w.heap ++ [{ extraPolicies := extra, domain := options.domain.getD [],
                           secure := options.secure.getD true, events := [],
                           policiesKey := options.policiesKey.getD defaultPoliciesKey }] },
    rfl, rfl, rfl, constructor_of_other_key extra options w hfirst⟩

/-- What a construction that takes a new object leaves and returns: the new
object is registered in the slot, carries the supplied extra policies and
configuration and no observers; it is returned when the record stored under its
key is readable, and when reading the record raises, the constructor raises the
same error. -/
theorem fresh_construction {toLowerCase : Str → Str} (extra : List Str) (options : Options)
    (w : World)
    (hfirst : ∀ existing, w._instance = some existing →
      (w.fields existing).policiesKey ≠ options.policiesKey.getD defaultPoliciesKey) :
    (constructor toLowerCase extra options w).world._instance = some w.heap.length ∧
      (constructor toLowerCase extra options w).world.fields w.heap.length =
        { extraPolicies := extra, domain := options.domain.getD [],
          secure := options.secure.getD true, events := [],
          policiesKey := options.policiesKey.getD defaultPoliciesKey } ∧
      (∀ stored entries,
        storedRecord (options.policiesKey.getD defaultPoliciesKey) w = .ok stored →
        stored.ownEntries = .ok entries →
        (constructor toLowerCase extra options w).result = .ok w.heap.length) ∧
      (∀ e, storedRecord (options.policiesKey.getD defaultPoliciesKey) w = .error e →
        (constructor toLowerCase extra options w).result = .error e) := by
  obtain ⟨w2, hj, hh, hi, hc⟩ := constructor_fresh_spec extra options w hfirst
  have hf : w2.fields w.heap.length =
      { extraPolicies := extra, domain := options.domain.getD [],
        secure := options.secure.getD true, events := [],
        policiesKey := options.policiesKey.getD defaultPoliciesKey } := by
    unfold World.fields
    rw [hh, getD_append_length]
  have hpol : policies w.heap.length w2 =
      storedRecord (options.policiesKey.getD defaultPoliciesKey) w := by
    rw [policies_eq_storedRecord, hf, storedRecord_congr _ w2 w hj]
  rw [hc]
  refine ⟨?_, ?_, ?_, ?_⟩
  · show (init toLowerCase w.heap.length w2).world._instance = _
    rw [init_instance, hi]
  · show (init toLowerCase w.heap.length w2).world.fields w.heap.length = _
    unfold World.fields
    rw [init_heap, hh, getD_append_length]
  · intro stored entries hread hentries
    show (init toLowerCase w.heap.length w2).result.map _ = _
    rw [init_result _ _ stored entries (hpol.trans hread) hentries]
    rfl
  · intro e hread
    show (init toLowerCase w.heap.length w2).result.map _ = _
    rw [init_error _ _ e (hpol.trans hread)]
    rfl

/-- C3 (as amended): when `Cookies._instance` holds an instance whose
`policiesKey` is the one asked for, the constructor returns that instance and
changes nothing: heap, observers, storage and calls stay as they were and the
arguments are discarded.  When the slot is empty or holds an instance with
another `policiesKey` (even if an instance for the key asked for was
constructed earlier), the constructor creates and registers a new object with
the supplied extra policies and configuration and an empty observer table; it
returns that object when the record stored under the key is readable (absent,
or JSON text whose entries `init` can spread: for a JSON string, one without
characters outside the Basic Multilingual Plane), and when reading that record
raises, the constructor raises the same error. -/
theorem C3_constructor_by_slot (toLowerCase : Str → Str) (w : World)
    (extraPolicies : List Str) (options : Options) :
    (∀ existing, w._instance = some existing →
      (w.fields existing).policiesKey = options.policiesKey.getD defaultPoliciesKey →
      (constructor toLowerCase extraPolicies options w).world = w ∧
        (constructor toLowerCase extraPolicies options w).result = .ok existing) ∧
    ((∀ existing, w._instance = some existing →
        (w.fields existing).policiesKey ≠ options.policiesKey.getD defaultPoliciesKey) →
      (constructor toLowerCase extraPolicies options w).world._instance = some w.heap.length ∧
      (constructor toLowerCase extraPolicies options w).world.fields w.heap.length =
        { extraPolicies := extraPolicies, domain := options.domain.getD [],
          secure := options.secure.getD true, events := [],
          policiesKey := options.policiesKey.getD defaultPoliciesKey } ∧
      (∀ stored entries,
        storedRecord (options.policiesKey.getD defaultPoliciesKey) w = .ok stored →
        stored.ownEntries = .ok entries →
        (constructor toLowerCase extraPolicies options w).result = .ok w.heap.length) ∧
      (∀ e, storedRecord (options.policiesKey.getD defaultPoliciesKey) w = .error e →
        (constructor toLowerCase extraPolicies options w).result = .error e)) := by
  refine ⟨?_, fresh_construction extraPolicies options w⟩
  intro existing hreg hk
  unfold constructor
  simp only [hreg, hk, if_true, and_self]

/-- Witness of C3: a second construction with the default key returns the
first instance; a construction with the key `b` after one with the default key
returns a second object; and the same construction raises a `SyntaxError` when
the cookie `b` holds the text `x`. -/
theorem C3_witness :
    ((constructor asciiToLowerCase ["marketing".toList] { domain := some "example.org".toList }
        (constructor asciiToLowerCase [] {} {}).world).world =
        (constructor asciiToLowerCase [] {} {}).world ∧
      (constructor asciiToLowerCase ["marketing".toList] { domain := some "example.org".toList }
        (constructor asciiToLowerCase [] {} {}).world).result = .ok 0) ∧
    (constructor asciiToLowerCase ["marketing".toList] { policiesKey := some "b".toList }
        (constructor asciiToLowerCase [] {} {}).world).result = .ok 1 ∧
    (constructor asciiToLowerCase ["marketing".toList] { policiesKey := some "b".toList }
        (set 0 "b".toList "x".toList {} (constructor asciiToLowerCase [] {} {}).world)).result =
      .error .SyntaxError :=
  ⟨(C3_constructor_by_slot asciiToLowerCase (constructor asciiToLowerCase [] {} {}).world
      ["marketing".toList] { domain := some "example.org".toList }).1 0 (by decide) (by decide),
   ((C3_constructor_by_slot asciiToLowerCase (constructor asciiToLowerCase [] {} {}).world
      ["marketing".toList] { policiesKey := some "b".toList }).2 (by decide)).2.2.1
      (.obj []) [] (by decide) (by decide),
   ((C3_constructor_by_slot asciiToLowerCase
      (set 0 "b".toList "x".toList {} (constructor asciiToLowerCase [] {} {}).world)
      ["marketing".toList] { policiesKey := some "b".toList }).2 (by decide)).2.2.2
      .SyntaxError (by decide)⟩

/-- C17 (as amended): for every state of the store, `destroy()` leaves the
storage unchanged, calls each observer registered on `destroy` once, in order,
and empties the slot `Cookies._instance`; the next construction, with the same
`policiesKey` or any other, then creates and registers a new object, different
from the destroyed one, whose observer table is empty and whose extra policies
and configuration are the ones newly supplied; it returns that object when the
record stored under the policies key is readable (absent, or JSON text whose
entries `init` can spread: for a JSON string, one without characters outside
the Basic Multilingual Plane), and when reading that record raises (a
`SyntaxError` of `JSON.parse`, a `URIError` of `decodeURIComponent`), the
constructor raises the same error. -/
theorem C17_destroy_then_construct (toLowerCase : Str → Str) (w : World) (self : Nat)
    (extra : List Str) (options : Options) :
    (destroy self w).jar = w.jar ∧
      (destroy self w).written = w.written ∧
      (destroy self w).calls = w.calls ++
        ((((w.fields self).events.get? "destroy".toList).getD []).map (fun cb =>
          ({ callback := cb, self := self, data := .empty } : Invocation))) ∧
      (destroy self w)._instance = none ∧
      (self < w.heap.length → w.heap.length ≠ self) ∧
      (constructor toLowerCase extra options (destroy self w)).world._instance =
        some w.heap.length ∧
      (constructor toLowerCase extra options (destroy self w)).world.fields w.heap.length =
        { extraPolicies := extra, domain := options.domain.getD [],
          secure := options.secure.getD true, events := [],
          policiesKey := options.policiesKey.getD defaultPoliciesKey } ∧
      (∀ stored entries,
        storedRecord (options.policiesKey.getD defaultPoliciesKey) w = .ok stored →
        stored.ownEntries = .ok entries →
        (constructor toLowerCase extra options (destroy self w)).result = .ok w.heap.length) ∧
      (∀ e, storedRecord (options.policiesKey.getD defaultPoliciesKey) w = .error e →
        (constructor toLowerCase extra options (destroy self w)).result = .error e) := by
  have hfirst : ∀ existing, (destroy self w)._instance = some existing →
      ((destroy self w).fields existing).policiesKey ≠
        options.policiesKey.getD defaultPoliciesKey := by
    intro existing h
    rw [destroy_instance] at h
    cases h
  obtain ⟨h1, h2, h3, h4⟩ :=
    @fresh_construction toLowerCase extra options (destroy self w) hfirst
  rw [destroy_heap] at h1 h2 h3
  refine ⟨destroy_jar self w, destroy_written self w, destroy_calls self w,
    destroy_instance self w, fun hself => Nat.ne_of_gt hself, h1, h2, ?_, ?_⟩
  · intro stored entries hread hentries
    exact h3 stored entries
      ((storedRecord_congr _ _ _ (destroy_jar self w)).trans hread) hentries
  · intro e hread
    exact h4 e ((storedRecord_congr _ _ _ (destroy_jar self w)).trans hread)

/-- Witness of C17: the store constructed over empty storage, with an observer
registered on `destroy`; after `destroy()` the construction with the same key
and the extra policy `marketing` returns a second object, different from the
first; with the text `x` in the policies slot it raises a `SyntaxError`. -/
theorem C17_witness :
    (constructor asciiToLowerCase ["marketing".toList] {}
        (destroy 0 («on» 0 "destroy".toList 5
          (constructor asciiToLowerCase [] {} {}).world))).result = .ok 1 ∧
      (1 : Nat) ≠ 0 ∧
      (constructor asciiToLowerCase ["marketing".toList] {}
        (destroy 0 (set 0 defaultPoliciesKey "x".toList {}
          (constructor asciiToLowerCase [] {} {}).world))).result = .error .SyntaxError :=
  ⟨(C17_destroy_then_construct asciiToLowerCase
      («on» 0 "destroy".toList 5 (constructor asciiToLowerCase [] {} {}).world) 0
      ["marketing".toList] {}).2.2.2.2.2.2.2.1
      (.obj [("usage".toList, .bool false), ("settings".toList, .bool false),
        ("essential".toList, .bool true)])
      [("usage".toList, .bool false), ("settings".toList, .bool false),
        ("essential".toList, .bool true)]
      (by decide) (by decide),
   (C17_destroy_then_construct asciiToLowerCase
      («on» 0 "destroy".toList 5 (constructor asciiToLowerCase [] {} {}).world) 0
      ["marketing".toList] {}).2.2.2.2.1 (by decide),
   (C17_destroy_then_construct asciiToLowerCase
      (set 0 defaultPoliciesKey "x".toList {} (constructor asciiToLowerCase [] {} {}).world) 0
      ["marketing".toList] {}).2.2.2.2.2.2.2.2 .SyntaxError (by decide)⟩

/-- C17 as stated fails in a state whose policies slot does not hold JSON: after
`set("cookies_policy", "x")` and `destroy()` (which leaves the storage as it
is and empties the slot), the next construction with the same key raises a
`SyntaxError` out of `init` and returns no instance. -/
theorem C17_counterexample :
    (destroy 0 (set 0 defaultPoliciesKey "x".toList {}
        (constructor asciiToLowerCase [] {} {}).world)).jar =
        (set 0 defaultPoliciesKey "x".toList {} (constructor asciiToLowerCase [] {} {}).world).jar ∧
      (destroy 0 (set 0 defaultPoliciesKey "x".toList {}
        (constructor asciiToLowerCase [] {} {}).world))._instance = none ∧
      (constructor asciiToLowerCase [] {}
        (destroy 0 (set 0 defaultPoliciesKey "x".toList {}
          (constructor asciiToLowerCase [] {} {}).world))).result = .error .SyntaxError := by
  decide

/-- C20 (as amended): `destroy()` called on any instance empties the one slot
`Cookies._instance`, whichever instance is registered there; the construction
that follows, with whatever key, returns none of the objects that existed
before (it registers a new one). -/
theorem C20_destroy_empties_the_single_slot (toLowerCase : Str → Str) (w : World) (self : Nat) (extra : List Str)
    (options : Options) (other : Nat) (hother : other < w.heap.length) :
    (destroy self w)._instance = none ∧
      (constructor toLowerCase extra options (destroy self w)).result ≠ .ok other ∧
      (constructor toLowerCase extra options (destroy self w)).world._instance = some w.heap.length := by
  obtain ⟨w2, _, _, hi, hc⟩ :=
    @constructor_fresh_spec toLowerCase extra options (destroy self w)
      (fun existing h => by rw [destroy_instance] at h; cases h)
  rw [destroy_heap] at hi hc
  refine ⟨destroy_instance self w, ?_, ?_⟩
  · rw [hc]
    show (init toLowerCase w.heap.length w2).result.map _ ≠ _
    rcases init_result_cases w.heap.length w2 with h | ⟨e, h⟩
    · rw [h]
      intro heq
      have : w.heap.length = other := by
        injection heq
      exact absurd this (Nat.ne_of_gt hother)
    · rw [h]
      intro heq
      cases heq
  · rw [hc]
    show (init toLowerCase w.heap.length w2).world._instance = _
    rw [init_instance, hi]

/-- Witness of C20: instance 0 with the key `a`, then instance 1 with the key
`b`; after `destroy()` on instance 0 a construction with the key `b` does not
return instance 1. -/
theorem C20_witness :
    (constructor asciiToLowerCase [] { policiesKey := some "b".toList }
      (destroy 0
        (constructor asciiToLowerCase [] { policiesKey := some "b".toList }
          (constructor asciiToLowerCase [] { policiesKey := some "a".toList } {}).world).world)).result ≠ .ok 1 :=
  (C20_destroy_empties_the_single_slot asciiToLowerCase
    (constructor asciiToLowerCase [] { policiesKey := some "b".toList }
      (constructor asciiToLowerCase [] { policiesKey := some "a".toList } {}).world).world
    0 [] { policiesKey := some "b".toList } 1 (by decide)).2.1

/-- C20 as stated fails: instance A (number 0, key `a`) is replaced in the slot
by instance B (number 1, key `b`); a construction with `b` returns B; but after
`A.destroy()` the slot is empty and a construction with `b` returns a new
object (number 2), not B. -/
theorem C20_counterexample :
    (constructor asciiToLowerCase [] { policiesKey := some "a".toList } {}).result = .ok 0 ∧
      (constructor asciiToLowerCase [] { policiesKey := some "b".toList }
        (constructor asciiToLowerCase [] { policiesKey := some "a".toList } {}).world).result = .ok 1 ∧
      (constructor asciiToLowerCase [] { policiesKey := some "b".toList }
        (constructor asciiToLowerCase [] { policiesKey := some "b".toList }
          (constructor asciiToLowerCase [] { policiesKey := some "a".toList } {}).world).world).result = .ok 1 ∧
      (destroy 0
        (constructor asciiToLowerCase [] { policiesKey := some "b".toList }
          (constructor asciiToLowerCase [] { policiesKey := some "a".toList } {}).world).world)._instance = none ∧
      (constructor asciiToLowerCase [] { policiesKey := some "b".toList }
        (destroy 0
          (constructor asciiToLowerCase [] { policiesKey := some "b".toList }
            (constructor asciiToLowerCase [] { policiesKey := some "a".toList } {}).world).world)).result =
        .ok 2 := by
  decide

end Cookies

namespace Cookies

/-! ## The order of the properties of an object -/

theorem foldl_digits (k : Str) (n : Nat) :
    k.foldl (fun n c => 10 * n + (c.toNat - 48)) n =
      n * 10 ^ k.length + Nat.ofDigits 10 (k.map (fun c => c.toNat - 48)).reverse := by
  induction k generalizing n with
  | nil => simp
  | cons c k ih =>
    rw [List.foldl_cons, ih]
    simp only [List.map_cons, List.reverse_cons, Nat.ofDigits_append, List.length_reverse,
      List.length_map, List.length_cons, Nat.ofDigits_singleton]
    ring

theorem digitsVal_eq (k : Str) :
    digitsVal k = Nat.ofDigits 10 (k.map (fun c => c.toNat - 48)).reverse := by
  unfold digitsVal
  rw [foldl_digits]
  simp

/-- The digits of the value of a numeral without a leading zero are the digits
of the numeral. -/
theorem digits_digitsVal (c : Char) (k : Str) (hd : ∀ x ∈ c :: k, x.isDigit = true)
    (h0 : c ≠ '0') :
    Nat.digits 10 (digitsVal (c :: k)) = ((c :: k).map (fun c => c.toNat - 48)).reverse := by
  rw [digitsVal_eq]
  apply Nat.digits_ofDigits 10 (by decide)
  · intro l hl
    rw [List.mem_reverse] at hl
    obtain ⟨x, hx, rfl⟩ := List.mem_map.1 hl
    have := (isDigit_iff x).1 (hd x hx)
    omega
  · intro _
    simp only [List.map_cons, List.reverse_cons, List.getLast_append_singleton]
    have h1 := (isDigit_iff c).1 (hd c (List.mem_cons_self _ _))
    have h2 : c.toNat ≠ 48 := fun e => h0 ((char_eq_iff c '0').2 e)
    omega

theorem map_digit_inj (a b : Str) (ha : ∀ x ∈ a, x.isDigit = true)
    (hb : ∀ x ∈ b, x.isDigit = true)
    (h : a.map (fun c => c.toNat - 48) = b.map (fun c => c.toNat - 48)) : a = b := by
  induction a generalizing b with
  | nil =>
    cases b with
    | nil => rfl
    | cons d b => simp at h
  | cons c a ih =>
    cases b with
    | nil => simp at h
    | cons d b =>
      simp only [List.map_cons, List.cons.injEq] at h
      have h1 := (isDigit_iff c).1 (ha c (List.mem_cons_self _ _))
      have h2 := (isDigit_iff d).1 (hb d (List.mem_cons_self _ _))
      have hcd : c = d := (char_eq_iff c d).2 (by omega)
      rw [hcd, ih b (fun x hx => ha x (List.mem_cons_of_mem _ hx))
        (fun x hx => hb x (List.mem_cons_of_mem _ hx)) h.2]

theorem arrayIndex?_eq_some (k : Str) (i : Nat) (h : arrayIndex? k = some i) :
    k ≠ [] ∧ (∀ x ∈ k, x.isDigit = true) ∧ (k.head? = some '0' → k = ['0']) ∧
      digitsVal k = i := by
  unfold arrayIndex? at h
  split_ifs at h with hc
  obtain ⟨h1, h2, h3, _⟩ := hc
  refine ⟨h1, fun x hx => List.all_eq_true.1 h2 x hx, h3, ?_⟩
  injection h

/-- A numeral with a non-zero first digit does not have the value zero, and two
such numerals of one value are equal. -/
theorem canonical_inj (c d : Char) (a b : Str) (ha : ∀ x ∈ c :: a, x.isDigit = true)
    (hb : ∀ x ∈ d :: b, x.isDigit = true) (hc : c ≠ '0') (hd : d ≠ '0')
    (h : digitsVal (c :: a) = digitsVal (d :: b)) : c :: a = d :: b := by
  have e1 := digits_digitsVal c a ha hc
  have e2 := digits_digitsVal d b hb hd
  rw [h, e2] at e1
  exact (map_digit_inj _ _ hb ha (List.reverse_injective e1)).symm

theorem canonical_ne_zero (c : Char) (a : Str) (ha : ∀ x ∈ c :: a, x.isDigit = true)
    (hc : c ≠ '0') : digitsVal (c :: a) ≠ 0 := by
  intro h
  have e1 := digits_digitsVal c a ha hc
  rw [h, Nat.digits_zero] at e1
  simp at e1

/-- Two property names that denote the same array index are the same name. -/
theorem arrayIndex?_inj (a b : Str) (i : Nat) (ha : arrayIndex? a = some i)
    (hb : arrayIndex? b = some i) : a = b := by
  obtain ⟨a1, a2, a3, a4⟩ := arrayIndex?_eq_some a i ha
  obtain ⟨b1, b2, b3, b4⟩ := arrayIndex?_eq_some b i hb
  cases a with
  | nil => exact absurd rfl a1
  | cons c a =>
    cases b with
    | nil => exact absurd rfl b1
    | cons d b =>
      by_cases hc : c = '0'
      · have ea : c :: a = ['0'] := a3 (by rw [hc]; rfl)
        by_cases hd : d = '0'
        · have eb : d :: b = ['0'] := b3 (by rw [hd]; rfl)
          rw [ea, eb]
        · exfalso
          apply canonical_ne_zero d b b2 hd
          rw [b4, ← a4, ea]
          rfl
      · by_cases hd : d = '0'
        · have eb : d :: b = ['0'] := b3 (by rw [hd]; rfl)
          exfalso
          apply canonical_ne_zero c a a2 hc
          rw [a4, ← b4, eb]
          rfl
        · exact canonical_inj c d a b a2 b2 hc hd (a4.trans b4.symm)

theorem JSObj.ordered_nil {α : Type} : JSObj.ordered ([] : JSObj α) := List.Pairwise.nil

theorem JSObj.ordered_nodup {α : Type} (o : JSObj α) (h : JSObj.ordered o) :
    (JSObj.keys o).Nodup :=
  List.Pairwise.imp (fun hab => hab.1) h

theorem JSObj.keys_append {α : Type} (o o2 : JSObj α) :
    JSObj.keys (o ++ o2) = JSObj.keys o ++ JSObj.keys o2 := by
  unfold JSObj.keys
  rw [List.map_append]

theorem keyBefore_of_not_index (a k : Str) (hne : a ≠ k) (hk : arrayIndex? k = none) :
    keyBefore a k := by
  refine ⟨hne, ?_⟩
  cases arrayIndex? a with
  | none => exact hk
  | some i =>
    intro j hj
    rw [hk] at hj
    cases hj

/-- Placing a new array index keeps the order. -/
theorem JSObj.ordered_insertIndex {α : Type} (i : Nat) (k : Str) (v : α) (o : JSObj α)
    (ho : JSObj.ordered o) (hk : k ∉ JSObj.keys o) (hi : arrayIndex? k = some i) :
    JSObj.ordered (JSObj.insertIndex i k v o) := by
  induction o with
  | nil => exact List.pairwise_singleton _ _
  | cons p ps ih =>
    have hps : JSObj.ordered ps := (List.pairwise_cons.1 ho).2
    have hp : ∀ b ∈ JSObj.keys ps, keyBefore p.1 b := (List.pairwise_cons.1 ho).1
    have hkp : k ≠ p.1 := fun e => hk (by rw [e]; exact List.mem_cons_self _ _)
    have hkps : k ∉ JSObj.keys ps := fun e => hk (List.mem_cons_of_mem _ e)
    have hhead : ∀ (hlt : ∀ j, arrayIndex? p.1 = some j → i < j),
        JSObj.ordered ((k, v) :: p :: ps) := by
      intro hlt
      refine List.pairwise_cons.2 ⟨?_, ho⟩
      intro b hb
      show keyBefore k b
      refine ⟨fun e => hk (by rw [e]; exact hb), ?_⟩
      rw [hi]
      intro j hj
      rcases List.mem_cons.1 hb with hb | hb
      · rw [hb] at hj
        exact hlt j hj
      · have hpb := (hp b hb).2
        cases hq : arrayIndex? p.1 with
        | none =>
          rw [hq] at hpb
          rw [hpb] at hj
          cases hj
        | some j2 =>
          rw [hq] at hpb
          exact lt_trans (hlt j2 hq) (hpb j hj)
    rw [JSObj.insertIndex_cons]
    cases hq : arrayIndex? p.1 with
    | none =>
      simp only []
      exact hhead (fun j hj => by rw [hq] at hj; cases hj)
    | some j =>
      simp only []
      by_cases hlt : j < i
      · rw [if_pos hlt]
        refine List.pairwise_cons.2 ⟨?_, ih hps hkps⟩
        intro b hb
        have hb2 : b ∈ k :: JSObj.keys ps :=
          (JSObj.keys_insertIndex_perm i k v ps).mem_iff.1 hb
        rcases List.mem_cons.1 hb2 with hb2 | hb2
        · rw [hb2]
          refine ⟨fun e => hkp e.symm, ?_⟩
          rw [hq]
          intro j2 hj2
          rw [hi] at hj2
          injection hj2 with e
          rw [← e]
          exact hlt
        · exact hp b hb2
      · rw [if_neg hlt]
        apply hhead
        intro j2 hj2
        rw [hq] at hj2
        injection hj2 with e
        rw [← e]
        have hne : i ≠ j := by
          intro e2
          rw [← e2] at hq
          exact hkp (arrayIndex?_inj k p.1 i hi hq)
        omega

/-- Defining a property keeps the order. -/
theorem JSObj.ordered_define {α : Type} (k : Str) (v : α) (o : JSObj α)
    (ho : JSObj.ordered o) : JSObj.ordered (JSObj.define k v o) := by
  unfold JSObj.define
  by_cases hh : o.has k = true
  · rw [if_pos hh]
    unfold JSObj.ordered
    rw [JSObj.keys_replace]
    exact ho
  · rw [if_neg hh]
    have hk : k ∉ JSObj.keys o := fun e => hh ((JSObj.has_iff_mem_keys _ _).2 e)
    cases hi : arrayIndex? k with
    | some i => exact JSObj.ordered_insertIndex i k v o ho hk hi
    | none =>
      simp only []
      unfold JSObj.ordered
      rw [JSObj.keys_append]
      refine List.pairwise_append.2 ⟨ho, List.pairwise_singleton _ _, ?_⟩
      intro a ha b hb
      rw [show JSObj.keys [(k, v)] = [k] from rfl, List.mem_singleton] at hb
      rw [hb]
      exact keyBefore_of_not_index a k (fun e => hk (e ▸ ha)) hi

theorem JSObj.ordered_defineAll {α : Type} (l : List (Str × α)) (o : JSObj α)
    (ho : JSObj.ordered o) : JSObj.ordered (JSObj.defineAll o l) := by
  induction l generalizing o with
  | nil => exact ho
  | cons p l ih =>
    rw [JSObj.defineAll_cons]
    exact ih _ (JSObj.ordered_define _ _ _ ho)

theorem JSObj.insertIndex_last {α : Type} (i : Nat) (k : Str) (v : α) (o : JSObj α)
    (h : ∀ a ∈ o, ∃ j, arrayIndex? a.1 = some j ∧ j < i) :
    JSObj.insertIndex i k v o = o ++ [(k, v)] := by
  induction o with
  | nil => rfl
  | cons p ps ih =>
    obtain ⟨j, hj, hlt⟩ := h p (List.mem_cons_self _ _)
    rw [JSObj.insertIndex_cons, hj]
    simp only []
    rw [if_pos hlt, ih (fun a ha => h a (List.mem_cons_of_mem _ ha))]
    rfl

/-- Defining the properties of an ordered list one after another, behind the
properties that precede them, gives the list back. -/
theorem JSObj.defineAll_ordered {α : Type} (l : List (Str × α)) (acc : JSObj α)
    (h : JSObj.ordered (acc ++ l)) : JSObj.defineAll acc l = acc ++ l := by
  induction l generalizing acc with
  | nil => simp [JSObj.defineAll]
  | cons p l ih =>
    have hkeys : JSObj.keys (acc ++ p :: l) = JSObj.keys acc ++ p.1 :: JSObj.keys l := by
      rw [JSObj.keys_append]; rfl
    have hpw : (JSObj.keys acc ++ p.1 :: JSObj.keys l).Pairwise keyBefore := by
      rw [← hkeys]; exact h
    have hbefore : ∀ a ∈ JSObj.keys acc, keyBefore a p.1 := fun a ha =>
      (List.pairwise_append.1 hpw).2.2 a ha p.1 (List.mem_cons_self _ _)
    have hdef : JSObj.define p.1 p.2 acc = acc ++ [p] := by
      unfold JSObj.define
      have hh : ¬ acc.has p.1 = true := by
        intro e
        exact (hbefore p.1 ((JSObj.has_iff_mem_keys _ _).1 e)).1 rfl
      rw [if_neg hh]
      cases hi : arrayIndex? p.1 with
      | none => rfl
      | some i =>
        simp only []
        apply JSObj.insertIndex_last
        intro a ha
        have hb := (hbefore a.1 (List.mem_map_of_mem _ ha)).2
        cases hq : arrayIndex? a.1 with
        | none =>
          rw [hq] at hb
          rw [hb] at hi
          cases hi
        | some j =>
          rw [hq] at hb
          exact ⟨j, rfl, hb i hi⟩
    rw [JSObj.defineAll_cons, hdef]
    have h2 : JSObj.ordered ((acc ++ [p]) ++ l) := by
      rw [List.append_assoc]; exact h
    rw [ih _ h2, List.append_assoc]
    rfl

theorem JSObj.fromEntries_ordered {α : Type} (o : JSObj α) (h : JSObj.ordered o) :
    JSObj.fromEntries o = o := by
  unfold JSObj.fromEntries
  rw [JSObj.defineAll_ordered o [] h]
  rfl

/-- Defining a property with the value it has changes nothing. -/
theorem JSObj.define_eq_self {α : Type} (k : Str) (v : α) (o : JSObj α)
    (hn : (JSObj.keys o).Nodup) (hv : JSObj.get? o k = some v) : JSObj.define k v o = o := by
  unfold JSObj.define
  have hh : o.has k = true := by
    rw [← JSObj.get?_isSome, hv]; rfl
  rw [if_pos hh]
  conv_rhs => rw [← List.map_id o]
  apply List.map_congr_left
  intro p hp
  by_cases hk : p.1 = k
  · rw [if_pos hk]
    have h1 : JSObj.get? o p.1 = some p.2 := (JSObj.get?_eq_some_iff_mem o hn p.1 p.2).2 hp
    rw [hk, hv] at h1
    injection h1 with h1
    rw [h1]
    rfl
  · rw [if_neg hk]
    rfl

end Cookies

namespace Cookies

/-! ## Writing the same cookie twice, and reading another name -/

theorem sameEntry_self (c : StoredCookie) : c.sameEntry c = true := by
  unfold StoredCookie.sameEntry
  simp

theorem sameEntry_name (a b : StoredCookie) (h : a.sameEntry b = true) : a.name = b.name := by
  unfold StoredCookie.sameEntry at h
  simp only [Bool.and_eq_true, decide_eq_true_eq] at h
  exact h.1.1

theorem sameEntry_path (a b : StoredCookie) (h : a.sameEntry b = true) : a.path = b.path := by
  unfold StoredCookie.sameEntry at h
  simp only [Bool.and_eq_true, decide_eq_true_eq] at h
  exact h.2

/-- Storing a cookie a second time changes nothing. -/
theorem store_store (c : StoredCookie) (n : Int) (jar : Jar) (hn : 0 < n) :
    (jar.store c (some n)).store c (some n) = jar.store c (some n) := by
  have hmem := fun x => mem_store_pos c x n jar hn
  have hself := self_mem_store_pos c n jar hn
  generalize jar.store c (some n) = J at hmem hself
  unfold Jar.store
  have h0 : decide (n ≤ 0) = false := by simpa using hn
  have ha : J.any (fun d => d.sameEntry c) = true :=
    List.any_eq_true.2 ⟨c, hself, sameEntry_self c⟩
  simp only [h0, Bool.false_eq_true, if_false, ha, if_true]
  conv_rhs => rw [← List.map_id J]
  apply List.map_congr_left
  intro d hd
  rcases hmem d hd with h | h
  · rw [h, sameEntry_self, if_pos rfl]
    rfl
  · rw [h.2]
    rfl

/-- Looking a name up after the loop of `all` depends on the cookies of that
name only. -/
theorem get?_foldl_assign_filter (l : Jar) (o o2 : JSObj (Option Str)) (k : Str)
    (hk : k ≠ protoName) (ho : JSObj.get? o k = JSObj.get? o2 k) :
    JSObj.get? (l.foldl (fun (o : JSObj (Option Str)) (c : StoredCookie) => JSObj.assign c.name (some c.value) o) o) k =
      JSObj.get? ((l.filter (fun c => decide (c.name = k))).foldl (fun (o : JSObj (Option Str)) (c : StoredCookie) => JSObj.assign c.name (some c.value) o) o2) k := by
  induction l generalizing o o2 with
  | nil => exact ho
  | cons c l ih =>
    rw [List.foldl_cons]
    by_cases hc : c.name = k
    · rw [List.filter_cons_of_pos (by simpa using hc), List.foldl_cons]
      apply ih
      rw [JSObj.get?_assign _ _ _ _ hk, JSObj.get?_assign _ _ _ _ hk, if_pos hc.symm, if_pos hc.symm]
    · rw [List.filter_cons_of_neg (by simpa using hc)]
      apply ih
      rw [JSObj.get?_assign _ _ _ _ hk, if_neg (fun e => hc e.symm)]
      exact ho

theorem insertByPath_map (f : StoredCookie → StoredCookie) (hf : ∀ d, (f d).path = d.path)
    (c : StoredCookie) (acc : Jar) :
    insertByPath (f c) (acc.map f) = (insertByPath c acc).map f := by
  induction acc with
  | nil => rfl
  | cons d rest ih =>
    simp only [List.map_cons, insertByPath, hf]
    by_cases h : d.path.length < c.path.length
    · rw [if_pos h, if_pos h]
      rfl
    · rw [if_neg h, if_neg h, List.map_cons, ih]

theorem sortByPath_map (f : StoredCookie → StoredCookie) (hf : ∀ d, (f d).path = d.path)
    (jar : Jar) : sortByPath (jar.map f) = (sortByPath jar).map f := by
  have hgen : ∀ (acc : Jar),
      (jar.map f).foldl (fun acc c => insertByPath c acc) (acc.map f) =
        (jar.foldl (fun acc c => insertByPath c acc) acc).map f := by
    induction jar with
    | nil => intro acc; rfl
    | cons c jar ih =>
      intro acc
      rw [List.map_cons, List.foldl_cons, List.foldl_cons, insertByPath_map f hf, ih]
  exact hgen []

theorem filter_insertByPath (p : StoredCookie → Bool) (c : StoredCookie) (acc : Jar)
    (hc : p c = false) : (insertByPath c acc).filter p = acc.filter p := by
  induction acc with
  | nil => simp [insertByPath, hc]
  | cons d rest ih =>
    simp only [insertByPath]
    by_cases h : d.path.length < c.path.length
    · rw [if_pos h, List.filter_cons_of_neg (by simpa using hc)]
    · rw [if_neg h]
      by_cases hd : p d = true
      · rw [List.filter_cons_of_pos hd, List.filter_cons_of_pos hd, ih]
      · rw [List.filter_cons_of_neg hd, List.filter_cons_of_neg hd, ih]

theorem filter_map_same (p : StoredCookie → Bool) (f : StoredCookie → StoredCookie)
    (l : Jar) (h1 : ∀ d, p (f d) = p d) (h2 : ∀ d, p d = true → f d = d) :
    (l.map f).filter p = l.filter p := by
  induction l with
  | nil => rfl
  | cons d l ih =>
    rw [List.map_cons]
    by_cases hd : p d = true
    · rw [List.filter_cons_of_pos (by rw [h1]; exact hd), List.filter_cons_of_pos hd, ih, h2 d hd]
    · rw [List.filter_cons_of_neg (by rw [h1]; exact hd), List.filter_cons_of_neg hd, ih]

/-- Storing a cookie leaves the cookies of every other name as they are
reported. -/
theorem filter_sortByPath_store (c : StoredCookie) (n : Int) (jar : Jar) (k : Str)
    (hn : 0 < n) (hc : c.name ≠ k) :
    (sortByPath (jar.store c (some n))).filter (fun d => decide (d.name = k)) =
      (sortByPath jar).filter (fun d => decide (d.name = k)) := by
  unfold Jar.store
  have h0 : decide (n ≤ 0) = false := by simpa using hn
  simp only [h0, Bool.false_eq_true, if_false]
  by_cases ha : jar.any (fun d => d.sameEntry c) = true
  · rw [if_pos ha, sortByPath_map]
    · apply filter_map_same
      · intro d
        by_cases hs : d.sameEntry c = true
        · rw [if_pos hs, sameEntry_name d c hs]
        · rw [if_neg hs]
      · intro d hd
        have hdk : d.name = k := by simpa using hd
        have hs : ¬ d.sameEntry c = true := fun hs => hc ((sameEntry_name d c hs).symm.trans hdk)
        rw [if_neg hs]
    · intro d
      by_cases hs : d.sameEntry c = true
      · rw [if_pos hs, sameEntry_path d c hs]
      · rw [if_neg hs]
  · rw [if_neg ha]
    have : sortByPath (jar ++ [c]) = insertByPath c (sortByPath jar) := by
      unfold sortByPath
      rw [List.foldl_append]
      rfl
    rw [this, filter_insertByPath _ _ _ (by simpa using hc)]

/-- Storing a cookie does not change what `get` returns for another name. -/
theorem get_store_other (w1 w : World) (c : StoredCookie) (n : Int) (k : Str)
    (hj : w1.jar = w.jar.store c (some n)) (hn : 0 < n)
    (hwf : ∀ d ∈ w.jar, d.wellFormed) (hcwf : c.wellFormed) (hc : c.name ≠ k)
    (hk : k ≠ protoName) : get k w1 = get k w := by
  have hwf1 : ∀ d ∈ w1.jar, d.wellFormed := by
    intro d hd
    rw [hj] at hd
    rcases mem_store_pos c d n w.jar hn hd with h | h
    · rw [h]; exact hcwf
    · exact hwf d h.1
  have hall : JSObj.get? (all w1) k = JSObj.get? (all w) k := by
    rw [all_eq w1 hwf1, all_eq w hwf, get?_foldl_assign_filter _ [] [] k hk rfl,
      get?_foldl_assign_filter (sortByPath w.jar) [] [] k hk rfl, hj,
      filter_sortByPath_store c n w.jar k hn hc]
  unfold get «exists»
  rw [← JSObj.get?_isSome, ← JSObj.get?_isSome, hall]

end Cookies

set_option maxRecDepth 100000

namespace Cookies

/-! ## C13: accepting a policy twice -/

theorem set_nil (self : Nat) (value : Str) (options : SetOptions) (w : World) :
    set self [] value options w = w := by
  unfold set
  simp only [if_true]

theorem set_calls_extend (self : Nat) (key value : Str) (w : World) :
    ∃ pre, (set self key value {} w).calls = w.calls ++ pre := by
  by_cases hkey : key = []
  · exact ⟨[], by rw [hkey, set_nil, List.append_nil]⟩
  · exact ⟨_, set_calls self key value w hkey⟩

theorem encodeURIComponent_protoName : encodeURIComponent protoName = protoName := by
  decide

theorem parse_empty_record : JSON.parse "\x7b\x7d".toList = .ok (.obj []) := by
  decide

/-- A store whose `policiesKey` is `__proto__` reads the empty record in every
state. -/
theorem policies_under_proto (self : Nat) (w : World)
    (h : (w.fields self).policiesKey = protoName) : policies self w = .ok (.obj []) := by
  rw [policies_eq_storedRecord]
  unfold storedRecord
  rw [get_hidden w _ (Or.inr h)]
  exact parse_empty_record

/-- The record `setPolicy(p, true)` saves is a fixed point: saved once more on
top of itself it is the same record. -/
theorem accepted_twice (p : Str) (R : JSObj JSON) (hp : p ≠ essential) :
    ((JSObj.defineAll []
        (((JSObj.defineAll [] R).define p (.bool true)).define essential (.bool true))).define p
        (.bool true)).define essential (.bool true) =
      ((JSObj.defineAll [] R).define p (.bool true)).define essential (.bool true) := by
  have hord : JSObj.ordered
      (((JSObj.defineAll [] R).define p (.bool true)).define essential (.bool true)) :=
    JSObj.ordered_define _ _ _ (JSObj.ordered_define _ _ _
      (JSObj.ordered_defineAll _ _ JSObj.ordered_nil))
  have hnd := JSObj.ordered_nodup _ hord
  have hfix : JSObj.defineAll []
      (((JSObj.defineAll [] R).define p (.bool true)).define essential (.bool true)) =
      ((JSObj.defineAll [] R).define p (.bool true)).define essential (.bool true) :=
    JSObj.fromEntries_ordered _ hord
  rw [hfix]
  have h1 : JSObj.get?
      (((JSObj.defineAll [] R).define p (.bool true)).define essential (.bool true)) p =
      some (.bool true) := by
    rw [JSObj.get?_define, if_neg hp, JSObj.get?_define, if_pos rfl]
  have h2 : JSObj.get?
      (((JSObj.defineAll [] R).define p (.bool true)).define essential (.bool true)) essential =
      some (.bool true) := by
    rw [JSObj.get?_define, if_pos rfl]
  rw [JSObj.define_eq_self p _ _ hnd h1, JSObj.define_eq_self essential _ _ hnd h2]

/-- After `setPolicy(p, true)` has saved its record, the record the store reads
leads `setPolicy(p, true)` to save the same record again. -/
theorem policies_after_accept (w : World) (self : Nat) (p : Str) (r : List (Str × Bool))
    (hp : p ≠ essential) (hwf : ∀ c ∈ w.jar, c.wellFormed)
    (hslot : ∀ c ∈ w.jar, c.name = (w.fields self).policiesKey →
      c.domain = domainAttribute (w.fields self).domain ∧ c.path = defaultPath)
    (hr : policies self w = .ok (.obj (boolRecord r))) :
    ∃ R1, policies self (savePolicies self
        (((JSObj.defineAll [] (boolRecord r)).define p (.bool true)).define essential
          (.bool true)) w) = .ok (.obj R1) ∧
      ((JSObj.defineAll [] R1).define p (.bool true)).define essential (.bool true) =
        ((JSObj.defineAll [] (boolRecord r)).define p (.bool true)).define essential
          (.bool true) := by
  by_cases hkey : (w.fields self).policiesKey = []
  · refine ⟨boolRecord r, ?_, rfl⟩
    rw [savePolicies_eq, hkey, set_nil]
    exact hr
  · by_cases hproto : (w.fields self).policiesKey = protoName
    · have h0 := policies_under_proto self w hproto
      rw [hr] at h0
      have hnil : boolRecord r = [] := by
        injection h0 with h0
        injection h0
      refine ⟨[], policies_under_proto self _ ?_, by rw [hnil]⟩
      rw [savePolicies_fields]
      exact hproto
    · by_cases henc : encodeURIComponent (w.fields self).policiesKey =
          (w.fields self).policiesKey
      · have hb : allBool (((JSObj.defineAll [] (boolRecord r)).define p (.bool true)).define
            essential (.bool true)) :=
          allBool_define _ _ _ (allBool_define _ _ _
            (allBool_defineAll _ _ (allBool_boolRecord r) allBool_nil))
        have hord : JSObj.ordered
            (((JSObj.defineAll [] (boolRecord r)).define p (.bool true)).define essential
              (.bool true)) :=
          JSObj.ordered_define _ _ _ (JSObj.ordered_define _ _ _
            (JSObj.ordered_defineAll _ _ JSObj.ordered_nil))
        refine ⟨_, policies_savePolicies_bool self _ w hb hkey hproto henc hwf hslot, ?_⟩
        rw [JSObj.fromEntries_ordered _ hord]
        exact accepted_twice p (boolRecord r) hp
      · refine ⟨boolRecord r, ?_, rfl⟩
        rw [policies_eq_storedRecord, savePolicies_fields]
        unfold storedRecord
        rw [get_store_other _ w _ _ _ (by rw [savePolicies_eq, set_jar _ _ _ _ hkey])
          (by decide) hwf (policyCookie_wellFormed _ _ _ hkey) henc hproto]
        exact hr

theorem acceptPolicy_eq (w : World) (self : Nat) (p : Str) (r : JSObj JSON)
    (hp : p ≠ essential) (hr : policies self w = .ok (.obj r)) :
    acceptPolicy self p w =
      { world := trigger self "changePolicy".toList (.record [(p, .bool true)])
          (trigger self "acceptPolicy".toList (.policy p)
            (trigger self "changePolicy".toList (.record [(p, .bool true)])
              (savePolicies self
                (((JSObj.defineAll [] r).define p (.bool true)).define essential (.bool true))
                w))),
        result := .ok () } := by
  unfold acceptPolicy
  rw [setPolicy_of_policies self p (.bool true) w r hp hr]

theorem acceptPolicy_essential_eq (w : World) (self : Nat) :
    acceptPolicy self essential w =
      { world := trigger self "changePolicy".toList (.record [(essential, .bool true)])
          (trigger self "acceptPolicy".toList (.policy essential) w),
        result := .ok () } := by
  have h : setPolicy self essential (.bool true) w = { world := w, result := .ok () } := by
    unfold setPolicy; rw [if_pos rfl]
  unfold acceptPolicy
  rw [h]

/-- The world `acceptPolicy(p)` leaves has the storage that saving the record
left and the objects it started with. -/
theorem acceptPolicy_frame (w : World) (self : Nat) (p : Str) (r : JSObj JSON)
    (hp : p ≠ essential) (hr : policies self w = .ok (.obj r)) :
    (acceptPolicy self p w).result = .ok () ∧
      (acceptPolicy self p w).world.jar = (savePolicies self
        (((JSObj.defineAll [] r).define p (.bool true)).define essential (.bool true)) w).jar ∧
      (acceptPolicy self p w).world.heap = w.heap := by
  rw [acceptPolicy_eq w self p r hp hr]
  refine ⟨rfl, ?_, ?_⟩
  · simp only [trigger_jar]
  · simp only [trigger_heap, savePolicies_heap]

/-- Saving the text that the slot was last saved with leaves the storage as it
is. -/
theorem savePolicies_again (w w1 : World) (self : Nat) (X : JSObj JSON)
    (hj : w1.jar = (savePolicies self X w).jar) (hh : w1.heap = w.heap) :
    (savePolicies self X w1).jar = w1.jar := by
  have hf : w1.fields self = w.fields self := by
    unfold World.fields; rw [hh]
  rw [savePolicies_eq, hf]
  by_cases hkey : (w.fields self).policiesKey = []
  · rw [hkey, set_nil]
  · rw [set_jar _ _ _ _ hkey, hf, hj, savePolicies_eq, set_jar _ _ _ _ hkey]
    exact store_store _ _ _ (by decide)

theorem acceptPolicy_of_error (w : World) (self : Nat) (p : Str) (e : JSError)
    (hp : p ≠ essential) (he : policies self w = .error e) :
    acceptPolicy self p w = { world := w, result := .error e } := by
  have h : setPolicy self p (.bool true) w = { world := w, result := .error e } := by
    unfold setPolicy
    rw [if_neg hp, he]
  unfold acceptPolicy
  rw [h]

/-- C13 (as amended): for every state of a store whose storage holds only what
the store writes (so that the stored record is readable) and every policy name
`p`: `acceptPolicy(p)` returns normally both times, the storage content after
two calls in a row equals the storage content after one, and the second call
still calls every observer of `acceptPolicy` and then every observer of
`changePolicy`, after whatever it calls before them.  In a state in which
reading the stored record raises, `acceptPolicy(p)` for `p` other than
`essential` raises the same error and leaves the whole state as it was, on the
first call and on the second: the storage is unchanged and no observer is
called. -/
theorem C13_acceptPolicy_twice (w : World) (self : Nat) (p : Str) :
    (StoreWritten (w.fields self).policiesKey (w.fields self).domain w →
    (acceptPolicy self p w).result = .ok () ∧
      (acceptPolicy self p (acceptPolicy self p w).world).result = .ok () ∧
      (acceptPolicy self p (acceptPolicy self p w).world).world.jar =
        (acceptPolicy self p w).world.jar ∧
      ∃ pre, (acceptPolicy self p (acceptPolicy self p w).world).world.calls =
        (acceptPolicy self p w).world.calls ++ pre ++
        ((((w.fields self).events.get? "acceptPolicy".toList).getD []).map (fun cb =>
          ({ callback := cb, self := self, data := .policy p } : Invocation))) ++
        ((((w.fields self).events.get? "changePolicy".toList).getD []).map (fun cb =>
          ({ callback := cb, self := self,
             data := .record [(p, .bool true)] } : Invocation)))) ∧
    (p ≠ essential → ∀ e, policies self w = .error e →
      acceptPolicy self p w = { world := w, result := .error e } ∧
      acceptPolicy self p (acceptPolicy self p w).world = { world := w, result := .error e }) := by
  refine ⟨fun hw => ?_, fun hp e he => ?_⟩
  swap
  · have h1 := acceptPolicy_of_error w self p e hp he
    refine ⟨h1, ?_⟩
    rw [h1]
    exact h1
  by_cases hp : p = essential
  · subst hp
    rw [acceptPolicy_essential_eq w self, acceptPolicy_essential_eq]
    refine ⟨rfl, rfl, ?_, [], ?_⟩
    · simp only [trigger_jar]
    · simp only [trigger_calls, trigger_fields, List.append_nil]
  · obtain ⟨hwf, hslot, r, hr⟩ := hw
    have hpol : policies self w = .ok (.obj (boolRecord r)) := hr
    obtain ⟨R1, hR1, hX⟩ := policies_after_accept w self p r hp hwf hslot hpol
    obtain ⟨hres, hjar, hheap⟩ := acceptPolicy_frame w self p _ hp hpol
    have hf : (acceptPolicy self p w).world.fields self = w.fields self := by
      unfold World.fields; rw [hheap]
    have hpol1 : policies self (acceptPolicy self p w).world = .ok (.obj R1) := by
      rw [policies_congr self _ _ hjar (hheap.trans (savePolicies_heap _ _ _).symm)]
      exact hR1
    obtain ⟨hres2, hjar2, _⟩ := acceptPolicy_frame (acceptPolicy self p w).world self p R1 hp hpol1
    have hcalls := acceptPolicy_calls (acceptPolicy self p w).world self p R1 hp hpol1
    rw [hX] at hjar2 hcalls
    obtain ⟨pre0, hpre⟩ := set_calls_extend self ((acceptPolicy self p w).world.fields self).policiesKey
      (JSON.stringify (.obj (((JSObj.defineAll [] (boolRecord r)).define p (.bool true)).define
        essential (.bool true)))) (acceptPolicy self p w).world
    refine ⟨hres, hres2, ?_, pre0 ++
      ((((w.fields self).events.get? "changePolicy".toList).getD []).map (fun cb =>
        ({ callback := cb, self := self,
           data := .record [(p, .bool true)] } : Invocation))), ?_⟩
    · rw [hjar2]
      exact savePolicies_again w _ self _ hjar hheap
    · rw [hcalls, savePolicies_eq, hpre, hf]
      simp only [List.append_assoc]

/-- Witness of C13: the store constructed over empty storage with one observer
on `acceptPolicy` and one on `changePolicy`; `acceptPolicy("usage")` twice
leaves the storage of one call.  With the text `x` in the policies slot, each
call raises a `SyntaxError` and leaves the state as it was. -/
theorem C13_witness :
    (acceptPolicy 0 "usage".toList
        (acceptPolicy 0 "usage".toList
          («on» 0 "changePolicy".toList 6
            («on» 0 "acceptPolicy".toList 5
              (constructor asciiToLowerCase [] {} {}).world))).world).world.jar =
      (acceptPolicy 0 "usage".toList
        («on» 0 "changePolicy".toList 6
          («on» 0 "acceptPolicy".toList 5
            (constructor asciiToLowerCase [] {} {}).world))).world.jar ∧
    acceptPolicy 0 "usage".toList
        (set 0 defaultPoliciesKey "x".toList {}
          («on» 0 "changePolicy".toList 6
            («on» 0 "acceptPolicy".toList 5 (constructor asciiToLowerCase [] {} {}).world))) =
      { world := set 0 defaultPoliciesKey "x".toList {}
          («on» 0 "changePolicy".toList 6
            («on» 0 "acceptPolicy".toList 5 (constructor asciiToLowerCase [] {} {}).world)),
        result := .error .SyntaxError } :=
  ⟨((C13_acceptPolicy_twice
      («on» 0 "changePolicy".toList 6
        («on» 0 "acceptPolicy".toList 5 (constructor asciiToLowerCase [] {} {}).world))
      0 "usage".toList).1
      ⟨by decide, by decide, [("usage".toList, false), ("settings".toList, false),
        ("essential".toList, true)], by decide⟩).2.2.1,
   ((C13_acceptPolicy_twice
      (set 0 defaultPoliciesKey "x".toList {}
        («on» 0 "changePolicy".toList 6
          («on» 0 "acceptPolicy".toList 5 (constructor asciiToLowerCase [] {} {}).world)))
      0 "usage".toList).2 (by decide) .SyntaxError (by decide)).1⟩

/-- C13 as stated fails in a state whose policies slot does not hold JSON (here
after `set("cookies_policy", "x")`): `acceptPolicy("usage")` raises a
`SyntaxError` before it writes or notifies, so the state is unchanged and on the
second call, as on the first, no observer of `acceptPolicy` or `changePolicy`
is called although one of each is registered. -/
theorem C13_counterexample :
    ((set 0 defaultPoliciesKey "x".toList {}
        («on» 0 "changePolicy".toList 6
          («on» 0 "acceptPolicy".toList 5 (constructor asciiToLowerCase [] {} {}).world))).fields 0).events =
      [("acceptPolicy".toList, [5]), ("changePolicy".toList, [6])] ∧
    (acceptPolicy 0 "usage".toList
      (set 0 defaultPoliciesKey "x".toList {}
        («on» 0 "changePolicy".toList 6
          («on» 0 "acceptPolicy".toList 5 (constructor asciiToLowerCase [] {} {}).world)))).result =
      .error .SyntaxError ∧
    (acceptPolicy 0 "usage".toList
      (acceptPolicy 0 "usage".toList
        (set 0 defaultPoliciesKey "x".toList {}
          («on» 0 "changePolicy".toList 6
            («on» 0 "acceptPolicy".toList 5 (constructor asciiToLowerCase [] {} {}).world)))).world).result =
      .error .SyntaxError ∧
    (acceptPolicy 0 "usage".toList
      (acceptPolicy 0 "usage".toList
        (set 0 defaultPoliciesKey "x".toList {}
          («on» 0 "changePolicy".toList 6
            («on» 0 "acceptPolicy".toList 5 (constructor asciiToLowerCase [] {} {}).world)))).world).world.calls =
      [] := by
  decide

end Cookies
